import Mathlib

/-!
# UNO turn engine, text editors and polynomials

The file has three parts: the two UNO engines (namespace `UNO`), the two text editors
(namespace `Editors`) and the polynomials (namespace `Poly`). The definitions of all three
parts come first, the theorems follow in the same order.

## The UNO engines

A shallow embedding of the two UNO engines of the repository:

* `UNO.cpp`: class `UNOGameImpl` (draw pile is a `std::vector`, drawn card is appended to the
  hand and the selection is re-run),
* `ayeshamobeen_513958_UNO.cpp`: class `UNOGame` with its `HiddenState` (draw pile is a
  `std::stack`, drawn card is checked directly).

Conventions of the embedding of the engines.

* Every C++ sequence container (`vector`, `list`, `stack`) is a `List` in insertion order:
  index `0` is `front()`, the last element is `back()` / `top()`; `push_back` / `push` is
  `xs ++ [c]`, `pop_back` / `pop` is `List.dropLast`.
* C++ `int` fields are `Int`.  All values that occur stay between `-1` and a small multiple of
  the number of players, so 32-bit wrap-around plays no role.
* An operation returns `Option`: `none` stands for undefined behaviour or an exception of the
  C++ program (`back()` of an empty container, an index out of range, `%` by zero).
* `std::shuffle` with the fixed seed is a deterministic function on decks; it is taken as a
  parameter `shuffle`, about which the theorems assume only that it permutes its argument.
-/

namespace UNO

/-- Card of `UNO.h`: a colour string and a value string. -/
structure Card where
  color : String
  value : String
deriving DecidableEq

/-! ## Helpers shared by both engines -/

/-- An iterator loop `for (it = hand.begin(); it != hand.end(); ++it) if (p(*it)) ...`:
the position of the first card satisfying `p`, together with the card found there. -/
def findFirst (p : Card → Bool) : List Card → Option (Nat × Card)
  | [] => none
  | c :: cs => if p c then some (0, c) else (findFirst p cs).map (fun r => (r.1 + 1, r.2))

/-- Indexing `hands[p]` with a C++ `int`; an index outside the vector is undefined. -/
def handAt (hands : List (List Card)) (p : Int) : Option (List Card) :=
  if p < 0 then none else hands[p.toNat]?

/-- C++ `a % n` on `int` (truncated remainder); `n = 0` is undefined. -/
def cmod (a n : Int) : Option Int :=
  if n = 0 then none else some (a.tmod n)

/-- The colour table of `buildDeck` / `createFullDeck`. -/
def colors : List String := ["Red", "Green", "Blue", "Yellow"]

/-- The action table of `buildDeck`, `createFullDeck` and of the priority pass. -/
def actions : List String := ["Skip", "Reverse", "Draw Two"]

/-- The cards pushed for one colour: one "0", two of each "1".."9", two of each action. -/
def colorCards (c : String) : List Card :=
  [⟨c, "0"⟩]
    ++ (List.range' 1 9).flatMap (fun i => [⟨c, toString i⟩, ⟨c, toString i⟩])
    ++ actions.flatMap (fun a => [⟨c, a⟩, ⟨c, a⟩])

/-! ## `UNO.cpp`: `UNOGameImpl` -/

/-- Data members of `UNOGameImpl`. -/
structure UNOGameImpl where
  numPlayers : Int
  currentPlayer : Int
  direction : Int
  winner : Int
  deck : List Card
  hands : List (List Card)
  discard : List Card
deriving DecidableEq

namespace UNOGameImpl

/-- The constructor `UNOGameImpl(int n)`; `hands.assign` with a negative count throws. -/
def create (n : Int) : Option UNOGameImpl :=
  if n < 0 then none
  else some
    { numPlayers := n, currentPlayer := 0, direction := 1, winner := -1,
      deck := [], hands := List.replicate n.toNat [], discard := [] }

/-- The deck after `buildDeck()`. -/
def buildDeck : List Card :=
  colors.flatMap colorCards

/-- Body of the inner deal loop: `hands[p].push_back(deck.back()); deck.pop_back();`. -/
def dealOne (g : UNOGameImpl) (p : Nat) : Option UNOGameImpl :=
  match g.deck.getLast?, g.hands[p]? with
  | some c, some h => some { g with hands := g.hands.set p (h ++ [c]), deck := g.deck.dropLast }
  | _, _ => none

/-- The inner deal loop `for (int p = 0; p < numPlayers; ++p)`. -/
def dealRound (g : UNOGameImpl) : Option UNOGameImpl :=
  (List.range g.numPlayers.toNat).foldlM dealOne g

/-- The outer deal loop `for (int i = 0; i < 7; ++i)`, with `i` iterations left. -/
def dealRounds : Nat → UNOGameImpl → Option UNOGameImpl
  | 0, g => some g
  | i + 1, g => (dealRound g).bind (dealRounds i)

/-- The method `initialize()`. -/
def initGame (shuffle : List Card → List Card) (g : UNOGameImpl) : Option UNOGameImpl :=
  (dealRounds 7 { g with deck := shuffle buildDeck }).bind fun g1 =>
    match g1.deck.getLast? with
    | some c => some { g1 with discard := g1.discard ++ [c], deck := g1.deck.dropLast }
    | none => some g1

/-- The statements `playedCard = *it; discard.push_back(playedCard); hand.erase(it);
return true;` of `tryPlayFromHand`, for the iterator `r`. -/
def playCard (g : UNOGameImpl) (player : Int) (hand : List Card) (r : Nat × Card) :
    UNOGameImpl × Option Card :=
  ({ g with discard := g.discard ++ [r.2],
            hands := g.hands.set player.toNat (hand.eraseIdx r.1) }, some r.2)

/-- Pass 3 of `tryPlayFromHand`: for each action of `pri` in order, the first card with that
value which matches `top` by colour or by value. -/
def findAction (top : Card) (hand : List Card) : List String → Option (Nat × Card)
  | [] => none
  | action :: rest =>
    match findFirst (fun c => decide (c.value = action) &&
        (decide (c.color = top.color) || decide (c.value = top.value))) hand with
    | some r => some r
    | none => findAction top hand rest

/-- The method `tryPlayFromHand(player, top, playedCard)`: the new state and the played card
(`none` when the method returns `false`). -/
def tryPlayFromHand (g : UNOGameImpl) (player : Int) (top : Card) :
    Option (UNOGameImpl × Option Card) :=
  match handAt g.hands player with
  | none => none
  | some hand =>
    match findFirst (fun c => decide (c.color = top.color)) hand with
    | some r => some (playCard g player hand r)
    | none =>
      match findFirst (fun c => decide (c.value = top.value)) hand with
      | some r => some (playCard g player hand r)
      | none =>
        match findAction top hand actions with
        | some r => some (playCard g player hand r)
        | none => some (g, none)

/-- The method `nextPlayer()`. -/
def nextPlayer (g : UNOGameImpl) : Option Int :=
  cmod (g.currentPlayer + g.direction + g.numPlayers) g.numPlayers

/-- The method `advancePlayer()`. -/
def advancePlayer (g : UNOGameImpl) : Option UNOGameImpl :=
  (nextPlayer g).map (fun c => { g with currentPlayer := c })

/-- Lines 42-54 of `playTurn`: play from the hand; if nothing was played and the deck is not
empty, draw one card, append it to the hand and try again. -/
def playPhase (g : UNOGameImpl) (top : Card) : Option (UNOGameImpl × Option Card) :=
  (tryPlayFromHand g g.currentPlayer top).bind fun r =>
    match r.2 with
    | some c => some (r.1, some c)
    | none =>
      match r.1.deck.getLast? with
      | none => some (r.1, none)
      | some drawn =>
        match handAt r.1.hands r.1.currentPlayer with
        | none => none
        | some h =>
          tryPlayFromHand
            { r.1 with deck := r.1.deck.dropLast,
                       hands := r.1.hands.set r.1.currentPlayer.toNat (h ++ [drawn]) }
            r.1.currentPlayer top

/-- The Draw Two loop `for (int i = 0; i < 2 && !deck.empty(); ++i)`, with `i` iterations
left. -/
def drawLoop (nxt : Int) : Nat → UNOGameImpl → Option UNOGameImpl
  | 0, g => some g
  | i + 1, g =>
    match g.deck.getLast? with
    | none => some g
    | some c =>
      match handAt g.hands nxt with
      | none => none
      | some h =>
        drawLoop nxt i { g with hands := g.hands.set nxt.toNat (h ++ [c]), deck := g.deck.dropLast }

/-- Lines 58-79 of `playTurn`: the effect of the played card and the number of advances. -/
def applyEffect (g : UNOGameImpl) (played : Option Card) : Option (UNOGameImpl × Nat) :=
  match played with
  | none => some (g, 1)
  | some card =>
    if card.value = "Skip" then some (g, 2)
    else if card.value = "Reverse" then
      some ({ g with direction := g.direction * -1 }, if g.numPlayers = 2 then 2 else 1)
    else if card.value = "Draw Two" then
      (nextPlayer g).bind fun nxt => (drawLoop nxt 2 g).map fun g1 => (g1, 2)
    else some (g, 1)

/-- Lines 82-87 of `playTurn`: the scan for the first empty hand, over the players `ps`. -/
def scanWinner (g : UNOGameImpl) : List Nat → Option UNOGameImpl
  | [] => some g
  | p :: ps =>
    match g.hands[p]? with
    | none => none
    | some h => if h = [] then some { g with winner := (p : Int) } else scanWinner g ps

/-- Line 90 of `playTurn`: `advancePlayer()` called `i` times. -/
def advanceLoop : Nat → UNOGameImpl → Option UNOGameImpl
  | 0, g => some g
  | i + 1, g => (advancePlayer g).bind (advanceLoop i)

/-- The method `isGameOver()`. -/
def isGameOver (g : UNOGameImpl) : Bool := decide (g.winner ≠ -1)

/-- The method `getWinner()`. -/
def getWinner (g : UNOGameImpl) : Int := g.winner

/-- Lines 56-90 of `playTurn`: apply the effect of the played card, scan for a winner, then
advance the turn. -/
def resolve (g : UNOGameImpl) (played : Option Card) : Option UNOGameImpl :=
  (applyEffect g played).bind fun e =>
    (scanWinner e.1 (List.range e.1.numPlayers.toNat)).bind fun g4 =>
      advanceLoop e.2 g4

/-- The method `playTurn()`. -/
def playTurn (g : UNOGameImpl) : Option UNOGameImpl :=
  if g.isGameOver then some g
  else
    match g.discard.getLast? with
    | none => none
    | some top => (playPhase g top).bind fun r => resolve r.1 r.2

/-- Well-formed turn state: `hands` has `numPlayers` entries, `currentPlayer` is an index of
it and `direction` is `+1` or `-1`. -/
structure WF (g : UNOGameImpl) : Prop where
  players : g.numPlayers = (g.hands.length : Int)
  cur_nonneg : 0 ≤ g.currentPlayer
  cur_lt : g.currentPlayer < g.numPlayers
  dir : g.direction = 1 ∨ g.direction = -1

/-- The state after `createUNOGame(n)`, `initialize()` and `k` calls of `playTurn()`. -/
def run (shuffle : List Card → List Card) (n : Int) : Nat → Option UNOGameImpl
  | 0 => (create n).bind (initGame shuffle)
  | k + 1 => (run shuffle n k).bind playTurn

/-- The number of cards held by the engine: draw pile, discard pile and all hands. -/
def total (g : UNOGameImpl) : Nat :=
  g.deck.length + g.discard.length + (g.hands.map List.length).sum

end UNOGameImpl

/-! ## `ayeshamobeen_513958_UNO.cpp`: `UNOGame` with `HiddenState` -/

/-- The struct `HiddenState`. -/
structure HiddenState where
  drawPile : List Card
  discardPile : List Card
  hands : List (List Card)
  currentPlayer : Int
  clockwise : Bool
  winnerIndex : Int
deriving DecidableEq

/-- The direction of play as a number: `+1` for clockwise, `-1` for counter-clockwise. -/
def HiddenState.direction (state : HiddenState) : Int :=
  if state.clockwise then 1 else -1

/-- Well-formed turn state: `currentPlayer` is an index of `hands`. -/
structure HiddenState.WF (state : HiddenState) : Prop where
  cur_nonneg : 0 ≤ state.currentPlayer
  cur_lt : state.currentPlayer < (state.hands.length : Int)

/-- The function `createFullDeck()`. -/
def createFullDeck : List Card :=
  colors.flatMap colorCards

/-- The function `cardMatches(top, c)`. -/
def cardMatches (top c : Card) : Bool :=
  decide (top.color = c.color) || decide (top.value = c.value)

/-- The turn step used by `executeAction` and `playTurn`:
`clockwise ? (currentPlayer + 1) % n : (currentPlayer - 1 + n) % n`. -/
def stepFrom (state : HiddenState) : Option Int :=
  if state.clockwise then cmod (state.currentPlayer + 1) (state.hands.length : Int)
  else cmod (state.currentPlayer - 1 + (state.hands.length : Int)) (state.hands.length : Int)

/-- The Draw Two loop of `executeAction`, `for (int i = 0; i < 2 && !drawPile.empty(); i++)`,
with `i` iterations left. -/
def drawLoopB (next : Int) : Nat → HiddenState → Option HiddenState
  | 0, state => some state
  | i + 1, state =>
    match state.drawPile.getLast? with
    | none => some state
    | some c =>
      match handAt state.hands next with
      | none => none
      | some h =>
        drawLoopB next i
          { state with hands := state.hands.set next.toNat (h ++ [c]),
                       drawPile := state.drawPile.dropLast }

/-- The function `executeAction(state, card)`. -/
def executeAction (state : HiddenState) (card : Card) : Option HiddenState :=
  if card.value = "Skip" then
    (stepFrom state).map fun c => { state with currentPlayer := c }
  else if card.value = "Reverse" then
    some { state with clockwise := !state.clockwise }
  else if card.value = "Draw Two" then
    (stepFrom state).bind fun next =>
      (drawLoopB next 2 state).map fun st => { st with currentPlayer := next }
  else some state

/-- The inner action loop of step 1 of `playTurn`, for the actions `acts` in order. -/
def findActionB (top : Card) (hand : List Card) : List String → Option (Nat × Card)
  | [] => none
  | act :: rest =>
    match findFirst (fun h => decide (h.value = act) && cardMatches top h) hand with
    | some r => some r
    | none => findActionB top hand rest

/-- Step 1 of `playTurn`: the iterator `it` (`none` for `hand.end()`). -/
def selectCard (top : Card) (hand : List Card) : Option (Nat × Card) :=
  match findFirst (fun h => decide (h.color = top.color)) hand with
  | some r => some r
  | none =>
    match findFirst (fun h => decide (h.value = top.value)) hand with
    | some r => some r
    | none => findActionB top hand actions

namespace UNOGame

/-- The constructor `UNOGame(int numPlayers)`; `hands.resize` with a negative count throws. -/
def create (numPlayers : Int) : Option HiddenState :=
  if numPlayers < 0 then none
  else some
    { drawPile := [], discardPile := [], hands := List.replicate numPlayers.toNat [],
      currentPlayer := 0, clockwise := true, winnerIndex := -1 }

/-- The inner deal loop `for (int i = 0; i < 7 && !drawPile.empty(); i++)` for one hand, with
`i` iterations left: the hand and the draw pile. -/
def dealHand : Nat → List Card → List Card → List Card × List Card
  | 0, hand, pile => (hand, pile)
  | i + 1, hand, pile =>
    match pile.getLast? with
    | none => (hand, pile)
    | some c => dealHand i (hand ++ [c]) pile.dropLast

/-- The deal loop `for (auto& hand : state->hands)` over the hands still to be dealt: the
dealt hands and the draw pile. -/
def dealHands : List (List Card) → List Card → List (List Card) × List Card
  | [], pile => ([], pile)
  | _ :: rest, pile =>
    let r := dealHand 7 [] pile
    let rs := dealHands rest r.2
    (r.1 :: rs.1, rs.2)

/-- The method `initialize()`. -/
def initGame (shuffle : List Card → List Card) (state : HiddenState) : HiddenState :=
  let deck := shuffle createFullDeck
  let dealt := dealHands state.hands deck
  match dealt.2.getLast? with
  | some c =>
    { drawPile := dealt.2.dropLast, discardPile := [c], hands := dealt.1,
      currentPlayer := 0, clockwise := true, winnerIndex := -1 }
  | none =>
    { drawPile := dealt.2, discardPile := [], hands := dealt.1,
      currentPlayer := 0, clockwise := true, winnerIndex := -1 }

/-- Steps 2 and 3 of `playTurn`: draw and maybe play the drawn card, or play the selected
card. -/
def playStep (state : HiddenState) (pid : Int) (hand : List Card) (top : Card) :
    Option HiddenState :=
  match selectCard top hand with
  | none =>
    match state.drawPile.getLast? with
    | none => some state
    | some drawn =>
      if cardMatches top drawn then
        executeAction
          { state with drawPile := state.drawPile.dropLast,
                       discardPile := state.discardPile ++ [drawn] } drawn
      else
        some { state with drawPile := state.drawPile.dropLast,
                          hands := state.hands.set pid.toNat (hand ++ [drawn]) }
  | some r =>
    executeAction
      { state with discardPile := state.discardPile ++ [r.2],
                   hands := state.hands.set pid.toNat (hand.eraseIdx r.1) } r.2

/-- Steps 4 and 5 of `playTurn`: record the winner when `hands[pid]` is empty, otherwise
advance the turn. -/
def finishTurn (state : HiddenState) (pid : Int) : Option HiddenState :=
  match handAt state.hands pid with
  | none => none
  | some hand =>
    let st := if hand = [] then { state with winnerIndex := pid } else state
    if st.winnerIndex = -1 then
      (stepFrom st).map fun c => { st with currentPlayer := c }
    else some st

/-- The method `playTurn()`. -/
def playTurn (state : HiddenState) : Option HiddenState :=
  if state.winnerIndex ≠ -1 then some state
  else
    match handAt state.hands state.currentPlayer, state.discardPile.getLast? with
    | some hand, some top =>
      (playStep state state.currentPlayer hand top).bind fun st =>
        finishTurn st state.currentPlayer
    | _, _ => none

/-- The method `isGameOver()`. -/
def isGameOver (state : HiddenState) : Bool := decide (state.winnerIndex ≠ -1)

/-- The method `getWinner()`. -/
def getWinner (state : HiddenState) : Int := state.winnerIndex

/-- The state after the constructor, `initialize()` and `k` calls of `playTurn()`. -/
def run (shuffle : List Card → List Card) (n : Int) : Nat → Option HiddenState
  | 0 => (create n).map (initGame shuffle)
  | k + 1 => (run shuffle n k).bind playTurn

/-- The number of cards held by the engine: draw pile, discard pile and all hands. -/
def total (state : HiddenState) : Nat :=
  state.drawPile.length + state.discardPile.length + (state.hands.map List.length).sum

end UNOGame

/-! ## A state of `UNO.cpp` as a state of `ayeshamobeen_513958_UNO.cpp` -/

/-- The `HiddenState` with the same hands, draw pile, discard pile, current player, direction
and winner as the engine `g` of `UNO.cpp`. -/
def toB (g : UNOGameImpl) : HiddenState :=
  { drawPile := g.deck, discardPile := g.discard, hands := g.hands,
    currentPlayer := g.currentPlayer, clockwise := decide (g.direction = 1),
    winnerIndex := g.winner }

/-! ## The selection rule in the words of the specification -/

/-- Spec wording: `c` is the front-most card of `hand` with property `P`; `pre` are the cards
in front of it and `post` the cards behind it. -/
def FrontMost (P : Card → Prop) (hand pre : List Card) (c : Card) (post : List Card) : Prop :=
  hand = pre ++ c :: post ∧ P c ∧ ∀ x ∈ pre, ¬ P x

/-- Spec wording: a card matches `top` by colour or by label. -/
def Matches (top c : Card) : Prop :=
  c.color = top.color ∨ c.value = top.value

instance (top c : Card) : Decidable (Matches top c) :=
  inferInstanceAs (Decidable (c.color = top.color ∨ c.value = top.value))

/-- Spec wording of rule (c): the front-most card whose label is the action `a` and which
matches `top`, where `a` is the first of Skip, Reverse, Draw Two (in this order) for which such
a card exists. -/
def ActionRule (top : Card) (hand pre : List Card) (c : Card) (post : List Card) : Prop :=
  ∃ before a after, ["Skip", "Reverse", "Draw Two"] = before ++ a :: after ∧
    FrontMost (fun x => x.value = a ∧ Matches top x) hand pre c post ∧
    ∀ b ∈ before, ∀ x ∈ hand, ¬ (x.value = b ∧ Matches top x)

/-- Spec wording of step 2 of `playTurn()`: the card selected from `hand` against `top` is `c`,
found between `pre` and `post`, by the first of the rules (a), (b), (c) that yields a match. -/
def Selected (top : Card) (hand pre : List Card) (c : Card) (post : List Card) : Prop :=
  FrontMost (fun x => x.color = top.color) hand pre c post
  ∨ ((∀ x ∈ hand, x.color ≠ top.color) ∧
      FrontMost (fun x => x.value = top.value) hand pre c post)
  ∨ ((∀ x ∈ hand, x.color ≠ top.color) ∧ (∀ x ∈ hand, x.value ≠ top.value) ∧
      ActionRule top hand pre c post)

/-- Spec wording of step 2 of `playTurn()`: none of the rules (a), (b), (c) yields a match. -/
def NoneSelected (top : Card) (hand : List Card) : Prop :=
  (∀ x ∈ hand, x.color ≠ top.color) ∧ (∀ x ∈ hand, x.value ≠ top.value) ∧
    ∀ a ∈ ["Skip", "Reverse", "Draw Two"], ∀ x ∈ hand, ¬ (x.value = a ∧ Matches top x)

/-! ## Example states -/

/-- A hand of three cards: Blue 3, Green 7, Red Skip. -/
def selectionHand : List Card := [⟨"Blue", "3"⟩, ⟨"Green", "7"⟩, ⟨"Red", "Skip"⟩]

/-- A one-player `UNO.cpp` state whose player holds `selectionHand`. -/
def selectionGame : UNOGameImpl :=
  { numPlayers := 1, currentPlayer := 0, direction := 1, winner := -1, deck := [],
    hands := [selectionHand], discard := [⟨"Red", "7"⟩] }

/-- A finished two-player `UNO.cpp` game: player 1 has emptied the hand and is the winner. -/
def finishedGame : UNOGameImpl :=
  { numPlayers := 2, currentPlayer := 0, direction := 1, winner := 1,
    deck := [⟨"Blue", "4"⟩], hands := [[⟨"Red", "1"⟩], []],
    discard := [⟨"Red", "5"⟩, ⟨"Red", "9"⟩] }

/-- A finished two-player game of the second engine, won by player 1. -/
def finishedState : HiddenState :=
  { drawPile := [⟨"Blue", "4"⟩], discardPile := [⟨"Red", "5"⟩, ⟨"Red", "9"⟩],
    hands := [[⟨"Red", "1"⟩], []], currentPlayer := 1, clockwise := true, winnerIndex := 1 }

/-- Three players of `UNO.cpp`; player 0 holds a Red Skip against the top card Red 5. -/
def skipBefore : UNOGameImpl :=
  { numPlayers := 3, currentPlayer := 0, direction := 1, winner := -1, deck := [],
    hands := [[⟨"Red", "Skip"⟩, ⟨"Blue", "1"⟩], [⟨"Green", "2"⟩], [⟨"Green", "3"⟩]],
    discard := [⟨"Red", "5"⟩] }

/-- The state `skipBefore` after one turn. -/
def skipAfter : UNOGameImpl :=
  { numPlayers := 3, currentPlayer := 2, direction := 1, winner := -1, deck := [],
    hands := [[⟨"Blue", "1"⟩], [⟨"Green", "2"⟩], [⟨"Green", "3"⟩]],
    discard := [⟨"Red", "5"⟩, ⟨"Red", "Skip"⟩] }

/-- Three players of the second engine; player 0 holds a Red Skip against the top card
Red 5. -/
def skipBeforeB : HiddenState :=
  { drawPile := [], discardPile := [⟨"Red", "5"⟩],
    hands := [[⟨"Red", "Skip"⟩, ⟨"Blue", "1"⟩], [⟨"Green", "2"⟩], [⟨"Green", "3"⟩]],
    currentPlayer := 0, clockwise := true, winnerIndex := -1 }

/-- The state `skipBeforeB` after one turn. -/
def skipAfterB : HiddenState :=
  { drawPile := [], discardPile := [⟨"Red", "5"⟩, ⟨"Red", "Skip"⟩],
    hands := [[⟨"Blue", "1"⟩], [⟨"Green", "2"⟩], [⟨"Green", "3"⟩]],
    currentPlayer := 2, clockwise := true, winnerIndex := -1 }

/-- Two players of `UNO.cpp`; player 0 holds a Red Reverse against the top card Red 5. -/
def reverseBefore : UNOGameImpl :=
  { numPlayers := 2, currentPlayer := 0, direction := 1, winner := -1, deck := [],
    hands := [[⟨"Red", "Reverse"⟩, ⟨"Blue", "1"⟩], [⟨"Green", "2"⟩]],
    discard := [⟨"Red", "5"⟩] }

/-- The state `reverseBefore` after one turn. -/
def reverseAfter : UNOGameImpl :=
  { numPlayers := 2, currentPlayer := 0, direction := -1, winner := -1, deck := [],
    hands := [[⟨"Blue", "1"⟩], [⟨"Green", "2"⟩]],
    discard := [⟨"Red", "5"⟩, ⟨"Red", "Reverse"⟩] }

/-- Two players of the second engine; player 0 holds a Red Reverse against the top card
Red 5. -/
def reverseBeforeB : HiddenState :=
  { drawPile := [], discardPile := [⟨"Red", "5"⟩],
    hands := [[⟨"Red", "Reverse"⟩, ⟨"Blue", "1"⟩], [⟨"Green", "2"⟩]],
    currentPlayer := 0, clockwise := true, winnerIndex := -1 }

/-- The state `reverseBeforeB` after one turn. -/
def reverseAfterB : HiddenState :=
  { drawPile := [], discardPile := [⟨"Red", "5"⟩, ⟨"Red", "Reverse"⟩],
    hands := [[⟨"Blue", "1"⟩], [⟨"Green", "2"⟩]],
    currentPlayer := 1, clockwise := false, winnerIndex := -1 }

/-- Three players of `UNO.cpp`; player 0 holds a Red Draw Two against the top card Red 5 and
the draw pile holds three cards (Yellow 3 on top). -/
def drawBefore : UNOGameImpl :=
  { numPlayers := 3, currentPlayer := 0, direction := 1, winner := -1,
    deck := [⟨"Yellow", "1"⟩, ⟨"Yellow", "2"⟩, ⟨"Yellow", "3"⟩],
    hands := [[⟨"Red", "Draw Two"⟩, ⟨"Blue", "1"⟩], [⟨"Green", "2"⟩], [⟨"Green", "3"⟩]],
    discard := [⟨"Red", "5"⟩] }

/-- The state `drawBefore` after one turn. -/
def drawAfter : UNOGameImpl :=
  { numPlayers := 3, currentPlayer := 2, direction := 1, winner := -1,
    deck := [⟨"Yellow", "1"⟩],
    hands := [[⟨"Blue", "1"⟩], [⟨"Green", "2"⟩, ⟨"Yellow", "3"⟩, ⟨"Yellow", "2"⟩],
      [⟨"Green", "3"⟩]],
    discard := [⟨"Red", "5"⟩, ⟨"Red", "Draw Two"⟩] }

/-- Three players of the second engine; player 0 holds a Red Draw Two against the top card
Red 5 and the draw pile holds three cards (Yellow 3 on top). -/
def drawBeforeB : HiddenState :=
  { drawPile := [⟨"Yellow", "1"⟩, ⟨"Yellow", "2"⟩, ⟨"Yellow", "3"⟩],
    discardPile := [⟨"Red", "5"⟩],
    hands := [[⟨"Red", "Draw Two"⟩, ⟨"Blue", "1"⟩], [⟨"Green", "2"⟩], [⟨"Green", "3"⟩]],
    currentPlayer := 0, clockwise := true, winnerIndex := -1 }

/-- The state `drawBeforeB` after one turn. -/
def drawAfterB : HiddenState :=
  { drawPile := [⟨"Yellow", "1"⟩],
    discardPile := [⟨"Red", "5"⟩, ⟨"Red", "Draw Two"⟩],
    hands := [[⟨"Blue", "1"⟩], [⟨"Green", "2"⟩, ⟨"Yellow", "3"⟩, ⟨"Yellow", "2"⟩],
      [⟨"Green", "3"⟩]],
    currentPlayer := 2, clockwise := true, winnerIndex := -1 }

/-- Seven cards, none of them Red and none of them a 5. -/
def policyHand : List Card :=
  [⟨"Blue", "1"⟩, ⟨"Blue", "2"⟩, ⟨"Green", "3"⟩, ⟨"Green", "4"⟩, ⟨"Yellow", "6"⟩,
    ⟨"Yellow", "7"⟩, ⟨"Blue", "Skip"⟩]

/-- Two players of `UNO.cpp`; top card Red 5, player 0 holds `policyHand`, the top of the draw
pile is Red 3. -/
def policyBefore : UNOGameImpl :=
  { numPlayers := 2, currentPlayer := 0, direction := 1, winner := -1,
    deck := [⟨"Green", "9"⟩, ⟨"Red", "3"⟩],
    hands := [policyHand, [⟨"Green", "8"⟩, ⟨"Yellow", "9"⟩]],
    discard := [⟨"Red", "5"⟩] }

/-- The state `policyBefore` after one turn. -/
def policyAfter : UNOGameImpl :=
  { numPlayers := 2, currentPlayer := 1, direction := 1, winner := -1,
    deck := [⟨"Green", "9"⟩],
    hands := [policyHand, [⟨"Green", "8"⟩, ⟨"Yellow", "9"⟩]],
    discard := [⟨"Red", "5"⟩, ⟨"Red", "3"⟩] }

/-- Two players of `UNO.cpp` with one card each, an empty draw pile and top card Red 5. -/
def emptyPileGame : UNOGameImpl :=
  { numPlayers := 2, currentPlayer := 0, direction := 1, winner := -1, deck := [],
    hands := [[⟨"Blue", "3"⟩], [⟨"Green", "4"⟩]], discard := [⟨"Red", "5"⟩] }

/-- Two players of the second engine with one card each, an empty draw pile and top card
Red 5. -/
def emptyPileState : HiddenState :=
  { drawPile := [], discardPile := [⟨"Red", "5"⟩],
    hands := [[⟨"Blue", "3"⟩], [⟨"Green", "4"⟩]],
    currentPlayer := 0, clockwise := true, winnerIndex := -1 }

/-- Two players of `UNO.cpp`, no winner recorded, empty draw pile, top card Red 5; player 0
holds Blue 3 and the hand of player 1 is empty. -/
def emptyHandGame : UNOGameImpl :=
  { numPlayers := 2, currentPlayer := 0, direction := 1, winner := -1, deck := [],
    hands := [[⟨"Blue", "3"⟩], []], discard := [⟨"Red", "5"⟩] }

/-- Two players of `UNO.cpp`; player 0 holds the single card Red 3 against the top card
Red 5. -/
def lastCardGame : UNOGameImpl :=
  { numPlayers := 2, currentPlayer := 0, direction := 1, winner := -1,
    deck := [⟨"Blue", "4"⟩],
    hands := [[⟨"Red", "3"⟩], [⟨"Green", "2"⟩]], discard := [⟨"Red", "5"⟩] }

/-- The state `lastCardGame` after one turn: player 0 has won and the turn has moved on to
player 1. -/
def lastCardGameAfter : UNOGameImpl :=
  { numPlayers := 2, currentPlayer := 1, direction := 1, winner := 0,
    deck := [⟨"Blue", "4"⟩],
    hands := [[], [⟨"Green", "2"⟩]], discard := [⟨"Red", "5"⟩, ⟨"Red", "3"⟩] }

/-- Three players of the second engine; player 0 holds the single card Red Skip against the
top card Red 5. -/
def lastSkipState : HiddenState :=
  { drawPile := [⟨"Blue", "4"⟩], discardPile := [⟨"Red", "5"⟩],
    hands := [[⟨"Red", "Skip"⟩], [⟨"Green", "2"⟩], [⟨"Green", "3"⟩]],
    currentPlayer := 0, clockwise := true, winnerIndex := -1 }

/-- The state `lastSkipState` after one turn: player 0 has won and `currentPlayer` is 1. -/
def lastSkipStateAfter : HiddenState :=
  { drawPile := [⟨"Blue", "4"⟩], discardPile := [⟨"Red", "5"⟩, ⟨"Red", "Skip"⟩],
    hands := [[], [⟨"Green", "2"⟩], [⟨"Green", "3"⟩]],
    currentPlayer := 1, clockwise := true, winnerIndex := 0 }

/-- Two players of the second engine; player 0 holds the single card Red 3 against the top
card Red 5. -/
def lastCardState : HiddenState :=
  { drawPile := [⟨"Blue", "4"⟩], discardPile := [⟨"Red", "5"⟩],
    hands := [[⟨"Red", "3"⟩], [⟨"Green", "2"⟩]],
    currentPlayer := 0, clockwise := true, winnerIndex := -1 }

/-- The state `lastCardState` after one turn: player 0 has won and is still the current
player. -/
def lastCardStateAfter : HiddenState :=
  { drawPile := [⟨"Blue", "4"⟩], discardPile := [⟨"Red", "5"⟩, ⟨"Red", "3"⟩],
    hands := [[], [⟨"Green", "2"⟩]],
    currentPlayer := 0, clockwise := true, winnerIndex := 0 }

/-! ## Progress of a game, and states without progress -/

/-- The state of `UNO.cpp` with the same hands, draw pile, discard pile, current player,
direction and winner as the `HiddenState` `s`; `numPlayers` is the number of hands. -/
def toA (s : HiddenState) : UNOGameImpl :=
  { numPlayers := (s.hands.length : Int), currentPlayer := s.currentPlayer,
    direction := s.direction, winner := s.winnerIndex, deck := s.drawPile, hands := s.hands,
    discard := s.discardPile }

/-- A bound on the card moves left in a game of `UNO.cpp`: a card of the deck can still be
drawn and then played, a card of a hand can still be played. -/
def UNOGameImpl.movesLeft (g : UNOGameImpl) : Nat :=
  2 * g.deck.length + (g.hands.map List.length).sum

/-- A bound on the card moves left in a game of `ayeshamobeen_513958_UNO.cpp`. -/
def HiddenState.movesLeft (s : HiddenState) : Nat :=
  2 * s.drawPile.length + (s.hands.map List.length).sum

/-- Player `p` of `UNO.cpp` can neither play nor draw: the deck is empty and the hand of `p`
holds no card that matches the top of the discard pile. -/
def UNOGameImpl.Blocked (g : UNOGameImpl) (p : Int) : Prop :=
  g.deck = [] ∧ ∃ hand top, handAt g.hands p = some hand ∧ g.discard.getLast? = some top ∧
    ∀ c ∈ hand, ¬ Matches top c

/-- Player `p` of `ayeshamobeen_513958_UNO.cpp` can neither play nor draw. -/
def HiddenState.Blocked (s : HiddenState) (p : Int) : Prop :=
  s.drawPile = [] ∧ ∃ hand top, handAt s.hands p = some hand ∧
    s.discardPile.getLast? = some top ∧ ∀ c ∈ hand, ¬ Matches top c

/-- A state of `UNO.cpp` in which no player can play or draw: well-formed, no winner, no empty
hand, an empty deck, and no hand holds a card that matches the top of the discard pile. -/
def UNOGameImpl.Stuck (g : UNOGameImpl) : Prop :=
  g.WF ∧ g.winner = -1 ∧ g.deck = [] ∧ g.discard ≠ [] ∧ (∀ h ∈ g.hands, h ≠ []) ∧
    ∀ top ∈ g.discard.getLast?, ∀ h ∈ g.hands, ∀ c ∈ h, ¬ Matches top c

/-- A state of `ayeshamobeen_513958_UNO.cpp` in which no player can play or draw. -/
def HiddenState.Stuck (s : HiddenState) : Prop :=
  s.WF ∧ s.winnerIndex = -1 ∧ s.drawPile = [] ∧ s.discardPile ≠ [] ∧
    (∀ h ∈ s.hands, h ≠ []) ∧
    ∀ top ∈ s.discardPile.getLast?, ∀ h ∈ s.hands, ∀ c ∈ h, ¬ Matches top c

/-- A shuffle of 100 positions, as a list: the new deck holds at position `i` the card of the
old position `stuckOrder[i]`. -/
def stuckOrder : List Nat :=
  [0, 69, 67, 51, 11, 50, 17, 42, 73, 65, 82, 88, 57, 58, 90, 63, 71, 5, 86, 52,
    61, 34, 26, 25, 40, 36, 35, 92, 59, 62, 64, 80, 7, 76, 21, 38, 39, 93, 98, 53,
    43, 41, 18, 60, 55, 3, 77, 27, 13, 83, 12, 23, 1, 19, 75, 28, 30, 94, 4, 14,
    48, 15, 2, 84, 72, 32, 9, 37, 10, 68, 96, 20, 78, 89, 99, 74, 33, 66, 22, 24,
    44, 87, 85, 70, 16, 56, 79, 49, 54, 97, 81, 91, 95, 31, 46, 6, 29, 47, 45, 8]

/-- The shuffle that rearranges a deck of 100 cards by `stuckOrder`. -/
def stuckShuffle (d : List Card) : List Card :=
  if d.length = 100 then stuckOrder.filterMap (fun i => d[i]?) else d

/-- The winner field of `UNOGameImpl` agrees with the hands: either there is no winner and no
hand is empty, or the winner is a player index whose hand is empty. -/
def UNOGameImpl.WinnerOK (g : UNOGameImpl) : Prop :=
  (g.winner = -1 ∧ ∀ h ∈ g.hands, h ≠ []) ∨
    (0 ≤ g.winner ∧ g.winner < g.numPlayers ∧ handAt g.hands g.winner = some [])

/-- The winner field of `HiddenState` agrees with the hands: either there is no winner and no
hand is empty, or the winner is a player index whose hand is empty. -/
def HiddenState.WinnerOK (s : HiddenState) : Prop :=
  (s.winnerIndex = -1 ∧ ∀ h ∈ s.hands, h ≠ []) ∨
    (0 ≤ s.winnerIndex ∧ s.winnerIndex < (s.hands.length : Int) ∧
      handAt s.hands s.winnerIndex = some [])

instance (g : UNOGameImpl) : Decidable g.WF :=
  decidable_of_iff
    (g.numPlayers = (g.hands.length : Int) ∧ 0 ≤ g.currentPlayer ∧
      g.currentPlayer < g.numPlayers ∧ (g.direction = 1 ∨ g.direction = -1))
    ⟨fun h => ⟨h.1, h.2.1, h.2.2.1, h.2.2.2⟩, fun h => ⟨h.players, h.cur_nonneg, h.cur_lt, h.dir⟩⟩

instance (s : HiddenState) : Decidable s.WF :=
  decidable_of_iff (0 ≤ s.currentPlayer ∧ s.currentPlayer < (s.hands.length : Int))
    ⟨fun h => ⟨h.1, h.2⟩, fun h => ⟨h.cur_nonneg, h.cur_lt⟩⟩

instance (g : UNOGameImpl) : Decidable g.WinnerOK :=
  inferInstanceAs (Decidable
    ((g.winner = -1 ∧ ∀ h ∈ g.hands, h ≠ []) ∨
      (0 ≤ g.winner ∧ g.winner < g.numPlayers ∧ handAt g.hands g.winner = some [])))

instance (s : HiddenState) : Decidable s.WinnerOK :=
  inferInstanceAs (Decidable
    ((s.winnerIndex = -1 ∧ ∀ h ∈ s.hands, h ≠ []) ∨
      (0 ≤ s.winnerIndex ∧ s.winnerIndex < (s.hands.length : Int) ∧
        handAt s.hands s.winnerIndex = some [])))

instance (g : UNOGameImpl) : Decidable g.Stuck :=
  inferInstanceAs (Decidable
    (g.WF ∧ g.winner = -1 ∧ g.deck = [] ∧ g.discard ≠ [] ∧ (∀ h ∈ g.hands, h ≠ []) ∧
      ∀ top ∈ g.discard.getLast?, ∀ h ∈ g.hands, ∀ c ∈ h, ¬ Matches top c))

instance (s : HiddenState) : Decidable s.Stuck :=
  inferInstanceAs (Decidable
    (s.WF ∧ s.winnerIndex = -1 ∧ s.drawPile = [] ∧ s.discardPile ≠ [] ∧
      (∀ h ∈ s.hands, h ≠ []) ∧
      ∀ top ∈ s.discardPile.getLast?, ∀ h ∈ s.hands, ∀ c ∈ h, ¬ Matches top c))

end UNO

/-! # The text editors

`TextEditorFunctions.cpp` keeps the text in a doubly linked list of heap nodes,
`ayeshamobeen_513958_TextEditor.cpp` in two stacks. -/

namespace Editors

/-! ## `TextEditorFunctions.cpp`: `TextEditorConcrete` -/

/-- The struct `Node`. A pointer is the address of a node on the heap, `none` is `nullptr`. -/
structure Node where
  c : Char
  prev : Option Nat
  next : Option Nat
deriving DecidableEq

/-- Data members of `TextEditorConcrete`, together with the heap of its nodes: `heap[a]` is
the node at address `a`, and `none` once the node is deleted. -/
structure TextEditorConcrete where
  heap : List (Option Node)
  head : Option Nat
  tail : Option Nat
  cursor : Option Nat
deriving DecidableEq

/-- Dereference of the pointer `a`; `none` (undefined behaviour) when `a` is not the address
of a live node. -/
def node (heap : List (Option Node)) (a : Nat) : Option Node :=
  (heap[a]?).join

namespace TextEditorConcrete

/-- The constructor `TextEditorConcrete()`. -/
def create : TextEditorConcrete :=
  { heap := [], head := none, tail := none, cursor := none }

/-- The method `insertChar(ch)`; `new Node(ch)` takes the next free address. -/
def insertChar (e : TextEditorConcrete) (ch : Char) : Option TextEditorConcrete :=
  let a := e.heap.length
  let heap := e.heap ++ [some { c := ch, prev := none, next := none }]
  match e.head with
  | none =>
    (node heap a).map fun nn =>
      { heap := heap, head := some a, tail := some a, cursor := nn.next }
  | some h =>
    if e.cursor = some h then
      (node heap a).bind fun nn =>
        let heap1 := heap.set a (some { nn with next := some h })
        (node heap1 h).map fun hn =>
          { heap := heap1.set h (some { hn with prev := some a }),
            head := some a, tail := e.tail, cursor := e.cursor }
    else
      match e.cursor with
      | none =>
        match e.tail with
        | none => none
        | some t =>
          (node heap t).bind fun tn =>
            let heap1 := heap.set t (some { tn with next := some a })
            (node heap1 a).map fun nn =>
              { heap := heap1.set a (some { nn with prev := some t }),
                head := e.head, tail := some a, cursor := none }
      | some cur =>
        (node heap cur).bind fun cn =>
          match cn.prev with
          | none => none
          | some p =>
            (node heap p).bind fun pn =>
              let heap1 := heap.set p (some { pn with next := some a })
              (node heap1 a).bind fun nn =>
                let heap2 := heap1.set a (some { nn with prev := some p, next := some cur })
                (node heap2 cur).map fun cn2 =>
                  { heap := heap2.set cur (some { cn2 with prev := some a }),
                    head := e.head, tail := e.tail, cursor := e.cursor }

/-- The statements `if (delNode->prev) delNode->prev->next = delNode->next; else head =
delNode->next;` of `deleteChar`: the new heap and the new `head`. -/
def unlinkPrev (heap : List (Option Node)) (head : Option Nat) (d : Nat) :
    Option (List (Option Node) × Option Nat) :=
  (node heap d).bind fun dn =>
    match dn.prev with
    | some p => (node heap p).map fun pn => (heap.set p (some { pn with next := dn.next }), head)
    | none => some (heap, dn.next)

/-- The statements `if (delNode->next) delNode->next->prev = delNode->prev; else tail =
delNode->prev;` of `deleteChar`: the new heap and the new `tail`. -/
def unlinkNext (heap : List (Option Node)) (tail : Option Nat) (d : Nat) :
    Option (List (Option Node) × Option Nat) :=
  (node heap d).bind fun dn =>
    match dn.next with
    | some n => (node heap n).map fun nn => (heap.set n (some { nn with prev := dn.prev }), tail)
    | none => some (heap, dn.prev)

/-- The method `deleteChar()`. -/
def deleteChar (e : TextEditorConcrete) : Option TextEditorConcrete :=
  match e.head with
  | none => some e
  | some h =>
    if e.cursor = some h then some e
    else
      let delNode : Option Nat :=
        match e.cursor with
        | some cur => (node e.heap cur).bind fun cn => cn.prev
        | none => e.tail
      match delNode with
      | none => none
      | some d =>
        (unlinkPrev e.heap e.head d).bind fun r1 =>
          (unlinkNext r1.1 e.tail d).bind fun r2 =>
            (node r2.1 d).map fun _ =>
              { heap := r2.1.set d none, head := r1.2, tail := r2.2, cursor := e.cursor }

/-- The method `moveLeft()`. -/
def moveLeft (e : TextEditorConcrete) : Option TextEditorConcrete :=
  match e.head with
  | none => some e
  | some _ =>
    match e.cursor with
    | none => some { e with cursor := e.tail }
    | some cur => (node e.heap cur).map fun cn => { e with cursor := cn.prev }

/-- The method `moveRight()`. -/
def moveRight (e : TextEditorConcrete) : Option TextEditorConcrete :=
  match e.head with
  | none => some e
  | some _ =>
    match e.cursor with
    | none => some e
    | some cur => (node e.heap cur).map fun cn => { e with cursor := cn.next }

/-- The loop `while (temp)` of `getTextWithCursor()` from the node `temp` on, with `fuel`
iterations left: the characters appended to `s`. -/
def textFrom (e : TextEditorConcrete) : Nat → Option Nat → Option (List Char)
  | _, none => some []
  | 0, some _ => none
  | fuel + 1, some a =>
    (node e.heap a).bind fun n =>
      (textFrom e fuel n.next).map fun rest =>
        (if some a = e.cursor then ['|'] else []) ++ n.c :: rest

/-- The method `getTextWithCursor()`. A list without a cycle has at most as many nodes as the
heap has addresses, which bounds the loop. -/
def getTextWithCursor (e : TextEditorConcrete) : Option String :=
  (textFrom e e.heap.length e.head).map fun s =>
    String.mk (s ++ if e.cursor = none then ['|'] else [])

end TextEditorConcrete

/-! ## `ayeshamobeen_513958_TextEditor.cpp`: `TextEditor` with `EditorState` -/

/-- The struct `EditorState`; a stack is a list with its top at the head. -/
structure EditorState where
  before : List Char
  after : List Char
deriving DecidableEq

/-- The function `fetchState(ed)`, for the entry `entry` of `stateTable` that belongs to the
editor (`none` when there is no entry yet, as for a new editor): the state used from now on. -/
def fetchState (entry : Option EditorState) : EditorState :=
  match entry with
  | some st => st
  | none => { before := [], after := [] }

namespace TextEditor

/-- The method `insertChar(c)`; `none` when `invalid_argument` is thrown. -/
def insertChar (entry : Option EditorState) (c : Char) : Option (Option EditorState) :=
  if c.toNat < 32 ∨ c.toNat > 126 then none
  else
    let st := fetchState entry
    some (some { st with before := c :: st.before })

/-- The method `deleteChar()`. -/
def deleteChar (entry : Option EditorState) : Option EditorState :=
  let st := fetchState entry
  match st.before with
  | [] => some st
  | _ :: rest => some { st with before := rest }

/-- The method `moveLeft()`. -/
def moveLeft (entry : Option EditorState) : Option EditorState :=
  let st := fetchState entry
  match st.before with
  | [] => some st
  | c :: rest => some { before := rest, after := c :: st.after }

/-- The method `moveRight()`. -/
def moveRight (entry : Option EditorState) : Option EditorState :=
  let st := fetchState entry
  match st.after with
  | [] => some st
  | c :: rest => some { before := c :: st.before, after := rest }

/-- The loops `while (!temp.empty()) { part.push_back(temp.top()); temp.pop(); }` of
`getTextWithCursor()`. -/
def drain : List Char → List Char
  | [] => []
  | c :: rest => c :: drain rest

/-- The method `getTextWithCursor()`. -/
def getTextWithCursor (entry : Option EditorState) : String :=
  let st := fetchState entry
  String.mk ((drain st.before).reverse ++ ['|'] ++ drain st.after)

end TextEditor

/-! ## Sequences of operations -/

/-- A call of one of the four editing methods. -/
inductive Op where
  | insertChar (c : Char)
  | deleteChar
  | moveLeft
  | moveRight
deriving DecidableEq

/-- One call on the linked-list editor. -/
def TextEditorConcrete.step (e : TextEditorConcrete) : Op → Option TextEditorConcrete
  | Op.insertChar c => e.insertChar c
  | Op.deleteChar => e.deleteChar
  | Op.moveLeft => e.moveLeft
  | Op.moveRight => e.moveRight

/-- One call on the two-stack editor. -/
def TextEditor.step (entry : Option EditorState) : Op → Option (Option EditorState)
  | Op.insertChar c => TextEditor.insertChar entry c
  | Op.deleteChar => some (TextEditor.deleteChar entry)
  | Op.moveLeft => some (TextEditor.moveLeft entry)
  | Op.moveRight => some (TextEditor.moveRight entry)

/-- The strings returned by `getTextWithCursor()` after each call of `ops` on the linked-list
editor `e`. -/
def TextEditorConcrete.outputs (e : TextEditorConcrete) : List Op → Option (List String)
  | [] => some []
  | op :: ops =>
    (e.step op).bind fun e1 =>
      e1.getTextWithCursor.bind fun s => (TextEditorConcrete.outputs e1 ops).map (s :: ·)

/-- The strings returned by `getTextWithCursor()` after each call of `ops` on the two-stack
editor with table entry `entry`. -/
def TextEditor.outputs (entry : Option EditorState) : List Op → Option (List String)
  | [] => some []
  | op :: ops =>
    (TextEditor.step entry op).bind fun e1 =>
      (TextEditor.outputs e1 ops).map (TextEditor.getTextWithCursor e1 :: ·)

end Editors

/-! # The polynomials of `Polynomiareall.cpp`

Coefficients and exponents are mathematical integers. The terms of a polynomial live in the
static map `storage`, under the address of the polynomial object. -/

namespace Poly

/-- A `map<int, int, greater<int>>`: the pairs of exponent and coefficient, by descending
exponent. -/
abbrev Terms := List (Int × Int)

/-- The static map `storage`: the terms stored under the address of a polynomial, `none` when
the address has no entry. -/
abbrev Storage := Nat → Option Terms

/-- The map `storage` with the entry of address `a` set to `t`. -/
def setEntry (st : Storage) (a : Nat) (t : Terms) : Storage :=
  fun b => if b = a then some t else st b

/-- The expression `storage[p]` for the address `p`: the terms of the entry, a new empty entry
when there is none. -/
def entry (st : Storage) (a : Nat) : Terms :=
  match st a with
  | some t => t
  | none => []

/-- The statement `terms[e] += c`: an entry of key `e` is created with value 0 when the map
has none, then `c` is added to it. -/
def addTo : Terms → Int → Int → Terms
  | [], e, c => [(e, 0 + c)]
  | (e1, c1) :: rest, e, c =>
    if e1 = e then (e1, c1 + c) :: rest
    else if e1 < e then (e, 0 + c) :: (e1, c1) :: rest
    else (e1, c1) :: addTo rest e c

/-- The value read by `terms[e]` when the map has an entry of key `e`. -/
def valueAt : Terms → Int → Int
  | [], _ => 0
  | (e1, c1) :: rest, e => if e1 = e then c1 else valueAt rest e

/-- The call `terms.erase(e)`. -/
def eraseKey (t : Terms) (e : Int) : Terms :=
  t.filter fun p => decide (p.1 ≠ e)

/-- The statements `terms[e] += c; if (terms[e] == 0) terms.erase(e);`. -/
def addErase (t : Terms) (e c : Int) : Terms :=
  let t1 := addTo t e c
  if valueAt t1 e = 0 then eraseKey t1 e else t1

/-- The method `insertTerm(coefficient, exponent)` of the polynomial at address `self`. -/
def insertTerm (st : Storage) (self : Nat) (coefficient exponent : Int) : Storage :=
  if exponent < 0 then st
  else setEntry st self (addErase (entry st self) exponent coefficient)

/-- The output of `out << i` for an `int`. -/
def showInt (i : Int) : List Char :=
  if i < 0 then '-' :: Nat.toDigits 10 i.natAbs else Nat.toDigits 10 i.natAbs

/-- The body of the loop of `toString()` for one term with a coefficient other than 0: the
characters written to `out`. -/
def termText (first : Bool) (exponent coef : Int) : List Char :=
  let neg : Bool := decide (coef < 0)
  let abscoef : Int := if neg then -coef else coef
  (if first then (if neg then ['-'] else [])
    else (if neg then [' ', '-', ' '] else [' ', '+', ' '])) ++
  (if exponent = 0 then showInt abscoef
    else if exponent = 1 then (if abscoef ≠ 1 then showInt abscoef else []) ++ ['x']
    else (if abscoef ≠ 1 then showInt abscoef else []) ++ ['x', '^'] ++ showInt exponent)

/-- The loop of `toString()` over the terms, with the flag `first`. -/
def render : Terms → Bool → List Char
  | [], _ => []
  | (exponent, coef) :: rest, first =>
    if coef = 0 then render rest first
    else termText first exponent coef ++ render rest false

/-- The method `toString()` of the polynomial at address `self`. -/
def toString (st : Storage) (self : Nat) : String :=
  match st self with
  | none => "0"
  | some terms => if terms = [] then "0" else String.mk (render terms true)

/-- The loops of `add`: every term of `src` is added to `rt`. -/
def addAll (rt : Terms) : Terms → Terms
  | [] => rt
  | (e, c) :: rest => addAll (addErase rt e c) rest

/-- The method `add(other)` of the polynomial at address `self`; `result` is the address of
the local object `result`, whose entry `storage[&result]` is created first. -/
def add (st : Storage) (self other result : Nat) : Storage :=
  let st0 := setEntry st result (entry st result)
  let rt1 :=
    match st0 self with
    | some t => addAll (entry st0 result) t
    | none => entry st0 result
  let st1 := setEntry st0 result rt1
  let rt2 :=
    match st1 other with
    | some t => addAll rt1 t
    | none => rt1
  setEntry st1 result rt2

/-- The inner loop of `multiply` for the term `(ea, ca)` of the first factor. -/
def mulRow (rt : Terms) (ea ca : Int) : Terms → Terms
  | [] => rt
  | (eb, cb) :: rest => mulRow (addErase rt (ea + eb) (ca * cb)) ea ca rest

/-- The outer loop of `multiply` over the terms of the first factor. -/
def mulAll (rt : Terms) (tb : Terms) : Terms → Terms
  | [] => rt
  | (ea, ca) :: rest => mulAll (mulRow rt ea ca tb) tb rest

/-- The method `multiply(other)` of the polynomial at address `self`, with the address
`result` of the local object `result`. -/
def multiply (st : Storage) (self other result : Nat) : Storage :=
  let st0 := setEntry st result (entry st result)
  match st0 self, st0 other with
  | some ta, some tb => setEntry st0 result (mulAll (entry st0 result) tb ta)
  | _, _ => st0

/-- The loop of `derivative`. -/
def derivAll (rt : Terms) : Terms → Terms
  | [] => rt
  | (exponent, coef) :: rest =>
    derivAll (if exponent > 0 then addTo rt (exponent - 1) (coef * exponent) else rt) rest

/-- The method `derivative()` of the polynomial at address `self`, with the address `result`
of the local object `result`. -/
def derivative (st : Storage) (self result : Nat) : Storage :=
  let st0 := setEntry st result (entry st result)
  match st0 self with
  | some t => setEntry st0 result (derivAll (entry st0 result) t)
  | none => st0

/-! ## Sequences of calls -/

/-- A call of one of the four methods, with the addresses of the objects involved. -/
inductive Call where
  | insertTerm (self : Nat) (coefficient exponent : Int)
  | add (self other result : Nat)
  | multiply (self other result : Nat)
  | derivative (self result : Nat)
deriving DecidableEq

/-- The storage after one call. -/
def exec (st : Storage) : Call → Storage
  | Call.insertTerm self c e => insertTerm st self c e
  | Call.add self other result => add st self other result
  | Call.multiply self other result => multiply st self other result
  | Call.derivative self result => derivative st self result

/-- The local object `result` of the call is a polynomial of its own: its address is not the
address of an operand, and for `derivative` it is an empty polynomial when the call is made,
that is, `storage` holds no terms under its address. -/
def newResult (st : Storage) : Call → Bool
  | Call.insertTerm _ _ _ => true
  | Call.add self other result => decide (result ≠ self) && decide (result ≠ other)
  | Call.multiply self other result => decide (result ≠ self) && decide (result ≠ other)
  | Call.derivative self result => decide (result ≠ self) && decide (entry st result = [])

/-- Every call of the sequence, made in turn from the storage `st`, has a result object of
its own. -/
def allNew : Storage → List Call → Bool
  | _, [] => true
  | st, c :: cs => newResult st c && allNew (exec st c) cs

/-- The storage after the calls `cs`, made in turn from the storage `st`. -/
def run : Storage → List Call → Storage
  | st, [] => st
  | st, c :: cs => run (exec st c) cs

/-- The storage of a program that has not yet called a method of a polynomial. -/
def noStorage : Storage := fun _ => none

/-- Canonical form of a map of terms: exponents strictly descending, none negative, and no
coefficient 0. -/
def Canon (t : Terms) : Prop :=
  t.Pairwise (fun a b => a.1 > b.1) ∧ ∀ p ∈ t, p.2 ≠ 0 ∧ 0 ≤ p.1

/-- A sequence of calls: `3x^2 - x + 5` is built at address 0 and `x - 1` at address 1; their
product is stored at address 2, its derivative at address 3 and the sum of both at address 4;
at last the term `3x^2` of the polynomial at address 0 is cancelled. -/
def exampleCalls : List Call :=
  [Call.insertTerm 0 3 2, Call.insertTerm 0 (-1) 1, Call.insertTerm 0 5 0,
    Call.insertTerm 1 1 1, Call.insertTerm 1 (-1) 0, Call.multiply 0 1 2,
    Call.derivative 2 3, Call.add 2 3 4, Call.insertTerm 0 (-3) 2]

end Poly

namespace UNO

/-! ## Scanning a hand -/

theorem findFirst_eq_none {p : Card → Bool} {l : List Card} :
    findFirst p l = none ↔ ∀ c ∈ l, p c = false := by
  induction l with
  | nil => simp [findFirst]
  | cons a l ih =>
    by_cases hp : p a = true
    · simp [findFirst, hp]
    · simp [findFirst, hp, ih]

theorem findFirst_eq_some {p : Card → Bool} {l : List Card} {r : Nat × Card}
    (h : findFirst p l = some r) :
    ∃ pre post, l = pre ++ r.2 :: post ∧ pre.length = r.1 ∧ p r.2 = true ∧
      ∀ x ∈ pre, p x = false := by
  induction l generalizing r with
  | nil => simp [findFirst] at h
  | cons a l ih =>
    by_cases hp : p a = true
    · simp [findFirst, hp] at h
      subst h
      exact ⟨[], l, rfl, rfl, hp, by simp⟩
    · simp [findFirst, hp] at h
      obtain ⟨i, c, hic, rfl⟩ := h
      obtain ⟨pre, post, hl, hlen, hpc, hpre⟩ := ih hic
      refine ⟨a :: pre, post, by simp [hl] , by simp [hlen], hpc, ?_⟩
      intro x hx
      rcases List.mem_cons.1 hx with rfl | hx
      · simpa using hp
      · exact hpre x hx

theorem findFirst_append_single {p : Card → Bool} {l : List Card} (d : Card)
    (h : ∀ c ∈ l, p c = false) :
    findFirst p (l ++ [d]) = if p d = true then some (l.length, d) else none := by
  induction l with
  | nil => simp [findFirst]
  | cons a l ih =>
    have ha : p a = false := h a (by simp)
    have hl : ∀ c ∈ l, p c = false := fun c hc => h c (by simp [hc])
    have ih2 := ih hl
    by_cases hd : p d = true
    · simp only [hd, if_true] at ih2 ⊢
      simp [findFirst, ha, ih2]
    · simp only [hd, if_false] at ih2 ⊢
      simp [findFirst, ha, ih2]

theorem cardMatches_iff {top c : Card} : cardMatches top c = true ↔ Matches top c := by
  simp only [cardMatches, Matches, Bool.or_eq_true, decide_eq_true_eq]
  constructor <;> rintro (h | h) <;> simp [h]

theorem findActionB_eq_none {top : Card} {hand : List Card} {acts : List String} :
    findActionB top hand acts = none ↔
      ∀ a ∈ acts, ∀ x ∈ hand, ¬ (x.value = a ∧ Matches top x) := by
  induction acts with
  | nil => simp [findActionB]
  | cons a acts ih =>
    unfold findActionB
    cases hf : findFirst (fun h => decide (h.value = a) && cardMatches top h) hand with
    | none =>
      rw [findFirst_eq_none] at hf
      simp only [ih, List.mem_cons, forall_eq_or_imp]
      constructor
      · intro h
        refine ⟨fun x hx hxa => ?_, h⟩
        have := hf x hx
        simp [hxa.1, cardMatches_iff.2 hxa.2] at this
      · exact fun h => h.2
    | some r =>
      obtain ⟨pre, post, hl, -, hp, -⟩ := findFirst_eq_some hf
      simp only [Bool.and_eq_true, decide_eq_true_eq, cardMatches_iff] at hp
      simp only [false_iff, reduceCtorEq]
      intro h
      exact h a (by simp) r.2 (by simp [hl]) hp

theorem findActionB_eq_some {top : Card} {hand : List Card} {acts : List String}
    {r : Nat × Card} (h : findActionB top hand acts = some r) :
    ∃ pre post, pre.length = r.1 ∧
      ∃ before a after, acts = before ++ a :: after ∧
        FrontMost (fun x => x.value = a ∧ Matches top x) hand pre r.2 post ∧
        ∀ b ∈ before, ∀ x ∈ hand, ¬ (x.value = b ∧ Matches top x) := by
  induction acts with
  | nil => simp [findActionB] at h
  | cons a acts ih =>
    unfold findActionB at h
    cases hf : findFirst (fun h => decide (h.value = a) && cardMatches top h) hand with
    | none =>
      rw [hf] at h
      obtain ⟨pre, post, hlen, before, b, after, hacts, hfm, hbefore⟩ := ih h
      refine ⟨pre, post, hlen, a :: before, b, after, by simp [hacts], hfm, ?_⟩
      intro b' hb' x hx hxb
      rcases List.mem_cons.1 hb' with rfl | hb'
      · rw [findFirst_eq_none] at hf
        have := hf x hx
        simp [hxb.1, cardMatches_iff.2 hxb.2] at this
      · exact hbefore b' hb' x hx hxb
    | some r' =>
      rw [hf] at h
      simp only [Option.some.injEq] at h
      subst h
      obtain ⟨pre, post, hl, hlen, hp, hpre⟩ := findFirst_eq_some hf
      simp only [Bool.and_eq_true, decide_eq_true_eq, cardMatches_iff] at hp
      refine ⟨pre, post, hlen, [], a, acts, rfl, ⟨hl, hp, ?_⟩, by simp⟩
      intro x hx hxa
      have := hpre x hx
      simp [hxa.1, cardMatches_iff.2 hxa.2] at this

theorem selectCard_eq_none {top : Card} {hand : List Card} :
    selectCard top hand = none ↔ ∀ x ∈ hand, ¬ Matches top x := by
  unfold selectCard
  cases h1 : findFirst (fun h => decide (h.color = top.color)) hand with
  | some r =>
    obtain ⟨pre, post, hl, -, hp, -⟩ := findFirst_eq_some h1
    simp only [decide_eq_true_eq] at hp
    simp only [false_iff, reduceCtorEq]
    exact fun h => h r.2 (by simp [hl]) (Or.inl hp)
  | none =>
    rw [findFirst_eq_none] at h1
    simp only [decide_eq_false_iff_not] at h1
    cases h2 : findFirst (fun h => decide (h.value = top.value)) hand with
    | some r =>
      obtain ⟨pre, post, hl, -, hp, -⟩ := findFirst_eq_some h2
      simp only [decide_eq_true_eq] at hp
      simp only [false_iff, reduceCtorEq]
      exact fun h => h r.2 (by simp [hl]) (Or.inr hp)
    | none =>
      rw [findFirst_eq_none] at h2
      simp only [decide_eq_false_iff_not] at h2
      simp only [findActionB_eq_none]
      constructor
      · intro _ x hx hm
        rcases hm with hm | hm
        · exact h1 x hx hm
        · exact h2 x hx hm
      · intro h a _ x hx hxa
        exact h x hx hxa.2

theorem noneSelected_iff {top : Card} {hand : List Card} :
    NoneSelected top hand ↔ ∀ x ∈ hand, ¬ Matches top x := by
  constructor
  · rintro ⟨h1, h2, -⟩ x hx (hm | hm)
    · exact h1 x hx hm
    · exact h2 x hx hm
  · intro h
    exact ⟨fun x hx hc => h x hx (Or.inl hc), fun x hx hv => h x hx (Or.inr hv),
      fun a _ x hx hxa => h x hx hxa.2⟩

theorem selectCard_eq_some {top : Card} {hand : List Card} {r : Nat × Card}
    (h : selectCard top hand = some r) :
    ∃ pre post, pre.length = r.1 ∧ Selected top hand pre r.2 post := by
  unfold selectCard at h
  cases h1 : findFirst (fun h => decide (h.color = top.color)) hand with
  | some r1 =>
    rw [h1] at h
    simp only [Option.some.injEq] at h
    subst h
    obtain ⟨pre, post, hl, hlen, hp, hpre⟩ := findFirst_eq_some h1
    simp only [decide_eq_true_eq] at hp
    simp only [decide_eq_false_iff_not] at hpre
    exact ⟨pre, post, hlen, Or.inl ⟨hl, hp, hpre⟩⟩
  | none =>
    rw [h1] at h
    rw [findFirst_eq_none] at h1
    simp only [decide_eq_false_iff_not] at h1
    cases h2 : findFirst (fun h => decide (h.value = top.value)) hand with
    | some r2 =>
      rw [h2] at h
      simp only [Option.some.injEq] at h
      subst h
      obtain ⟨pre, post, hl, hlen, hp, hpre⟩ := findFirst_eq_some h2
      simp only [decide_eq_true_eq] at hp
      simp only [decide_eq_false_iff_not] at hpre
      exact ⟨pre, post, hlen, Or.inr (Or.inl ⟨h1, hl, hp, hpre⟩)⟩
    | none =>
      rw [h2] at h
      rw [findFirst_eq_none] at h2
      simp only [decide_eq_false_iff_not] at h2
      obtain ⟨pre, post, hlen, hrule⟩ := findActionB_eq_some h
      exact ⟨pre, post, hlen, Or.inr (Or.inr ⟨h1, h2, hrule⟩)⟩

theorem Selected.hand_eq {top : Card} {hand pre post : List Card} {c : Card}
    (h : Selected top hand pre c post) : hand = pre ++ c :: post := by
  rcases h with h | ⟨-, h⟩ | ⟨-, -, _, _, _, -, h, -⟩ <;> exact h.1

theorem Selected.matches {top : Card} {hand pre post : List Card} {c : Card}
    (h : Selected top hand pre c post) : Matches top c := by
  rcases h with h | ⟨-, h⟩ | ⟨-, -, _, _, _, -, h, -⟩
  · exact Or.inl h.2.1
  · exact Or.inr h.2.1
  · exact h.2.1.2

theorem selectCard_append_single {top : Card} {hand : List Card} (d : Card)
    (h : ∀ x ∈ hand, ¬ Matches top x) :
    selectCard top (hand ++ [d]) =
      if cardMatches top d = true then some (hand.length, d) else none := by
  have h1 : ∀ c ∈ hand, (fun h => decide (h.color = top.color)) c = false := by
    intro c hc
    simpa using fun hcol => h c hc (Or.inl hcol)
  have h2 : ∀ c ∈ hand, (fun h => decide (h.value = top.value)) c = false := by
    intro c hc
    simpa using fun hv => h c hc (Or.inr hv)
  unfold selectCard
  rw [findFirst_append_single d h1, findFirst_append_single d h2]
  by_cases hc : d.color = top.color
  · simp [hc, cardMatches]
  · by_cases hv : d.value = top.value
    · simp [hc, hv, cardMatches]
    · have hm : ¬ Matches top d := by rintro (hm | hm) <;> contradiction
      have hnone : findActionB top (hand ++ [d]) actions = none := by
        rw [findActionB_eq_none]
        intro a _ x hx hxa
        rcases List.mem_append.1 hx with hx | hx
        · exact h x hx hxa.2
        · simp only [List.mem_singleton] at hx
          subst hx
          exact hm hxa.2
      have hcm : ¬ cardMatches top d = true := by rwa [cardMatches_iff]
      simp [hc, hv, hnone, hcm]

/-! ## Indexing the vector of hands -/

theorem handAt_eq_some {hands : List (List Card)} {p : Int} {h : List Card}
    (hh : handAt hands p = some h) : 0 ≤ p ∧ p.toNat < hands.length ∧ hands[p.toNat]? = some h := by
  unfold handAt at hh
  split at hh
  · simp at hh
  · refine ⟨by omega, ?_, hh⟩
    exact (List.getElem?_eq_some_iff.1 hh).1

theorem handAt_of_lt {hands : List (List Card)} {p : Int} (h0 : 0 ≤ p)
    (h1 : p < (hands.length : Int)) : ∃ h, handAt hands p = some h := by
  have hlt : p.toNat < hands.length := by omega
  exact ⟨hands[p.toNat], by simp [handAt, not_lt.2 h0, List.getElem?_eq_getElem hlt]⟩

theorem handAt_set_self {hands : List (List Card)} {p : Int} {h : List Card} (h2 : List Card)
    (hh : handAt hands p = some h) : handAt (hands.set p.toNat h2) p = some h2 := by
  obtain ⟨h0, hlt, -⟩ := handAt_eq_some hh
  simp [handAt, not_lt.2 h0, List.getElem?_set, hlt]

theorem handAt_set_ne (hands : List (List Card)) {p q : Int} (h2 : List Card)
    (hp : 0 ≤ p) (hq : 0 ≤ q) (hne : p ≠ q) :
    handAt (hands.set p.toNat h2) q = handAt hands q := by
  have : p.toNat ≠ q.toNat := by omega
  simp [handAt, not_lt.2 hq, List.getElem?_set, this]

theorem set_handAt_self {hands : List (List Card)} {p : Int} {h : List Card}
    (hh : handAt hands p = some h) : hands.set p.toNat h = hands := by
  obtain ⟨-, hlt, hget⟩ := handAt_eq_some hh
  apply List.ext_getElem? 
  intro j
  by_cases hj : p.toNat = j
  · subst hj
    simp [List.getElem?_set, hlt, hget]
  · simp [List.getElem?_set, hj]

theorem sum_length_set {hands : List (List Card)} {i : Nat} {h : List Card} (h2 : List Card)
    (hh : hands[i]? = some h) :
    ((hands.set i h2).map List.length).sum + h.length =
      (hands.map List.length).sum + h2.length := by
  induction hands generalizing i with
  | nil => simp at hh
  | cons a hands ih =>
    cases i with
    | zero =>
      simp only [List.getElem?_cons_zero, Option.some.injEq] at hh
      subst hh
      simp only [List.set_cons_zero, List.map_cons, List.sum_cons]
      omega
    | succ i =>
      simp only [List.getElem?_cons_succ] at hh
      have := ih hh
      simp only [List.set_cons_succ, List.map_cons, List.sum_cons]
      omega

theorem sum_length_setHand {hands : List (List Card)} {p : Int} {h : List Card}
    (h2 : List Card) (hh : handAt hands p = some h) :
    ((hands.set p.toNat h2).map List.length).sum + h.length =
      (hands.map List.length).sum + h2.length :=
  sum_length_set h2 (handAt_eq_some hh).2.2

theorem eraseIdx_append_cons (pre post : List Card) (c : Card) :
    (pre ++ c :: post).eraseIdx pre.length = pre ++ post := by
  induction pre with
  | nil => rfl
  | cons a pre ih => simp [ih]

theorem getLast?_cases (l : List Card) :
    (l = [] ∧ l.getLast? = none) ∨
      ∃ D d, l = D ++ [d] ∧ l.getLast? = some d ∧ l.dropLast = D := by
  rcases List.eq_nil_or_concat l with h | ⟨D, d, h⟩
  · exact Or.inl ⟨h, by simp [h]⟩
  · exact Or.inr ⟨D, d, by simp [h], by simp [h], by simp [h]⟩

/-! ## The play step of both engines -/

theorem findAction_eq (top : Card) (hand : List Card) (acts : List String) :
    UNOGameImpl.findAction top hand acts = findActionB top hand acts := by
  induction acts with
  | nil => rfl
  | cons a acts ih =>
    have hp : (fun c : Card => decide (c.value = a) &&
        (decide (c.color = top.color) || decide (c.value = top.value))) =
        (fun h : Card => decide (h.value = a) && cardMatches top h) := by
      funext c
      have e1 : decide (c.color = top.color) = decide (top.color = c.color) :=
        decide_eq_decide.2 eq_comm
      have e2 : decide (c.value = top.value) = decide (top.value = c.value) :=
        decide_eq_decide.2 eq_comm
      rw [cardMatches, e1, e2]
    unfold UNOGameImpl.findAction findActionB
    rw [hp, ih]

theorem tryPlayFromHand_eq (g : UNOGameImpl) (player : Int) (top : Card) (hand : List Card)
    (hh : handAt g.hands player = some hand) :
    g.tryPlayFromHand player top =
      some (match selectCard top hand with
        | some r => UNOGameImpl.playCard g player hand r
        | none => (g, none)) := by
  unfold UNOGameImpl.tryPlayFromHand selectCard
  simp only [hh, findAction_eq]
  cases findFirst (fun c => decide (c.color = top.color)) hand with
  | some r => rfl
  | none =>
    cases findFirst (fun c => decide (c.value = top.value)) hand with
    | some r => rfl
    | none =>
      cases findActionB top hand actions with
      | some r => rfl
      | none => rfl

theorem tryPlayFromHand_cases (g : UNOGameImpl) (player : Int) (top : Card) (hand : List Card)
    (hh : handAt g.hands player = some hand) :
    (∃ pre c post, Selected top hand pre c post ∧
        g.tryPlayFromHand player top =
          some ({ g with discard := g.discard ++ [c],
                         hands := g.hands.set player.toNat (pre ++ post) }, some c)) ∨
      ((∀ x ∈ hand, ¬ Matches top x) ∧ g.tryPlayFromHand player top = some (g, none)) := by
  rw [tryPlayFromHand_eq g player top hand hh]
  cases hs : selectCard top hand with
  | none => exact Or.inr ⟨selectCard_eq_none.1 hs, rfl⟩
  | some r =>
    obtain ⟨pre, post, hlen, hsel⟩ := selectCard_eq_some hs
    refine Or.inl ⟨pre, r.2, post, hsel, ?_⟩
    simp only [UNOGameImpl.playCard, hsel.hand_eq, ← hlen, eraseIdx_append_cons]

theorem tryPlayFromHand_drawn (g : UNOGameImpl) (top : Card) (hand D : List Card)
    (drawn : Card) (hh : handAt g.hands g.currentPlayer = some hand)
    (hno : ∀ x ∈ hand, ¬ Matches top x) :
    UNOGameImpl.tryPlayFromHand
        { g with deck := D, hands := g.hands.set g.currentPlayer.toNat (hand ++ [drawn]) }
        g.currentPlayer top =
      if cardMatches top drawn = true then
        some ({ g with deck := D, discard := g.discard ++ [drawn] }, some drawn)
      else
        some ({ g with deck := D,
                       hands := g.hands.set g.currentPlayer.toNat (hand ++ [drawn]) }, none) := by
  rw [tryPlayFromHand_eq _ g.currentPlayer top (hand ++ [drawn])
    (by simpa using handAt_set_self (hand ++ [drawn]) hh)]
  rw [selectCard_append_single drawn hno]
  by_cases hm : cardMatches top drawn = true
  · simp only [hm, if_true, UNOGameImpl.playCard, List.set_set]
    have : (hand ++ [drawn]).eraseIdx hand.length = hand := by
      simpa using eraseIdx_append_cons hand [] drawn
    rw [this, set_handAt_self hh]
  · simp [hm]

theorem playPhase_cases (g : UNOGameImpl) (top : Card) (hand : List Card)
    (hh : handAt g.hands g.currentPlayer = some hand) :
    (∃ pre c post, Selected top hand pre c post ∧
        g.playPhase top =
          some ({ g with discard := g.discard ++ [c],
                         hands := g.hands.set g.currentPlayer.toNat (pre ++ post) }, some c)) ∨
    ((∀ x ∈ hand, ¬ Matches top x) ∧ g.deck = [] ∧ g.playPhase top = some (g, none)) ∨
    ((∀ x ∈ hand, ¬ Matches top x) ∧ ∃ D drawn, g.deck = D ++ [drawn] ∧ Matches top drawn ∧
        g.playPhase top =
          some ({ g with deck := D, discard := g.discard ++ [drawn] }, some drawn)) ∨
    ((∀ x ∈ hand, ¬ Matches top x) ∧ ∃ D drawn, g.deck = D ++ [drawn] ∧ ¬ Matches top drawn ∧
        g.playPhase top =
          some ({ g with deck := D,
                         hands := g.hands.set g.currentPlayer.toNat (hand ++ [drawn]) },
                none)) := by
  rcases tryPlayFromHand_cases g g.currentPlayer top hand hh with
    ⟨pre, c, post, hsel, htry⟩ | ⟨hno, htry⟩
  · refine Or.inl ⟨pre, c, post, hsel, ?_⟩
    simp [UNOGameImpl.playPhase, htry]
  · refine Or.inr ?_
    rcases getLast?_cases g.deck with ⟨hnil, hlast⟩ | ⟨D, drawn, hdeck, hlast, hdrop⟩
    · refine Or.inl ⟨hno, hnil, ?_⟩
      simp [UNOGameImpl.playPhase, htry, hlast]
    · refine Or.inr ?_
      have hstep : g.playPhase top =
          UNOGameImpl.tryPlayFromHand
            { g with deck := D, hands := g.hands.set g.currentPlayer.toNat (hand ++ [drawn]) }
            g.currentPlayer top := by
        simp [UNOGameImpl.playPhase, htry, hlast, hh, hdrop]
      rw [tryPlayFromHand_drawn g top hand D drawn hh hno] at hstep
      by_cases hm : cardMatches top drawn = true
      · refine Or.inl ⟨hno, D, drawn, hdeck, cardMatches_iff.1 hm, ?_⟩
        simpa [hm] using hstep
      · refine Or.inr ⟨hno, D, drawn, hdeck, fun h => hm (cardMatches_iff.2 h), ?_⟩
        simpa [hm] using hstep

theorem playStep_cases (state : HiddenState) (pid : Int) (hand : List Card) (top : Card) :
    (∃ pre c post, Selected top hand pre c post ∧
        UNOGame.playStep state pid hand top =
          executeAction
            { state with discardPile := state.discardPile ++ [c],
                         hands := state.hands.set pid.toNat (pre ++ post) } c) ∨
    ((∀ x ∈ hand, ¬ Matches top x) ∧ state.drawPile = [] ∧
        UNOGame.playStep state pid hand top = some state) ∨
    ((∀ x ∈ hand, ¬ Matches top x) ∧ ∃ D drawn, state.drawPile = D ++ [drawn] ∧
        Matches top drawn ∧
        UNOGame.playStep state pid hand top =
          executeAction
            { state with drawPile := D, discardPile := state.discardPile ++ [drawn] } drawn) ∨
    ((∀ x ∈ hand, ¬ Matches top x) ∧ ∃ D drawn, state.drawPile = D ++ [drawn] ∧
        ¬ Matches top drawn ∧
        UNOGame.playStep state pid hand top =
          some { state with drawPile := D,
                            hands := state.hands.set pid.toNat (hand ++ [drawn]) }) := by
  cases hs : selectCard top hand with
  | some r =>
    obtain ⟨pre, post, hlen, hsel⟩ := selectCard_eq_some hs
    refine Or.inl ⟨pre, r.2, post, hsel, ?_⟩
    simp only [UNOGame.playStep, hs]
    rw [hsel.hand_eq, ← hlen, eraseIdx_append_cons]
  | none =>
    have hno := selectCard_eq_none.1 hs
    refine Or.inr ?_
    rcases getLast?_cases state.drawPile with ⟨hnil, hlast⟩ | ⟨D, drawn, hdeck, hlast, hdrop⟩
    · exact Or.inl ⟨hno, hnil, by simp [UNOGame.playStep, hs, hlast]⟩
    · refine Or.inr ?_
      by_cases hm : cardMatches top drawn = true
      · refine Or.inl ⟨hno, D, drawn, hdeck, cardMatches_iff.1 hm, ?_⟩
        simp [UNOGame.playStep, hs, hlast, hm, hdrop]
      · refine Or.inr ⟨hno, D, drawn, hdeck, fun h => hm (cardMatches_iff.2 h), ?_⟩
        simp [UNOGame.playStep, hs, hlast, hm, hdrop]

/-! ## Turn order -/

theorem cmod_eq {a n : Int} (ha : 0 ≤ a) (hn : 0 < n) : cmod a n = some (a % n) := by
  simp [cmod, hn.ne', Int.tmod_eq_emod ha hn.le]

theorem emod_step (c d n : Int) (k : Int) : ((c + d) % n + k) % n = (c + (d + k)) % n := by
  rw [Int.emod_add_emod, add_assoc]

theorem step_ne_self {c d n : Int} (h0 : 0 ≤ c) (h1 : c < n) (hn : 2 ≤ n)
    (hd : d = 1 ∨ d = -1) : (c + d) % n ≠ c := by
  intro heq
  have hc : c % n = c := Int.emod_eq_of_lt h0 h1
  have h2 : (c + d) % n = c % n := by rw [heq, hc]
  have h3 : (c + d - c) % n = 0 := Int.emod_eq_emod_iff_emod_sub_eq_zero.1 h2
  have h4 : n ∣ d := by
    have := Int.dvd_of_emod_eq_zero h3
    simpa using this
  have h5 : n ∣ 1 := by
    rcases hd with hd | hd
    · rwa [hd] at h4
    · rw [hd] at h4
      exact (Int.dvd_neg).1 h4
  have := Int.le_of_dvd (by norm_num) h5
  omega

namespace UNOGameImpl

theorem nextPlayer_eq {g : UNOGameImpl} (hw : g.WF) :
    g.nextPlayer = some ((g.currentPlayer + g.direction) % g.numPlayers) := by
  have h0 := hw.cur_nonneg
  have h1 := hw.cur_lt
  have hd : -1 ≤ g.direction := by rcases hw.dir with h | h <;> omega
  unfold nextPlayer
  rw [cmod_eq (by omega) (by omega), Int.add_emod_self]

theorem nextPlayer_range {g : UNOGameImpl} (hw : g.WF) :
    0 ≤ (g.currentPlayer + g.direction) % g.numPlayers ∧
      (g.currentPlayer + g.direction) % g.numPlayers < g.numPlayers := by
  have h0 := hw.cur_nonneg
  have h1 := hw.cur_lt
  exact ⟨Int.emod_nonneg _ (by omega), Int.emod_lt_of_pos _ (by omega)⟩

theorem advancePlayer_eq {g : UNOGameImpl} (hw : g.WF) :
    g.advancePlayer =
      some { g with currentPlayer := (g.currentPlayer + g.direction) % g.numPlayers } := by
  simp [advancePlayer, nextPlayer_eq hw]

theorem advanceLoop_eq (k : Nat) {g : UNOGameImpl} (hw : g.WF) :
    advanceLoop k g =
      some { g with currentPlayer := (g.currentPlayer + k * g.direction) % g.numPlayers } := by
  induction k generalizing g with
  | zero =>
    have h0 := hw.cur_nonneg
    have h1 := hw.cur_lt
    simp [advanceLoop, Int.emod_eq_of_lt h0 h1]
  | succ k ih =>
    have hr := nextPlayer_range hw
    have hw2 : WF { g with currentPlayer := (g.currentPlayer + g.direction) % g.numPlayers } :=
      ⟨hw.players, hr.1, hr.2, hw.dir⟩
    simp only [advanceLoop, advancePlayer_eq hw, Option.some_bind, ih hw2]
    congr 2
    rw [emod_step]
    congr 1
    push_cast
    ring

end UNOGameImpl

theorem stepFrom_eq {state : HiddenState} (hw : state.WF) :
    stepFrom state =
      some ((state.currentPlayer + state.direction) % (state.hands.length : Int)) := by
  have h0 := hw.cur_nonneg
  have h1 := hw.cur_lt
  unfold stepFrom HiddenState.direction
  cases state.clockwise with
  | true => simp [cmod_eq (a := state.currentPlayer + 1) (by omega) (by omega : (0 : Int) < state.hands.length)]
  | false =>
    have := cmod_eq (a := state.currentPlayer - 1 + state.hands.length) (by omega)
      (by omega : (0 : Int) < state.hands.length)
    simp only [Bool.false_eq_true, if_false, this, Int.add_emod_self]
    rfl

theorem stepFrom_range {state : HiddenState} (hw : state.WF) :
    0 ≤ (state.currentPlayer + state.direction) % (state.hands.length : Int) ∧
      (state.currentPlayer + state.direction) % (state.hands.length : Int) <
        (state.hands.length : Int) := by
  have h0 := hw.cur_nonneg
  have h1 := hw.cur_lt
  exact ⟨Int.emod_nonneg _ (by omega), Int.emod_lt_of_pos _ (by omega)⟩

/-! ## Draw Two, the winner scan and the end of the turn in `UNO.cpp` -/

namespace UNOGameImpl

theorem drawLoop_eq (nxt : Int) (k : Nat) (g : UNOGameImpl) (h : List Card)
    (hh : handAt g.hands nxt = some h) :
    drawLoop nxt k g =
      some { g with hands := g.hands.set nxt.toNat (h ++ g.deck.reverse.take k),
                    deck := (g.deck.reverse.drop k).reverse } := by
  induction k generalizing g h with
  | zero =>
    obtain ⟨n, c, d, w, deck, hands, discard⟩ := g
    simp only at hh
    simp [drawLoop, set_handAt_self hh]
  | succ k ih =>
    obtain ⟨n, c, d, w, deck, hands, discard⟩ := g
    simp only at hh
    rcases getLast?_cases deck with ⟨hnil, hlast⟩ | ⟨D, x, hdeck, hlast, hdrop⟩
    · subst hnil
      simp [drawLoop, set_handAt_self hh]
    · simp only [drawLoop, hlast, hh, hdrop]
      rw [ih _ (h ++ [x]) (by simpa using handAt_set_self (h ++ [x]) hh)]
      subst hdeck
      simp [List.set_set]

theorem scanWinner_some (g : UNOGameImpl) (ps : List Nat)
    (hps : ∀ p ∈ ps, p < g.hands.length) :
    ∃ w, scanWinner g ps = some { g with winner := w } ∧
      (w = g.winner ∨ ∃ p ∈ ps, w = (p : Int) ∧ g.hands[p]? = some []) := by
  induction ps with
  | nil => exact ⟨g.winner, rfl, Or.inl rfl⟩
  | cons p ps ih =>
    have hp : p < g.hands.length := hps p (by simp)
    obtain ⟨w, hw, hor⟩ := ih (fun q hq => hps q (by simp [hq]))
    by_cases he : g.hands[p] = []
    · refine ⟨(p : Int), by simp [scanWinner, List.getElem?_eq_getElem hp, he], Or.inr ⟨p, by simp, rfl, ?_⟩⟩
      simp [List.getElem?_eq_getElem hp, he]
    · refine ⟨w, by simp [scanWinner, List.getElem?_eq_getElem hp, he, hw], ?_⟩
      rcases hor with h | ⟨q, hq, h1, h2⟩
      · exact Or.inl h
      · exact Or.inr ⟨q, by simp [hq], h1, h2⟩

theorem scanWinner_none_empty (g : UNOGameImpl) (ps : List Nat)
    (hps : ∀ p ∈ ps, p < g.hands.length) (hne : ∀ h ∈ g.hands, h ≠ []) :
    scanWinner g ps = some g := by
  obtain ⟨w, hw, hor⟩ := scanWinner_some g ps hps
  rcases hor with h | ⟨p, -, -, hp⟩
  · rw [hw, h]
  · exact absurd rfl (hne [] (List.getElem?_mem hp))

theorem scanWinner_unique (g : UNOGameImpl) (ps : List Nat) (w : Nat)
    (hps : ∀ p ∈ ps, p < g.hands.length) (hmem : w ∈ ps) (hw : g.hands[w]? = some [])
    (hothers : ∀ j h, j ≠ w → g.hands[j]? = some h → h ≠ []) :
    scanWinner g ps = some { g with winner := (w : Int) } := by
  induction ps with
  | nil => simp at hmem
  | cons p ps ih =>
    have hp : p < g.hands.length := hps p (by simp)
    by_cases hpw : p = w
    · subst hpw
      simp [scanWinner, hw]
    · have hne : g.hands[p] ≠ [] :=
        hothers p _ hpw (List.getElem?_eq_getElem hp)
      have hmem2 : w ∈ ps := by
        rcases List.mem_cons.1 hmem with h | h
        · exact absurd h.symm hpw
        · exact h
      simp only [scanWinner, List.getElem?_eq_getElem hp, hne, if_false]
      exact ih (fun q hq => hps q (by simp [hq])) hmem2

theorem range_players_lt {g : UNOGameImpl} (hw : g.WF) :
    ∀ p ∈ List.range g.numPlayers.toNat, p < g.hands.length := by
  intro p hp
  have := hw.players
  simp only [List.mem_range] at hp
  omega

theorem resolve_of_effect {g : UNOGameImpl} {played : Option Card} {e : UNOGameImpl × Nat}
    (he : applyEffect g played = some e) (hw : e.1.WF) :
    ∃ w, scanWinner e.1 (List.range e.1.numPlayers.toNat) = some { e.1 with winner := w } ∧
      resolve g played =
        some { e.1 with
          winner := w,
          currentPlayer := (e.1.currentPlayer + e.2 * e.1.direction) % e.1.numPlayers } := by
  obtain ⟨w, hscan, -⟩ := scanWinner_some e.1 _ (range_players_lt hw)
  refine ⟨w, hscan, ?_⟩
  have hw2 : WF { e.1 with winner := w } := ⟨hw.players, hw.cur_nonneg, hw.cur_lt, hw.dir⟩
  simp only [resolve, he, Option.some_bind, hscan, advanceLoop_eq e.2 hw2]

end UNOGameImpl

/-! ## Draw Two and the end of the turn in `ayeshamobeen_513958_UNO.cpp` -/

theorem drawLoopB_eq (next : Int) (k : Nat) (state : HiddenState) (h : List Card)
    (hh : handAt state.hands next = some h) :
    drawLoopB next k state =
      some { state with hands := state.hands.set next.toNat (h ++ state.drawPile.reverse.take k),
                        drawPile := (state.drawPile.reverse.drop k).reverse } := by
  induction k generalizing state h with
  | zero =>
    obtain ⟨pile, discard, hands, c, cw, w⟩ := state
    simp only at hh
    simp [drawLoopB, set_handAt_self hh]
  | succ k ih =>
    obtain ⟨pile, discard, hands, c, cw, w⟩ := state
    simp only at hh
    rcases getLast?_cases pile with ⟨hnil, hlast⟩ | ⟨D, x, hdeck, hlast, hdrop⟩
    · subst hnil
      simp [drawLoopB, set_handAt_self hh]
    · simp only [drawLoopB, hlast, hh, hdrop]
      rw [ih _ (h ++ [x]) (by simpa using handAt_set_self (h ++ [x]) hh)]
      subst hdeck
      simp [List.set_set]

/-! ## One turn of `UNO.cpp` -/

namespace UNOGameImpl

theorem playTurn_eq {g : UNOGameImpl} {top : Card} (hwin : g.winner = -1)
    (htop : g.discard.getLast? = some top) :
    g.playTurn = (g.playPhase top).bind fun r => resolve r.1 r.2 := by
  simp [playTurn, isGameOver, hwin, htop]

theorem playTurn_over {g : UNOGameImpl} (hwin : g.winner ≠ -1) : g.playTurn = some g := by
  simp [playTurn, isGameOver, hwin]

/-- The state after the play phase keeps the turn data, the number of hands and the number of
cards; only the hand of the current player may have changed. -/
theorem playPhase_frame {g : UNOGameImpl} (top : Card) {hand : List Card}
    (hh : handAt g.hands g.currentPlayer = some hand) :
    ∃ g2 played, g.playPhase top = some (g2, played) ∧
      g2.numPlayers = g.numPlayers ∧ g2.currentPlayer = g.currentPlayer ∧
      g2.direction = g.direction ∧ g2.winner = g.winner ∧
      g2.hands.length = g.hands.length ∧ g2.total = g.total ∧
      (∃ extra, g2.discard = g.discard ++ extra) ∧
      (∀ j, 0 ≤ j → j ≠ g.currentPlayer → handAt g2.hands j = handAt g.hands j) := by
  have h0 := (handAt_eq_some hh).1
  rcases playPhase_cases g top hand hh with
    ⟨pre, c, post, hsel, hp⟩ | ⟨-, -, hp⟩ | ⟨-, D, drawn, hdeck, -, hp⟩ |
    ⟨-, D, drawn, hdeck, -, hp⟩
  · refine ⟨_, _, hp, rfl, rfl, rfl, rfl, by simp, ?_, ⟨[c], rfl⟩, ?_⟩
    · have hsum := sum_length_setHand (pre ++ post) hh
      have hlen : hand.length = (pre ++ post).length + 1 := by
        rw [hsel.hand_eq]
        simp
        omega
      simp only [total, List.length_append, List.length_singleton] at hsum ⊢
      simp only [List.length_append] at hlen
      omega
    · intro j hj hne
      exact handAt_set_ne _ _ h0 hj (Ne.symm hne)
  · exact ⟨_, _, hp, rfl, rfl, rfl, rfl, rfl, rfl, ⟨[], by simp⟩, fun _ _ _ => rfl⟩
  · refine ⟨_, _, hp, rfl, rfl, rfl, rfl, rfl, ?_, ⟨[drawn], rfl⟩, fun _ _ _ => rfl⟩
    simp only [total, hdeck, List.length_append, List.length_singleton]
    omega
  · refine ⟨_, _, hp, rfl, rfl, rfl, rfl, by simp, ?_, ⟨[], by simp⟩, ?_⟩
    · have hsum := sum_length_setHand (hand ++ [drawn]) hh
      simp only [total, hdeck, List.length_append, List.length_singleton] at hsum ⊢
      omega
    · intro j hj hne
      exact handAt_set_ne _ _ h0 hj (Ne.symm hne)

/-- The effect of the played card keeps the turn data except the direction, keeps the discard
pile and the number of cards, and can only add cards at the end of a hand. -/
theorem applyEffect_frame {g : UNOGameImpl} (hw : g.WF) (played : Option Card) :
    ∃ e, applyEffect g played = some e ∧ e.1.WF ∧
      e.1.numPlayers = g.numPlayers ∧ e.1.currentPlayer = g.currentPlayer ∧
      e.1.winner = g.winner ∧ e.1.discard = g.discard ∧ e.1.total = g.total ∧
      (∀ j h, handAt g.hands j = some h → ∃ more, handAt e.1.hands j = some (h ++ more)) ∧
      (2 ≤ g.numPlayers → handAt e.1.hands g.currentPlayer = handAt g.hands g.currentPlayer) := by
  have hself : ∀ j h, handAt g.hands j = some h → ∃ more, handAt g.hands j = some (h ++ more) :=
    fun j h hj => ⟨[], by simpa using hj⟩
  cases played with
  | none => exact ⟨(g, 1), rfl, hw, rfl, rfl, rfl, rfl, rfl, hself, fun _ => rfl⟩
  | some card =>
    by_cases h1 : card.value = "Skip"
    · exact ⟨(g, 2), by simp [applyEffect, h1], hw, rfl, rfl, rfl, rfl, rfl, hself, fun _ => rfl⟩
    by_cases h2 : card.value = "Reverse"
    · refine ⟨({ g with direction := g.direction * -1 }, if g.numPlayers = 2 then 2 else 1),
        by simp [applyEffect, h2], ⟨hw.players, hw.cur_nonneg, hw.cur_lt, ?_⟩,
        rfl, rfl, rfl, rfl, rfl, hself, fun _ => rfl⟩
      rcases hw.dir with h | h <;> simp [h]
    by_cases h3 : card.value = "Draw Two"
    · have hr := nextPlayer_range hw
      obtain ⟨h, hh⟩ := handAt_of_lt hr.1 (by rw [← hw.players]; exact hr.2)
      refine ⟨({ g with
            hands := g.hands.set ((g.currentPlayer + g.direction) % g.numPlayers).toNat
              (h ++ g.deck.reverse.take 2),
            deck := (g.deck.reverse.drop 2).reverse }, 2),
        by simp [applyEffect, h1, h2, h3, nextPlayer_eq hw, drawLoop_eq _ 2 g h hh],
        ⟨by simpa using hw.players, hw.cur_nonneg, hw.cur_lt, hw.dir⟩,
        rfl, rfl, rfl, rfl, ?_, ?_, ?_⟩
      · have hsum := sum_length_setHand (h ++ List.take 2 g.deck.reverse) hh
        simp only [total, List.length_append, List.length_reverse, List.length_take,
          List.length_drop] at hsum ⊢
        omega
      · intro j hj hjh
        by_cases hjn : j = (g.currentPlayer + g.direction) % g.numPlayers
        · subst hjn
          rw [hh] at hjh
          simp only [Option.some.injEq] at hjh
          subst hjh
          exact ⟨_, handAt_set_self _ hh⟩
        · refine ⟨[], ?_⟩
          simpa [hjh] using handAt_set_ne g.hands (h ++ List.take 2 g.deck.reverse)
            hr.1 (handAt_eq_some hjh).1 (Ne.symm hjn)
      · intro hN
        apply handAt_set_ne _ _ hr.1 hw.cur_nonneg
        exact step_ne_self hw.cur_nonneg hw.cur_lt hN hw.dir
    · exact ⟨(g, 1), by simp [applyEffect, h1, h2, h3], hw, rfl, rfl, rfl, rfl, rfl, hself,
        fun _ => rfl⟩

theorem total_with_turn (g : UNOGameImpl) (w c : Int) :
    total { g with winner := w, currentPlayer := c } = g.total := rfl

/-- One turn from a well-formed state without a winner and with a card on the discard pile:
the call is defined; the result is well formed, holds the same number of cards and has a
non-empty discard pile. With at least two players and no empty hand before the turn, either no
hand is empty afterwards and there is still no winner, or the hand of the player who acted is
empty and that player is the winner. -/
theorem playTurn_step {g : UNOGameImpl} (hw : g.WF) (hwin : g.winner = -1)
    (hd : g.discard ≠ []) :
    ∃ g', g.playTurn = some g' ∧ g'.WF ∧ g'.numPlayers = g.numPlayers ∧
      g'.total = g.total ∧ g'.discard ≠ [] ∧
      (2 ≤ g.numPlayers → (∀ h ∈ g.hands, h ≠ []) →
        (g'.winner = -1 ∧ ∀ h ∈ g'.hands, h ≠ []) ∨
        (g'.winner = g.currentPlayer ∧ handAt g'.hands g.currentPlayer = some [])) := by
  obtain ⟨top, htop⟩ : ∃ top, g.discard.getLast? = some top := by
    rcases getLast?_cases g.discard with ⟨h, -⟩ | ⟨D, d, -, h, -⟩
    · exact absurd h hd
    · exact ⟨d, h⟩
  obtain ⟨hand, hh⟩ := handAt_of_lt hw.cur_nonneg (by rw [← hw.players]; exact hw.cur_lt)
  obtain ⟨g2, played, hp, hN2, hc2, hd2, hwin2, hlen2, htot2, ⟨extra, hdis2⟩, hoth2⟩ :=
    playPhase_frame top hh
  have hw2 : g2.WF :=
    ⟨by rw [hN2, hlen2]; exact hw.players, by rw [hc2]; exact hw.cur_nonneg,
      by rw [hc2, hN2]; exact hw.cur_lt, by rw [hd2]; exact hw.dir⟩
  obtain ⟨e, he, hwe, hNe, hce, hwine, hdise, htote, hgrow, hsame⟩ :=
    applyEffect_frame hw2 played
  obtain ⟨w, hscan, hres⟩ := resolve_of_effect he hwe
  have hturn : g.playTurn = some { e.1 with
      winner := w,
      currentPlayer := (e.1.currentPlayer + e.2 * e.1.direction) % e.1.numPlayers } := by
    rw [playTurn_eq hwin htop, hp]
    exact hres
  have hpos : 0 < e.1.numPlayers := by
    have := hwe.cur_nonneg
    have := hwe.cur_lt
    omega
  refine ⟨_, hturn, ⟨hwe.players, Int.emod_nonneg _ (by omega), Int.emod_lt_of_pos _ hpos,
    hwe.dir⟩, by rw [← hN2, ← hNe], ?_, ?_, ?_⟩
  · rw [total_with_turn, htote, htot2]
  · show e.1.discard ≠ []
    rw [hdise, hdis2]
    intro h
    exact hd (List.append_eq_nil.1 h).1
  · intro hN hne
    show (w = -1 ∧ ∀ h ∈ e.1.hands, h ≠ []) ∨
      (w = g.currentPlayer ∧ handAt e.1.hands g.currentPlayer = some [])
    have hcnat : ((g.currentPlayer.toNat : Nat) : Int) = g.currentPlayer :=
      Int.toNat_of_nonneg hw.cur_nonneg
    have hsame2 : handAt e.1.hands g.currentPlayer = handAt g2.hands g.currentPlayer := by
      rw [← hc2]
      exact hsame (by rw [hN2]; exact hN)
    have hothers : ∀ (j : Nat) h, j ≠ g.currentPlayer.toNat → e.1.hands[j]? = some h →
        h ≠ [] := by
      intro j h hj hjh
      have hjh2 : handAt e.1.hands (j : Int) = some h := by simpa [handAt] using hjh
      have hjlt : j < g.hands.length := by
        have := (handAt_eq_some hjh2).2.1
        have := hwe.players
        have := hw.players
        simp only [Int.toNat_ofNat] at *
        omega
      have hne0 : g.hands[j] ≠ [] := hne _ (List.getElem_mem hjlt)
      have hj0 : handAt g.hands (j : Int) = some g.hands[j] := by
        simp [handAt, List.getElem?_eq_getElem hjlt]
      have hjne : (j : Int) ≠ g.currentPlayer := by omega
      have hj2 : handAt g2.hands (j : Int) = some g.hands[j] := by
        rw [hoth2 _ (by omega) hjne, hj0]
      obtain ⟨more, hmore⟩ := hgrow _ _ hj2
      rw [hjh2] at hmore
      simp only [Option.some.injEq] at hmore
      rw [hmore]
      intro hnil
      exact hne0 (List.append_eq_nil.1 hnil).1
    obtain ⟨hc, hhc⟩ : ∃ hc, handAt e.1.hands g.currentPlayer = some hc := by
      apply handAt_of_lt hw.cur_nonneg
      rw [← hwe.players, hNe, hN2]
      exact hw.cur_lt
    have hcget : e.1.hands[g.currentPlayer.toNat]? = some hc := (handAt_eq_some hhc).2.2
    by_cases hempty : hc = []
    · subst hempty
      right
      have hmem : g.currentPlayer.toNat ∈ List.range e.1.numPlayers.toNat := by
        have := hw.cur_lt
        have := hw.cur_nonneg
        simp only [List.mem_range]
        omega
      have hu := scanWinner_unique e.1 _ g.currentPlayer.toNat (range_players_lt hwe) hmem
        hcget hothers
      rw [hscan] at hu
      have := congrArg UNOGameImpl.winner (Option.some.inj hu)
      simp only [hcnat] at this
      exact ⟨this, hhc⟩
    · left
      have hall : ∀ h ∈ e.1.hands, h ≠ [] := by
        intro h hmem
        obtain ⟨j, hj⟩ := List.mem_iff_getElem?.1 hmem
        by_cases hjc : j = g.currentPlayer.toNat
        · subst hjc
          rw [hcget] at hj
          simp only [Option.some.injEq] at hj
          rw [← hj]
          exact hempty
        · exact hothers j h hjc hj
      have hu := scanWinner_none_empty e.1 _ (range_players_lt hwe) hall
      rw [hscan] at hu
      have := congrArg UNOGameImpl.winner (Option.some.inj hu)
      simp only at this
      exact ⟨by rw [this, hwine, hwin2, hwin], hall⟩

/-! ## The deal of `UNO.cpp` -/

theorem dealOne_eq {g : UNOGameImpl} {p : Nat} {h D : List Card} {c : Card}
    (hdeck : g.deck = D ++ [c]) (hp : g.hands[p]? = some h) :
    dealOne g p = some { g with hands := g.hands.set p (h ++ [c]), deck := D } := by
  simp [dealOne, hdeck, hp]

theorem dealRange (g : UNOGameImpl) (k : Nat) (hk : k ≤ g.hands.length)
    (hk2 : k ≤ g.deck.length) :
    ∃ hands2, (List.range k).foldlM dealOne g =
        some { g with hands := hands2, deck := (g.deck.reverse.drop k).reverse } ∧
      hands2.length = g.hands.length ∧
      (∀ j, j < k → ∃ h c, g.hands[j]? = some h ∧ g.deck.reverse[j]? = some c ∧
        hands2[j]? = some (h ++ [c])) ∧
      (∀ j, k ≤ j → hands2[j]? = g.hands[j]?) := by
  induction k with
  | zero =>
    refine ⟨g.hands, ?_, rfl, fun j hj => absurd hj (Nat.not_lt_zero j), fun _ _ => rfl⟩
    simp
  | succ k ih =>
    obtain ⟨hands1, hfold, hlen, hlt, hge⟩ := ih (by omega) (by omega)
    have hkT : k < g.deck.reverse.length := by simp; omega
    have hdrop : g.deck.reverse.drop k = g.deck.reverse[k] :: g.deck.reverse.drop (k + 1) :=
      List.drop_eq_getElem_cons hkT
    have hk1 : hands1[k]? = some g.hands[k] := by
      rw [hge k (le_refl k)]
      exact List.getElem?_eq_getElem (by omega)
    refine ⟨hands1.set k (g.hands[k] ++ [g.deck.reverse[k]]), ?_, by simp [hlen], ?_, ?_⟩
    · rw [List.range_succ, List.foldlM_append, hfold]
      simp only [Option.bind_eq_bind, Option.some_bind, List.foldlM_cons, List.foldlM_nil]
      rw [dealOne_eq (D := (g.deck.reverse.drop (k + 1)).reverse) (c := g.deck.reverse[k])
        (by simp [hdrop]) hk1]
      rfl
    · intro j hj
      by_cases hjk : j = k
      · subst hjk
        refine ⟨g.hands[j], g.deck.reverse[j], List.getElem?_eq_getElem (by omega),
          List.getElem?_eq_getElem hkT, ?_⟩
        simp [List.getElem?_set, hlen]
        omega
      · obtain ⟨h, c, h1, h2, h3⟩ := hlt j (by omega)
        exact ⟨h, c, h1, h2, by rw [List.getElem?_set]; simp [Ne.symm hjk, h3]⟩
    · intro j hj
      rw [List.getElem?_set]
      have : k ≠ j := by omega
      simp only [this, if_false]
      exact hge j (by omega)

theorem dealRounds_spec (i : Nat) (g : UNOGameImpl)
    (hn : g.numPlayers.toNat = g.hands.length)
    (hdeck : i * g.hands.length ≤ g.deck.length) :
    ∃ g2, dealRounds i g = some g2 ∧
      g2.numPlayers = g.numPlayers ∧ g2.currentPlayer = g.currentPlayer ∧
      g2.direction = g.direction ∧ g2.winner = g.winner ∧ g2.discard = g.discard ∧
      g2.deck = (g.deck.reverse.drop (i * g.hands.length)).reverse ∧
      g2.hands.length = g.hands.length ∧
      (∀ j, j < g.hands.length → ∃ h h2, g.hands[j]? = some h ∧ g2.hands[j]? = some h2 ∧
        h2.length = h.length + i) := by
  induction i generalizing g with
  | zero =>
    refine ⟨g, rfl, rfl, rfl, rfl, rfl, rfl, by simp, rfl, ?_⟩
    intro j hj
    exact ⟨g.hands[j], g.hands[j], List.getElem?_eq_getElem hj, List.getElem?_eq_getElem hj, rfl⟩
  | succ i ih =>
    have hmul : (i + 1) * g.hands.length = g.hands.length + i * g.hands.length := by ring
    obtain ⟨hands1, hfold, hlen1, hlt1, -⟩ :=
      dealRange g g.hands.length (le_refl _) (by omega)
    have hround : dealRound g = some { g with
        hands := hands1, deck := (g.deck.reverse.drop g.hands.length).reverse } := by
      rw [dealRound, hn, hfold]
    obtain ⟨g2, hrest, hN, hc, hd, hw, hdis, hdk, hlen2, hhands⟩ :=
      ih { g with hands := hands1, deck := (g.deck.reverse.drop g.hands.length).reverse }
        (by simpa [hlen1] using hn)
        (by simp only [hlen1, List.length_reverse, List.length_drop]; omega)
    refine ⟨g2, by simp only [dealRounds, hround, Option.some_bind, hrest], hN, hc, hd, hw, hdis,
      ?_, by rw [hlen2, hlen1], ?_⟩
    · rw [hdk]
      simp only [hlen1, List.reverse_reverse, List.drop_drop, hmul]
    · intro j hj
      obtain ⟨h, c, h1, -, h3⟩ := hlt1 j hj
      obtain ⟨h', h2, h4, h5, h6⟩ := hhands j (by simpa [hlen1] using hj)
      simp only at h4
      rw [h3] at h4
      simp only [Option.some.injEq] at h4
      subst h4
      refine ⟨h, h2, h1, h5, ?_⟩
      rw [h6]
      simp
      omega

theorem buildDeck_length : buildDeck.length = 100 := by decide

theorem sum_length_of_all {hands : List (List Card)} {m : Nat}
    (h : ∀ x ∈ hands, x.length = m) : (hands.map List.length).sum = m * hands.length := by
  induction hands with
  | nil => simp
  | cons a l ih =>
    have ha : a.length = m := h a (by simp)
    have hl := ih (fun x hx => h x (by simp [hx]))
    simp only [List.map_cons, List.sum_cons, List.length_cons, ha, hl]
    ring

/-- The state after the constructor and `initialize()` for 1 to 14 players. -/
theorem initGame_spec (shuffle : List Card → List Card)
    (hperm : ∀ d, List.Perm (shuffle d) d) (n : Int) (h1 : 1 ≤ n) (h14 : n ≤ 14) :
    ∃ g, (create n).bind (initGame shuffle) = some g ∧ g.WF ∧ g.numPlayers = n ∧
      g.currentPlayer = 0 ∧ g.direction = 1 ∧ g.winner = -1 ∧
      (∀ h ∈ g.hands, h.length = 7) ∧ g.discard.length = 1 ∧
      (g.deck.length : Int) = 100 - 7 * n - 1 := by
  have hlen : (shuffle buildDeck).length = 100 := by
    rw [(hperm buildDeck).length_eq, buildDeck_length]
  have hcreate : create n = some
      { numPlayers := n, currentPlayer := 0, direction := 1, winner := -1,
        deck := [], hands := List.replicate n.toNat [], discard := [] } := by
    simp [create]
    omega
  obtain ⟨g2, hdeal, hN, hc, hd, hw, hdis, hdk, hlen2, hhands⟩ :=
    dealRounds_spec 7
      { numPlayers := n, currentPlayer := 0, direction := 1, winner := -1,
        deck := shuffle buildDeck, hands := List.replicate n.toNat [], discard := [] }
      (by simp) (by simp only [List.length_replicate, hlen]; omega)
  simp only [List.length_replicate] at hdk hlen2 hhands
  simp only at hN hc hd hw hdis
  have hdklen : g2.deck.length = 100 - 7 * n.toNat := by
    rw [hdk]
    simp [hlen]
  rcases getLast?_cases g2.deck with ⟨hnil, -⟩ | ⟨D, top, hdeck, hlast, hdrop⟩
  · rw [hnil] at hdklen
    simp at hdklen
    omega
  refine ⟨{ g2 with discard := g2.discard ++ [top], deck := g2.deck.dropLast }, ?_,
    ⟨?_, ?_, ?_, ?_⟩, hN, hc, hd, hw, ?_, ?_, ?_⟩
  · simp only [hcreate, Option.some_bind, initGame, hdeal, hlast]
  · show g2.numPlayers = (g2.hands.length : Int)
    rw [hN, hlen2]
    omega
  · show 0 ≤ g2.currentPlayer
    omega
  · show g2.currentPlayer < g2.numPlayers
    omega
  · show g2.direction = 1 ∨ g2.direction = -1
    exact Or.inl hd
  · intro h hmem
    obtain ⟨j, hj⟩ := List.mem_iff_getElem?.1 (show h ∈ g2.hands from hmem)
    have hjlt : j < n.toNat := by
      have := (List.getElem?_eq_some_iff.1 hj).1
      omega
    obtain ⟨h0, h2, h3, h4, h5⟩ := hhands j hjlt
    rw [hj] at h4
    simp only [Option.some.injEq] at h4
    subst h4
    rw [List.getElem?_replicate] at h3
    simp only [hjlt, if_true, Option.some.injEq] at h3
    subst h3
    simpa using h5
  · show (g2.discard ++ [top]).length = 1
    simp [hdis]
  · show ((g2.deck.dropLast.length : Nat) : Int) = 100 - 7 * n - 1
    rw [List.length_dropLast, hdklen]
    omega

end UNOGameImpl

/-! ## One turn of `ayeshamobeen_513958_UNO.cpp` -/

theorem executeAction_skip {st : HiddenState} (hw : st.WF) {card : Card}
    (h : card.value = "Skip") :
    executeAction st card =
      some { st with currentPlayer :=
        (st.currentPlayer + st.direction) % (st.hands.length : Int) } := by
  simp [executeAction, h, stepFrom_eq hw]

theorem executeAction_reverse (st : HiddenState) {card : Card} (h : card.value = "Reverse") :
    executeAction st card = some { st with clockwise := !st.clockwise } := by
  simp [executeAction, h]

theorem executeAction_drawTwo {st : HiddenState} (hw : st.WF) {card : Card}
    (h : card.value = "Draw Two") {hn : List Card}
    (hh : handAt st.hands ((st.currentPlayer + st.direction) % (st.hands.length : Int)) =
      some hn) :
    executeAction st card =
      some { st with
        hands := st.hands.set
          ((st.currentPlayer + st.direction) % (st.hands.length : Int)).toNat
          (hn ++ st.drawPile.reverse.take 2),
        drawPile := (st.drawPile.reverse.drop 2).reverse,
        currentPlayer := (st.currentPlayer + st.direction) % (st.hands.length : Int) } := by
  simp [executeAction, h, stepFrom_eq hw, drawLoopB_eq _ 2 st hn hh]

theorem executeAction_number (st : HiddenState) {card : Card} (h1 : card.value ≠ "Skip")
    (h2 : card.value ≠ "Reverse") (h3 : card.value ≠ "Draw Two") :
    executeAction st card = some st := by
  simp [executeAction, h1, h2, h3]

/-- The function `executeAction` keeps the number of hands, the winner, the discard pile and
the number of cards, and can only add cards at the end of a hand. -/
theorem executeAction_frame {st : HiddenState} (hw : st.WF) (card : Card) :
    ∃ st2, executeAction st card = some st2 ∧ st2.WF ∧
      st2.hands.length = st.hands.length ∧ st2.winnerIndex = st.winnerIndex ∧
      st2.discardPile = st.discardPile ∧ UNOGame.total st2 = UNOGame.total st ∧
      (∀ j h, handAt st.hands j = some h → ∃ more, handAt st2.hands j = some (h ++ more)) := by
  have hself : ∀ j h, handAt st.hands j = some h →
      ∃ more, handAt st.hands j = some (h ++ more) :=
    fun j h hj => ⟨[], by simpa using hj⟩
  have hr := stepFrom_range hw
  by_cases h1 : card.value = "Skip"
  · exact ⟨_, executeAction_skip hw h1, ⟨hr.1, hr.2⟩, rfl, rfl, rfl, rfl, hself⟩
  by_cases h2 : card.value = "Reverse"
  · exact ⟨_, executeAction_reverse st h2, ⟨hw.cur_nonneg, hw.cur_lt⟩, rfl, rfl, rfl, rfl, hself⟩
  by_cases h3 : card.value = "Draw Two"
  · obtain ⟨hn, hh⟩ := handAt_of_lt hr.1 hr.2
    refine ⟨_, executeAction_drawTwo hw h3 hh, ⟨hr.1, by simpa using hr.2⟩, by simp, rfl, rfl,
      ?_, ?_⟩
    · have hsum := sum_length_setHand (hn ++ List.take 2 st.drawPile.reverse) hh
      simp only [UNOGame.total, List.length_append, List.length_reverse, List.length_take,
        List.length_drop] at hsum ⊢
      omega
    · intro j h hjh
      by_cases hjn : j = (st.currentPlayer + st.direction) % (st.hands.length : Int)
      · subst hjn
        rw [hh] at hjh
        simp only [Option.some.injEq] at hjh
        subst hjh
        exact ⟨_, handAt_set_self _ hh⟩
      · refine ⟨[], ?_⟩
        simpa [hjh] using handAt_set_ne st.hands (hn ++ List.take 2 st.drawPile.reverse)
          hr.1 (handAt_eq_some hjh).1 (Ne.symm hjn)
  · exact ⟨_, executeAction_number st h1 h2 h3, hw, rfl, rfl, rfl, rfl, hself⟩

namespace UNOGame

theorem playTurnB_eq {s : HiddenState} {hand : List Card} {top : Card}
    (hwin : s.winnerIndex = -1) (hh : handAt s.hands s.currentPlayer = some hand)
    (htop : s.discardPile.getLast? = some top) :
    playTurn s =
      (playStep s s.currentPlayer hand top).bind fun st => finishTurn st s.currentPlayer := by
  simp [playTurn, hwin, hh, htop]

theorem playTurnB_over {s : HiddenState} (hwin : s.winnerIndex ≠ -1) : playTurn s = some s := by
  simp [playTurn, hwin]

theorem finishTurn_empty {st : HiddenState} {pid : Int}
    (hh : handAt st.hands pid = some []) (hpid : pid ≠ -1) :
    finishTurn st pid = some { st with winnerIndex := pid } := by
  simp [finishTurn, hh, hpid]

theorem finishTurn_next {st : HiddenState} {pid : Int} {h : List Card} (hw : st.WF)
    (hh : handAt st.hands pid = some h) (hne : h ≠ []) (hwin : st.winnerIndex = -1) :
    finishTurn st pid =
      some { st with currentPlayer :=
        (st.currentPlayer + st.direction) % (st.hands.length : Int) } := by
  simp [finishTurn, hh, hne, hwin, stepFrom_eq hw]

/-- The state after steps 1 to 3 of `playTurn`. -/
theorem playStep_frame {s : HiddenState} (hw : s.WF) {hand : List Card} (top : Card)
    (hh : handAt s.hands s.currentPlayer = some hand) :
    ∃ st, playStep s s.currentPlayer hand top = some st ∧ st.WF ∧
      st.hands.length = s.hands.length ∧ st.winnerIndex = s.winnerIndex ∧
      (∃ extra, st.discardPile = s.discardPile ++ extra) ∧ total st = total s ∧
      (∀ j h, j ≠ s.currentPlayer → handAt s.hands j = some h →
        ∃ more, handAt st.hands j = some (h ++ more)) := by
  have h0 := hw.cur_nonneg
  rcases playStep_cases s s.currentPlayer hand top with
    ⟨pre, c, post, hsel, hp⟩ | ⟨-, -, hp⟩ | ⟨-, D, drawn, hdeck, -, hp⟩ |
    ⟨-, D, drawn, hdeck, -, hp⟩
  · have hw1 : HiddenState.WF { s with
        discardPile := s.discardPile ++ [c],
        hands := s.hands.set s.currentPlayer.toNat (pre ++ post) } :=
      ⟨hw.cur_nonneg, by simpa using hw.cur_lt⟩
    obtain ⟨st2, hex, hw2, hlen, hwin, hdis, htot, hgrow⟩ := executeAction_frame hw1 c
    refine ⟨st2, by rw [hp, hex], hw2, by simpa using hlen, hwin, ⟨[c], hdis⟩, ?_, ?_⟩
    · rw [htot]
      have hsum := sum_length_setHand (pre ++ post) hh
      have hlen : hand.length = (pre ++ post).length + 1 := by
        rw [hsel.hand_eq]
        simp
        omega
      simp only [total, List.length_append, List.length_singleton] at hsum ⊢
      simp only [List.length_append] at hlen
      omega
    · intro j h hj hjh
      apply hgrow
      show handAt (s.hands.set s.currentPlayer.toNat (pre ++ post)) j = some h
      rw [handAt_set_ne _ _ h0 (handAt_eq_some hjh).1 (Ne.symm hj), hjh]
  · exact ⟨s, hp, hw, rfl, rfl, ⟨[], by simp⟩, rfl, fun j h _ hjh => ⟨[], by simpa using hjh⟩⟩
  · have hw1 : HiddenState.WF { s with
        drawPile := D, discardPile := s.discardPile ++ [drawn] } :=
      ⟨hw.cur_nonneg, hw.cur_lt⟩
    obtain ⟨st2, hex, hw2, hlen, hwin, hdis, htot, hgrow⟩ := executeAction_frame hw1 drawn
    refine ⟨st2, by rw [hp, hex], hw2, hlen, hwin, ⟨[drawn], hdis⟩, ?_,
      fun j h _ hjh => hgrow j h hjh⟩
    rw [htot]
    simp only [total, hdeck, List.length_append, List.length_singleton]
    omega
  · refine ⟨_, hp, ⟨hw.cur_nonneg, by simpa using hw.cur_lt⟩, by simp, rfl, ⟨[], by simp⟩,
      ?_, ?_⟩
    · have hsum := sum_length_setHand (hand ++ [drawn]) hh
      simp only [total, hdeck, List.length_append, List.length_singleton] at hsum ⊢
      omega
    · intro j h hj hjh
      refine ⟨[], ?_⟩
      show handAt (s.hands.set s.currentPlayer.toNat (hand ++ [drawn])) j = some (h ++ [])
      rw [handAt_set_ne _ _ h0 (handAt_eq_some hjh).1 (Ne.symm hj), hjh, List.append_nil]

/-- One turn from a well-formed state without a winner and with a card on the discard pile:
the call is defined; the result is well formed, has the same number of hands and of cards and
a non-empty discard pile. If no hand was empty before the turn, either no hand is empty
afterwards and there is still no winner, or the hand of the player who acted is empty and
that player is the winner. -/
theorem playTurnB_step {s : HiddenState} (hw : s.WF) (hwin : s.winnerIndex = -1)
    (hd : s.discardPile ≠ []) :
    ∃ s2, playTurn s = some s2 ∧ s2.WF ∧ s2.hands.length = s.hands.length ∧
      total s2 = total s ∧ s2.discardPile ≠ [] ∧
      ((∀ h ∈ s.hands, h ≠ []) →
        (s2.winnerIndex = -1 ∧ ∀ h ∈ s2.hands, h ≠ []) ∨
        (s2.winnerIndex = s.currentPlayer ∧ handAt s2.hands s.currentPlayer = some [])) := by
  obtain ⟨top, htop⟩ : ∃ top, s.discardPile.getLast? = some top := by
    rcases getLast?_cases s.discardPile with ⟨h, -⟩ | ⟨D, d, -, h, -⟩
    · exact absurd h hd
    · exact ⟨d, h⟩
  obtain ⟨hand, hh⟩ := handAt_of_lt hw.cur_nonneg hw.cur_lt
  obtain ⟨st, hstep, hwst, hlen, hwinst, ⟨extra, hdis⟩, htot, hgrow⟩ :=
    playStep_frame hw top hh
  obtain ⟨hc, hhc⟩ : ∃ hc, handAt st.hands s.currentPlayer = some hc :=
    handAt_of_lt hw.cur_nonneg (by rw [hlen]; exact hw.cur_lt)
  have hdne : st.discardPile ≠ [] := by
    rw [hdis]
    intro h
    exact hd (List.append_eq_nil.1 h).1
  have hturn := playTurnB_eq hwin hh htop
  rw [hstep, Option.some_bind] at hturn
  by_cases hempty : hc = []
  · subst hempty
    have hpid : s.currentPlayer ≠ -1 := by
      have := hw.cur_nonneg
      omega
    rw [finishTurn_empty hhc hpid] at hturn
    exact ⟨_, hturn, ⟨hwst.cur_nonneg, hwst.cur_lt⟩, hlen, htot, hdne,
      fun _ => Or.inr ⟨rfl, hhc⟩⟩
  · rw [finishTurn_next hwst hhc hempty (by rw [hwinst, hwin])] at hturn
    have hr := stepFrom_range hwst
    refine ⟨_, hturn, ⟨hr.1, hr.2⟩, hlen, htot, hdne, fun hne => Or.inl ⟨by
      show st.winnerIndex = -1
      rw [hwinst, hwin], ?_⟩⟩
    intro h hmem
    obtain ⟨j, hj⟩ := List.mem_iff_getElem?.1 (show h ∈ st.hands from hmem)
    have hjh : handAt st.hands (j : Int) = some h := by simpa [handAt] using hj
    by_cases hjc : (j : Int) = s.currentPlayer
    · rw [hjc, hhc] at hjh
      simp only [Option.some.injEq] at hjh
      rw [← hjh]
      exact hempty
    · have hjlt : j < s.hands.length := by
        have := (List.getElem?_eq_some_iff.1 hj).1
        omega
      have hj0 : handAt s.hands (j : Int) = some s.hands[j] := by
        simp [handAt, List.getElem?_eq_getElem hjlt]
      obtain ⟨more, hmore⟩ := hgrow _ _ hjc hj0
      rw [hjh] at hmore
      simp only [Option.some.injEq] at hmore
      rw [hmore]
      intro hnil
      exact hne _ (List.getElem_mem hjlt) (List.append_eq_nil.1 hnil).1

/-! ## The deal of `ayeshamobeen_513958_UNO.cpp` -/

theorem dealHand_eq (i : Nat) (hand pile : List Card) :
    dealHand i hand pile = (hand ++ pile.reverse.take i, (pile.reverse.drop i).reverse) := by
  induction i generalizing hand pile with
  | zero => simp [dealHand]
  | succ i ih =>
    rcases getLast?_cases pile with ⟨hnil, hlast⟩ | ⟨D, x, hdeck, hlast, hdrop⟩
    · subst hnil
      simp [dealHand]
    · simp only [dealHand, hlast, hdrop, ih]
      subst hdeck
      simp

theorem dealHands_spec (hs : List (List Card)) (pile : List Card)
    (hlen : 7 * hs.length ≤ pile.length) :
    (dealHands hs pile).1.length = hs.length ∧
      (∀ h ∈ (dealHands hs pile).1, h.length = 7) ∧
      (dealHands hs pile).2 = (pile.reverse.drop (7 * hs.length)).reverse := by
  induction hs generalizing pile with
  | nil => simp [dealHands]
  | cons a hs ih =>
    simp only [List.length_cons] at hlen
    have hrest := ih (pile.reverse.drop 7).reverse (by simp; omega)
    simp only [dealHands, dealHand_eq, List.nil_append, List.length_cons, List.mem_cons,
      forall_eq_or_imp, List.length_take, List.length_reverse]
    refine ⟨by rw [hrest.1], ⟨by omega, hrest.2.1⟩, ?_⟩
    rw [hrest.2.2]
    simp only [List.reverse_reverse, List.drop_drop]
    congr 2
    ring

theorem createFullDeck_length : createFullDeck.length = 100 := by decide

/-- The state after the constructor and `initialize()` for 1 to 14 players. -/
theorem initGameB_spec (shuffle : List Card → List Card)
    (hperm : ∀ d, List.Perm (shuffle d) d) (n : Int) (h1 : 1 ≤ n) (h14 : n ≤ 14) :
    ∃ s, (create n).map (initGame shuffle) = some s ∧ s.WF ∧ (s.hands.length : Int) = n ∧
      s.currentPlayer = 0 ∧ s.clockwise = true ∧ s.winnerIndex = -1 ∧
      (∀ h ∈ s.hands, h.length = 7) ∧ s.discardPile.length = 1 ∧
      (s.drawPile.length : Int) = 100 - 7 * n - 1 := by
  have hlen : (shuffle createFullDeck).length = 100 := by
    rw [(hperm createFullDeck).length_eq, createFullDeck_length]
  have hcreate : create n = some
      { drawPile := [], discardPile := [], hands := List.replicate n.toNat [],
        currentPlayer := 0, clockwise := true, winnerIndex := -1 } := by
    simp [create]
    omega
  obtain ⟨hdl, hd7, hdp⟩ := dealHands_spec (List.replicate n.toNat [])
    (shuffle createFullDeck) (by simp only [List.length_replicate, hlen]; omega)
  simp only [List.length_replicate] at hdl hdp
  have hpl : (dealHands (List.replicate n.toNat []) (shuffle createFullDeck)).2.length =
      100 - 7 * n.toNat := by
    rw [hdp]
    simp [hlen]
  rcases getLast?_cases (dealHands (List.replicate n.toNat []) (shuffle createFullDeck)).2 with
    ⟨hnil, -⟩ | ⟨D, top, hdeck, hlast, hdrop⟩
  · rw [hnil] at hpl
    simp at hpl
    omega
  refine ⟨
    { drawPile :=
        List.dropLast (Prod.snd (dealHands (List.replicate n.toNat []) (shuffle createFullDeck))),
      discardPile := [top],
      hands := (dealHands (List.replicate n.toNat []) (shuffle createFullDeck)).1,
      currentPlayer := 0, clockwise := true, winnerIndex := -1 },
    by simp only [hcreate, Option.map_some', initGame, hlast], ⟨le_refl _, ?_⟩, ?_, rfl,
    rfl, rfl, hd7, rfl, ?_⟩
  · show (0 : Int) < ((dealHands (List.replicate n.toNat []) (shuffle createFullDeck)).1.length : Int)
    rw [hdl]
    omega
  · show (((dealHands (List.replicate n.toNat []) (shuffle createFullDeck)).1.length : Nat) : Int)
      = n
    rw [hdl]
    omega
  · show (((List.dropLast (dealHands (List.replicate n.toNat [])
      (shuffle createFullDeck)).2).length : Nat) : Int) = 100 - 7 * n - 1
    rw [List.length_dropLast, hpl]
    omega

end UNOGame

/-! ## Turns in which a card is played -/

theorem append_singleton_ne_self (l : List Card) (c : Card) : l ++ [c] ≠ l := by
  intro h
  have := congrArg List.length h
  simp at this

/-- A turn of `UNO.cpp` that appends `card` to the discard pile: there was no winner, `card`
matches the old top card, and the turn is the resolution of `card` from the state `g2` reached
by the play, in which `card` came either from the hand of the current player or from the top
of the draw pile. -/
theorem UNOGameImpl.played_turn {g g2 : UNOGameImpl} {card : Card} (hw : g.WF)
    (hturn : g.playTurn = some g2) (hplayed : g2.discard = g.discard ++ [card]) :
    g.winner = -1 ∧
    ∃ g1 : UNOGameImpl, g1.WF ∧ g1.numPlayers = g.numPlayers ∧
      g1.currentPlayer = g.currentPlayer ∧ g1.direction = g.direction ∧
      g1.hands.length = g.hands.length ∧
      g1.resolve (some card) = some g2 ∧
      (∃ top, g.discard.getLast? = some top ∧ Matches top card) ∧
      ((g1.deck = g.deck ∧ ∃ pre post,
          handAt g.hands g.currentPlayer = some (pre ++ card :: post) ∧
          g1.hands = g.hands.set g.currentPlayer.toNat (pre ++ post)) ∨
        (g.deck = g1.deck ++ [card] ∧ g1.hands = g.hands)) := by
  have hwin : g.winner = -1 := by
    by_contra hne
    rw [UNOGameImpl.playTurn_over hne] at hturn
    have := Option.some.inj hturn
    rw [← this] at hplayed
    exact append_singleton_ne_self _ _ hplayed.symm
  refine ⟨hwin, ?_⟩
  obtain ⟨top, htop⟩ : ∃ top, g.discard.getLast? = some top := by
    rcases getLast?_cases g.discard with ⟨-, h⟩ | ⟨D, d, -, h, -⟩
    · simp [UNOGameImpl.playTurn, UNOGameImpl.isGameOver, hwin, h] at hturn
    · exact ⟨d, h⟩
  obtain ⟨hand, hh⟩ := handAt_of_lt hw.cur_nonneg (by rw [← hw.players]; exact hw.cur_lt)
  rw [UNOGameImpl.playTurn_eq hwin htop] at hturn
  have key : ∀ (g1 : UNOGameImpl) (played : Option Card), g1.WF →
      g.playPhase top = some (g1, played) → g2.discard = g1.discard ∧
        g1.resolve played = some g2 := by
    intro g1 played hw1 hp
    rw [hp, Option.some_bind] at hturn
    obtain ⟨e, he, hwe, -, -, -, hdise, -, -, -⟩ := UNOGameImpl.applyEffect_frame hw1 played
    obtain ⟨w, -, hres⟩ := UNOGameImpl.resolve_of_effect he hwe
    have hturn2 : g1.resolve played = some g2 := hturn
    rw [hres] at hturn2
    have := Option.some.inj hturn2
    refine ⟨?_, hturn⟩
    rw [← this]
    exact hdise
  rcases playPhase_cases g top hand hh with
    ⟨pre, c, post, hsel, hp⟩ | ⟨-, -, hp⟩ | ⟨-, D, drawn, hdeck, hm, hp⟩ |
    ⟨-, D, drawn, hdeck, -, hp⟩
  · have hw1 : UNOGameImpl.WF { g with
        discard := g.discard ++ [c],
        hands := g.hands.set g.currentPlayer.toNat (pre ++ post) } :=
      ⟨by simpa using hw.players, hw.cur_nonneg, hw.cur_lt, hw.dir⟩
    obtain ⟨hdis, hres⟩ := key _ _ hw1 hp
    rw [hplayed] at hdis
    have hc : card = c := by simpa using hdis
    subst hc
    refine ⟨_, hw1, rfl, rfl, rfl, by simp, hres, ⟨top, htop, hsel.matches⟩,
      Or.inl ⟨rfl, pre, post, ?_, rfl⟩⟩
    rw [hh, hsel.hand_eq]
  · obtain ⟨hdis, -⟩ := key _ _ hw hp
    rw [hplayed] at hdis
    exact absurd hdis (append_singleton_ne_self _ _)
  · have hw1 : UNOGameImpl.WF { g with deck := D, discard := g.discard ++ [drawn] } :=
      ⟨hw.players, hw.cur_nonneg, hw.cur_lt, hw.dir⟩
    obtain ⟨hdis, hres⟩ := key _ _ hw1 hp
    rw [hplayed] at hdis
    have hc : card = drawn := by simpa using hdis
    subst hc
    exact ⟨_, hw1, rfl, rfl, rfl, rfl, hres, ⟨top, htop, hm⟩, Or.inr ⟨hdeck, rfl⟩⟩
  · have hw1 : UNOGameImpl.WF { g with
        deck := D, hands := g.hands.set g.currentPlayer.toNat (hand ++ [drawn]) } :=
      ⟨by simpa using hw.players, hw.cur_nonneg, hw.cur_lt, hw.dir⟩
    obtain ⟨hdis, -⟩ := key _ _ hw1 hp
    rw [hplayed] at hdis
    exact absurd hdis (append_singleton_ne_self _ _)

theorem UNOGame.finishTurn_cases {st : HiddenState} {pid : Int} {h : List Card} (hw : st.WF)
    (hpid : 0 ≤ pid) (hh : handAt st.hands pid = some h) :
    (h = [] ∧ UNOGame.finishTurn st pid = some { st with winnerIndex := pid }) ∨
    (h ≠ [] ∧ st.winnerIndex = -1 ∧
      UNOGame.finishTurn st pid =
        some { st with currentPlayer :=
          (st.currentPlayer + st.direction) % (st.hands.length : Int) }) ∨
    (h ≠ [] ∧ st.winnerIndex ≠ -1 ∧ UNOGame.finishTurn st pid = some st) := by
  by_cases hempty : h = []
  · subst hempty
    exact Or.inl ⟨rfl, UNOGame.finishTurn_empty hh (by omega)⟩
  · by_cases hwin : st.winnerIndex = -1
    · exact Or.inr (Or.inl ⟨hempty, hwin, UNOGame.finishTurn_next hw hh hempty hwin⟩)
    · exact Or.inr (Or.inr ⟨hempty, hwin, by simp [UNOGame.finishTurn, hh, hempty, hwin]⟩)

theorem UNOGame.finishTurn_discard {st st2 : HiddenState} {pid : Int} (hw : st.WF)
    (hpid : 0 ≤ pid) (hlt : pid < (st.hands.length : Int))
    (hfin : UNOGame.finishTurn st pid = some st2) :
    st2.discardPile = st.discardPile ∧ st2.hands = st.hands ∧ st2.drawPile = st.drawPile ∧
      st2.clockwise = st.clockwise := by
  obtain ⟨h, hh⟩ := handAt_of_lt hpid hlt
  rcases UNOGame.finishTurn_cases hw hpid hh with ⟨-, hf⟩ | ⟨-, -, hf⟩ | ⟨-, -, hf⟩ <;>
  · rw [hf] at hfin
    have := Option.some.inj hfin
    subst this
    exact ⟨rfl, rfl, rfl, rfl⟩

/-- A turn of `ayeshamobeen_513958_UNO.cpp` that appends `card` to the discard pile: there was
no winner, `card` matches the old top card, and the turn is `executeAction` for `card` followed
by steps 4 and 5, from the state `st1` reached by the play, in which `card` came either from
the hand of the current player or from the top of the draw pile. -/
theorem UNOGame.playedB_turn {s s2 : HiddenState} {card : Card} (hw : s.WF)
    (hturn : UNOGame.playTurn s = some s2)
    (hplayed : s2.discardPile = s.discardPile ++ [card]) :
    s.winnerIndex = -1 ∧
    ∃ st1 : HiddenState, st1.WF ∧ st1.hands.length = s.hands.length ∧
      st1.currentPlayer = s.currentPlayer ∧ st1.clockwise = s.clockwise ∧
      st1.winnerIndex = -1 ∧
      (executeAction st1 card).bind (fun st => UNOGame.finishTurn st s.currentPlayer) =
        some s2 ∧
      (∃ top, s.discardPile.getLast? = some top ∧ Matches top card) ∧
      ((st1.drawPile = s.drawPile ∧ ∃ pre post,
          handAt s.hands s.currentPlayer = some (pre ++ card :: post) ∧
          st1.hands = s.hands.set s.currentPlayer.toNat (pre ++ post)) ∨
        (s.drawPile = st1.drawPile ++ [card] ∧ st1.hands = s.hands)) := by
  have hwin : s.winnerIndex = -1 := by
    by_contra hne
    rw [UNOGame.playTurnB_over hne] at hturn
    have := Option.some.inj hturn
    rw [← this] at hplayed
    exact append_singleton_ne_self _ _ hplayed.symm
  refine ⟨hwin, ?_⟩
  obtain ⟨hand, hh⟩ := handAt_of_lt hw.cur_nonneg hw.cur_lt
  obtain ⟨top, htop⟩ : ∃ top, s.discardPile.getLast? = some top := by
    rcases getLast?_cases s.discardPile with ⟨-, h⟩ | ⟨D, d, -, h, -⟩
    · simp [UNOGame.playTurn, hwin, hh, h] at hturn
    · exact ⟨d, h⟩
  rw [UNOGame.playTurnB_eq hwin hh htop] at hturn
  have key : ∀ (st1 : HiddenState) (c : Card), st1.WF →
      st1.hands.length = s.hands.length →
      (executeAction st1 c).bind (fun st => UNOGame.finishTurn st s.currentPlayer) = some s2 →
      s2.discardPile = st1.discardPile := by
    intro st1 c hw1 hlen1 hrun
    obtain ⟨st2, hex, hw2, hlen2, -, hdis2, -, -⟩ := executeAction_frame hw1 c
    rw [hex, Option.some_bind] at hrun
    have := (UNOGame.finishTurn_discard hw2 hw.cur_nonneg
      (by rw [hlen2, hlen1]; exact hw.cur_lt) hrun).1
    rw [this, hdis2]
  rcases playStep_cases s s.currentPlayer hand top with
    ⟨pre, c, post, hsel, hp⟩ | ⟨-, -, hp⟩ | ⟨-, D, drawn, hdeck, hm, hp⟩ |
    ⟨-, D, drawn, hdeck, -, hp⟩
  · have hw1 : HiddenState.WF { s with
        discardPile := s.discardPile ++ [c],
        hands := s.hands.set s.currentPlayer.toNat (pre ++ post) } :=
      ⟨hw.cur_nonneg, by simpa using hw.cur_lt⟩
    rw [hp] at hturn
    have hdis := key _ _ hw1 (by simp) hturn
    rw [hplayed] at hdis
    have hc : card = c := by simpa using hdis
    subst hc
    refine ⟨_, hw1, by simp, rfl, rfl, hwin, hturn, ⟨top, htop, hsel.matches⟩,
      Or.inl ⟨rfl, pre, post, ?_, rfl⟩⟩
    rw [hh, hsel.hand_eq]
  · rw [hp, Option.some_bind] at hturn
    have := (UNOGame.finishTurn_discard hw hw.cur_nonneg hw.cur_lt hturn).1
    rw [hplayed] at this
    exact absurd this (append_singleton_ne_self _ _)
  · have hw1 : HiddenState.WF { s with
        drawPile := D, discardPile := s.discardPile ++ [drawn] } :=
      ⟨hw.cur_nonneg, hw.cur_lt⟩
    rw [hp] at hturn
    have hdis := key _ _ hw1 rfl hturn
    rw [hplayed] at hdis
    have hc : card = drawn := by simpa using hdis
    subst hc
    exact ⟨_, hw1, rfl, rfl, rfl, hwin, hturn, ⟨top, htop, hm⟩, Or.inr ⟨hdeck, rfl⟩⟩
  · have hw1 : HiddenState.WF { s with
        drawPile := D, hands := s.hands.set s.currentPlayer.toNat (hand ++ [drawn]) } :=
      ⟨hw.cur_nonneg, by simpa using hw.cur_lt⟩
    rw [hp, Option.some_bind] at hturn
    have := (UNOGame.finishTurn_discard hw1 hw.cur_nonneg (by simpa using hw.cur_lt) hturn).1
    rw [hplayed] at this
    exact absurd this (append_singleton_ne_self _ _)

theorem UNOGameImpl.resolve_eq {g g1 : UNOGameImpl} {played : Option Card} {k : Nat}
    (he : g.applyEffect played = some (g1, k)) (hw : g1.WF) :
    ∃ w, g.resolve played =
      some { g1 with
        winner := w,
        currentPlayer := (g1.currentPlayer + k * g1.direction) % g1.numPlayers } := by
  obtain ⟨w, -, h⟩ := UNOGameImpl.resolve_of_effect he hw
  exact ⟨w, h⟩

theorem UNOGameImpl.applyEffect_drawTwo {g : UNOGameImpl} (hw : g.WF) {card : Card}
    (h : card.value = "Draw Two") {hn : List Card}
    (hh : handAt g.hands ((g.currentPlayer + g.direction) % g.numPlayers) = some hn) :
    g.applyEffect (some card) =
      some ({ g with
          hands := g.hands.set ((g.currentPlayer + g.direction) % g.numPlayers).toNat
            (hn ++ g.deck.reverse.take 2),
          deck := (g.deck.reverse.drop 2).reverse }, 2) := by
  simp [UNOGameImpl.applyEffect, h, UNOGameImpl.nextPlayer_eq hw,
    UNOGameImpl.drawLoop_eq _ 2 g hn hh]

/-- Steps 4 and 5 of the second engine when there is no winner yet and the hand of the acting
player is not empty after the turn: the turn advances one step. -/
theorem UNOGame.finish_not_emptied {st s2 : HiddenState} {pid : Int} (hw : st.WF)
    (hpid : 0 ≤ pid) (hlt : pid < (st.hands.length : Int)) (hwin : st.winnerIndex = -1)
    (hfin : UNOGame.finishTurn st pid = some s2) (hne : handAt s2.hands pid ≠ some []) :
    s2 = { st with currentPlayer :=
      (st.currentPlayer + st.direction) % (st.hands.length : Int) } := by
  obtain ⟨h, hh⟩ := handAt_of_lt hpid hlt
  rcases UNOGame.finishTurn_cases hw hpid hh with ⟨he, hf⟩ | ⟨-, -, hf⟩ | ⟨-, hw2, -⟩
  · rw [hf] at hfin
    have := Option.some.inj hfin
    subst this
    subst he
    exact absurd hh hne
  · rw [hf] at hfin
    exact (Option.some.inj hfin).symm
  · exact absurd hwin hw2

/-! ## Reachable states -/

theorem UNOGameImpl.run_invariant (shuffle : List Card → List Card)
    (hperm : ∀ d, List.Perm (shuffle d) d) (n : Int) (h1 : 1 ≤ n) (h14 : n ≤ 14) (k : Nat) :
    ∃ g, UNOGameImpl.run shuffle n k = some g ∧ g.WF ∧ g.numPlayers = n ∧ g.discard ≠ [] ∧
      g.total = 100 ∧ (2 ≤ n → g.WinnerOK) := by
  induction k with
  | zero =>
    obtain ⟨g, hg, hw, hN, hc, hd, hwin, h7, hdis, hdeck⟩ :=
      UNOGameImpl.initGame_spec shuffle hperm n h1 h14
    refine ⟨g, hg, hw, hN, ?_, ?_, fun _ => Or.inl ⟨hwin, ?_⟩⟩
    · intro h
      rw [h] at hdis
      simp at hdis
    · have hsum := UNOGameImpl.sum_length_of_all h7
      have hp := hw.players
      simp only [UNOGameImpl.total, hsum, hdis]
      omega
    · intro h hmem hnil
      have := h7 h hmem
      rw [hnil] at this
      simp at this
  | succ k ih =>
    obtain ⟨g, hg, hw, hN, hdis, htot, hok⟩ := ih
    by_cases hwin : g.winner = -1
    · obtain ⟨g2, hturn, hw2, hN2, htot2, hdis2, hwinner⟩ :=
        UNOGameImpl.playTurn_step hw hwin hdis
      refine ⟨g2, by simp only [UNOGameImpl.run, hg, Option.some_bind, hturn], hw2,
        by rw [hN2, hN], hdis2, by rw [htot2, htot], ?_⟩
      intro h2
      have hne : ∀ h ∈ g.hands, h ≠ [] := by
        rcases hok h2 with ⟨-, h⟩ | ⟨h, -, -⟩
        · exact h
        · omega
      rcases hwinner (by rw [hN]; exact h2) hne with h | ⟨hwc, hhc⟩
      · exact Or.inl h
      · refine Or.inr ⟨by rw [hwc]; exact hw.cur_nonneg, by rw [hwc, hN2]; exact hw.cur_lt, ?_⟩
        rw [hwc]
        exact hhc
    · exact ⟨g, by simp only [UNOGameImpl.run, hg, Option.some_bind,
        UNOGameImpl.playTurn_over hwin], hw, hN, hdis, htot, hok⟩

theorem UNOGame.runB_invariant (shuffle : List Card → List Card)
    (hperm : ∀ d, List.Perm (shuffle d) d) (n : Int) (h1 : 1 ≤ n) (h14 : n ≤ 14) (k : Nat) :
    ∃ s, UNOGame.run shuffle n k = some s ∧ s.WF ∧ (s.hands.length : Int) = n ∧
      s.discardPile ≠ [] ∧ UNOGame.total s = 100 ∧ s.WinnerOK := by
  induction k with
  | zero =>
    obtain ⟨s, hs, hw, hN, hc, hd, hwin, h7, hdis, hdeck⟩ :=
      UNOGame.initGameB_spec shuffle hperm n h1 h14
    refine ⟨s, hs, hw, hN, ?_, ?_, Or.inl ⟨hwin, ?_⟩⟩
    · intro h
      rw [h] at hdis
      simp at hdis
    · have hsum := UNOGameImpl.sum_length_of_all h7
      simp only [UNOGame.total, hsum, hdis]
      omega
    · intro h hmem hnil
      have := h7 h hmem
      rw [hnil] at this
      simp at this
  | succ k ih =>
    obtain ⟨s, hs, hw, hN, hdis, htot, hok⟩ := ih
    by_cases hwin : s.winnerIndex = -1
    · obtain ⟨s2, hturn, hw2, hN2, htot2, hdis2, hwinner⟩ :=
        UNOGame.playTurnB_step hw hwin hdis
      refine ⟨s2, by simp only [UNOGame.run, hs, Option.some_bind, hturn], hw2,
        by rw [hN2, hN], hdis2, by rw [htot2, htot], ?_⟩
      have hne : ∀ h ∈ s.hands, h ≠ [] := by
        rcases hok with ⟨-, h⟩ | ⟨h, -, -⟩
        · exact h
        · omega
      rcases hwinner hne with h | ⟨hwc, hhc⟩
      · exact Or.inl h
      · refine Or.inr ⟨by rw [hwc]; exact hw.cur_nonneg, by rw [hwc, hN2]; exact hw.cur_lt, ?_⟩
        rw [hwc]
        exact hhc
    · exact ⟨s, by simp only [UNOGame.run, hs, Option.some_bind,
        UNOGame.playTurnB_over hwin], hw, hN, hdis, htot, hok⟩

/-! ## The effect of the played card, case by case -/

theorem UNOGameImpl.applyEffect_cases {g : UNOGameImpl} (hw : g.WF) (played : Option Card) :
    (g.applyEffect played = some (g, 1) ∧
        (played = none ∨ ∃ card, played = some card ∧ card.value ≠ "Skip" ∧
          card.value ≠ "Reverse" ∧ card.value ≠ "Draw Two")) ∨
    (g.applyEffect played = some (g, 2) ∧ ∃ card, played = some card ∧ card.value = "Skip") ∨
    (g.applyEffect played =
          some ({ g with direction := g.direction * -1 }, if g.numPlayers = 2 then 2 else 1) ∧
        ∃ card, played = some card ∧ card.value = "Reverse") ∨
    (∃ hn, handAt g.hands ((g.currentPlayer + g.direction) % g.numPlayers) = some hn ∧
        g.applyEffect played =
          some ({ g with
              hands := g.hands.set ((g.currentPlayer + g.direction) % g.numPlayers).toNat
                (hn ++ g.deck.reverse.take 2),
              deck := (g.deck.reverse.drop 2).reverse }, 2) ∧
        ∃ card, played = some card ∧ card.value = "Draw Two") := by
  cases played with
  | none => exact Or.inl ⟨rfl, Or.inl rfl⟩
  | some card =>
    by_cases h1 : card.value = "Skip"
    · exact Or.inr (Or.inl ⟨by simp [UNOGameImpl.applyEffect, h1], card, rfl, h1⟩)
    by_cases h2 : card.value = "Reverse"
    · exact Or.inr (Or.inr (Or.inl ⟨by simp [UNOGameImpl.applyEffect, h2], card, rfl, h2⟩))
    by_cases h3 : card.value = "Draw Two"
    · have hr := UNOGameImpl.nextPlayer_range hw
      obtain ⟨hn, hh⟩ := handAt_of_lt hr.1 (by rw [← hw.players]; exact hr.2)
      exact Or.inr (Or.inr (Or.inr ⟨hn, hh, UNOGameImpl.applyEffect_drawTwo hw h3 hh,
        card, rfl, h3⟩))
    · exact Or.inl ⟨by simp [UNOGameImpl.applyEffect, h1, h2, h3],
        Or.inr ⟨card, rfl, h1, h2, h3⟩⟩

theorem executeAction_cases {st : HiddenState} (hw : st.WF) (card : Card) :
    (executeAction st card = some st ∧ card.value ≠ "Skip" ∧ card.value ≠ "Reverse" ∧
        card.value ≠ "Draw Two") ∨
    (executeAction st card =
          some { st with currentPlayer :=
            (st.currentPlayer + st.direction) % (st.hands.length : Int) } ∧
        card.value = "Skip") ∨
    (executeAction st card = some { st with clockwise := !st.clockwise } ∧
        card.value = "Reverse") ∨
    (∃ hn, handAt st.hands ((st.currentPlayer + st.direction) % (st.hands.length : Int)) =
          some hn ∧
        executeAction st card =
          some { st with
            hands := st.hands.set
              ((st.currentPlayer + st.direction) % (st.hands.length : Int)).toNat
              (hn ++ st.drawPile.reverse.take 2),
            drawPile := (st.drawPile.reverse.drop 2).reverse,
            currentPlayer := (st.currentPlayer + st.direction) % (st.hands.length : Int) } ∧
        card.value = "Draw Two") := by
  by_cases h1 : card.value = "Skip"
  · exact Or.inr (Or.inl ⟨executeAction_skip hw h1, h1⟩)
  by_cases h2 : card.value = "Reverse"
  · exact Or.inr (Or.inr (Or.inl ⟨executeAction_reverse st h2, h2⟩))
  by_cases h3 : card.value = "Draw Two"
  · have hr := stepFrom_range hw
    obtain ⟨hn, hh⟩ := handAt_of_lt hr.1 hr.2
    exact Or.inr (Or.inr (Or.inr ⟨hn, hh, executeAction_drawTwo hw h3 hh, h3⟩))
  · exact Or.inl ⟨executeAction_number st h1 h2 h3, h1, h2, h3⟩

/-- The turn order of `UNO.cpp` after a turn in which `card` was played, whether or not the
turn was a winning one. -/
theorem UNOGameImpl.turn_order {g g2 : UNOGameImpl} {card : Card} (hw : g.WF)
    (hturn : g.playTurn = some g2) (hplayed : g2.discard = g.discard ++ [card]) :
    (card.value = "Skip" ∨ card.value = "Draw Two" →
      g2.currentPlayer = (g.currentPlayer + 2 * g.direction) % g.numPlayers ∧
        g2.direction = g.direction) ∧
    (card.value = "Reverse" →
      g2.direction = -g.direction ∧
        (g.numPlayers ≠ 2 →
          g2.currentPlayer = (g.currentPlayer - g.direction) % g.numPlayers) ∧
        (g.numPlayers = 2 → g2.currentPlayer = g.currentPlayer)) ∧
    (card.value ≠ "Skip" → card.value ≠ "Reverse" → card.value ≠ "Draw Two" →
      g2.currentPlayer = (g.currentPlayer + g.direction) % g.numPlayers ∧
        g2.direction = g.direction) := by
  obtain ⟨-, g1, hw1, hN1, hc1, hd1, -, hres, -, -⟩ :=
    UNOGameImpl.played_turn hw hturn hplayed
  have h0 := hw.cur_nonneg
  have hlt := hw.cur_lt
  rcases UNOGameImpl.applyEffect_cases hw1 (some card) with ⟨he, hc⟩ | ⟨he, c, hc, hv⟩ |
    ⟨he, c, hc, hv⟩ | ⟨hn, hh, he, c, hc, hv⟩
  · obtain ⟨w, h⟩ := UNOGameImpl.resolve_eq he hw1
    rw [h] at hres
    have := Option.some.inj hres
    subst this
    rcases hc with hc | ⟨c, hc, h1, h2, h3⟩
    · simp at hc
    · have := Option.some.inj hc
      subst this
      refine ⟨fun h => ?_, fun h => absurd h h2, fun _ _ _ => ?_⟩
      · rcases h with h | h
        · exact absurd h h1
        · exact absurd h h3
      · simp [hd1, hc1, hN1]
  · have := Option.some.inj hc
    subst this
    obtain ⟨w, h⟩ := UNOGameImpl.resolve_eq he hw1
    rw [h] at hres
    have := Option.some.inj hres
    subst this
    refine ⟨fun _ => by simp [hd1, hc1, hN1], fun h => ?_, fun h _ _ => absurd hv h⟩
    rw [hv] at h
    simp at h
  · have := Option.some.inj hc
    subst this
    have hwe : UNOGameImpl.WF { g1 with direction := g1.direction * -1 } :=
      ⟨hw1.players, hw1.cur_nonneg, hw1.cur_lt, by rcases hw1.dir with h | h <;> simp [h]⟩
    obtain ⟨w, h⟩ := UNOGameImpl.resolve_eq he hwe
    rw [h] at hres
    have := Option.some.inj hres
    subst this
    refine ⟨fun h => ?_, fun _ => ⟨by simp [hd1], fun hN => ?_, fun hN => ?_⟩,
      fun _ h _ => absurd hv h⟩
    · rw [hv] at h
      simp at h
    · have hN2 : g1.numPlayers ≠ 2 := by rw [hN1]; exact hN
      show (g1.currentPlayer + ((if g1.numPlayers = 2 then 2 else 1 : Nat) : Int) *
        (g1.direction * -1)) % g1.numPlayers = _
      rw [if_neg hN2, hc1, hd1, hN1]
      congr 1
      push_cast
      ring
    · have hN2 : g1.numPlayers = 2 := by rw [hN1]; exact hN
      show (g1.currentPlayer + ((if g1.numPlayers = 2 then 2 else 1 : Nat) : Int) *
        (g1.direction * -1)) % g1.numPlayers = _
      rw [if_pos hN2, hc1, hd1, hN2]
      rw [hN] at hlt
      rcases hw.dir with hd | hd <;> rw [hd] <;> push_cast <;> omega
  · have := Option.some.inj hc
    subst this
    have hwe : UNOGameImpl.WF { g1 with
        hands := g1.hands.set ((g1.currentPlayer + g1.direction) % g1.numPlayers).toNat
          (hn ++ g1.deck.reverse.take 2),
        deck := (g1.deck.reverse.drop 2).reverse } :=
      ⟨by simpa using hw1.players, hw1.cur_nonneg, hw1.cur_lt, hw1.dir⟩
    obtain ⟨w, h⟩ := UNOGameImpl.resolve_eq he hwe
    rw [h] at hres
    have := Option.some.inj hres
    subst this
    refine ⟨fun _ => ⟨?_, hd1⟩, fun h => ?_, fun _ _ h => absurd hv h⟩
    · show (g1.currentPlayer + ((2 : Nat) : Int) * g1.direction) % g1.numPlayers = _
      rw [hc1, hd1, hN1]
      rfl
    · rw [hv] at h
      simp at h

/-! ## The deal beyond a fresh engine with 1 to 14 players -/

theorem UNOGame.dealHands_length (hs : List (List Card)) (pile : List Card) :
    (UNOGame.dealHands hs pile).1.length = hs.length := by
  induction hs generalizing pile with
  | nil => rfl
  | cons a hs ih => simp [UNOGame.dealHands, ih]

theorem UNOGame.dealHands_congr (hs hs2 : List (List Card)) (pile : List Card)
    (h : hs.length = hs2.length) : UNOGame.dealHands hs pile = UNOGame.dealHands hs2 pile := by
  induction hs generalizing hs2 pile with
  | nil =>
    cases hs2 with
    | nil => rfl
    | cons b hs2 => simp at h
  | cons a hs ih =>
    cases hs2 with
    | nil => simp at h
    | cons b hs2 =>
      simp only [List.length_cons, Nat.add_right_cancel_iff] at h
      simp only [UNOGame.dealHands, ih hs2 _ h]

theorem UNOGame.dealHands_le (hs : List (List Card)) (pile : List Card) :
    ∀ h ∈ (UNOGame.dealHands hs pile).1, h.length ≤ 7 := by
  induction hs generalizing pile with
  | nil => simp [UNOGame.dealHands]
  | cons a hs ih =>
    simp only [UNOGame.dealHands, UNOGame.dealHand_eq, List.nil_append, List.mem_cons,
      forall_eq_or_imp, List.length_take, List.length_reverse]
    exact ⟨by omega, ih _⟩

theorem UNOGame.dealHands_sum (hs : List (List Card)) (pile : List Card) :
    ((UNOGame.dealHands hs pile).1.map List.length).sum +
      (UNOGame.dealHands hs pile).2.length = pile.length := by
  induction hs generalizing pile with
  | nil => simp [UNOGame.dealHands]
  | cons a hs ih =>
    have := ih (pile.reverse.drop 7).reverse
    simp only [List.length_reverse, List.length_drop] at this
    simp only [UNOGame.dealHands, UNOGame.dealHand_eq, List.nil_append, List.map_cons,
      List.sum_cons, List.length_take, List.length_reverse]
    omega

theorem UNOGame.dealHands_exhaust (hs : List (List Card)) (pile : List Card)
    (h : pile.length ≤ 7 * hs.length) : (UNOGame.dealHands hs pile).2 = [] := by
  induction hs generalizing pile with
  | nil =>
    simp only [List.length_nil, Nat.mul_zero, Nat.le_zero, List.length_eq_zero] at h
    simp [UNOGame.dealHands, h]
  | cons a hs ih =>
    simp only [List.length_cons] at h
    simp only [UNOGame.dealHands, UNOGame.dealHand_eq]
    apply ih
    simp only [List.length_reverse, List.length_drop]
    omega

/-- In the second engine `initialize()` depends only on the number of hands of the state it is
called on. -/
theorem UNOGame.initGame_congr (shuffle : List Card → List Card) (s s2 : HiddenState)
    (h : s.hands.length = s2.hands.length) :
    UNOGame.initGame shuffle s = UNOGame.initGame shuffle s2 := by
  simp only [UNOGame.initGame, UNOGame.dealHands_congr s.hands s2.hands _ h]

theorem UNOGame.initGame_hands_length (shuffle : List Card → List Card) (s : HiddenState) :
    (UNOGame.initGame shuffle s).hands.length = s.hands.length := by
  simp only [UNOGame.initGame]
  cases (UNOGame.dealHands s.hands (shuffle createFullDeck)).2.getLast? with
  | none => simp [UNOGame.dealHands_length]
  | some c => simp [UNOGame.dealHands_length]

/-- In the second engine `initialize()` is a full reset: on every state with 1 to 14 hands it
gives what it gives on a freshly constructed engine, and a second call changes nothing. -/
theorem UNOGame.initGame_reset (shuffle : List Card → List Card)
    (hperm : ∀ d, List.Perm (shuffle d) d) (s : HiddenState)
    (h1 : 1 ≤ s.hands.length) (h14 : s.hands.length ≤ 14) :
    (UNOGame.create (s.hands.length : Int)).map (UNOGame.initGame shuffle) =
        some (UNOGame.initGame shuffle s) ∧
    (UNOGame.initGame shuffle s).currentPlayer = 0 ∧
    (UNOGame.initGame shuffle s).clockwise = true ∧
    (UNOGame.initGame shuffle s).winnerIndex = -1 ∧
    (∀ h ∈ (UNOGame.initGame shuffle s).hands, h.length = 7) ∧
    (UNOGame.initGame shuffle s).discardPile.length = 1 ∧
    UNOGame.total (UNOGame.initGame shuffle s) = 100 ∧
    UNOGame.initGame shuffle (UNOGame.initGame shuffle s) = UNOGame.initGame shuffle s := by
  obtain ⟨t, ht, -, hN, hc, hcw, hwin, h7, hdis, hdeck⟩ :=
    UNOGame.initGameB_spec shuffle hperm (s.hands.length : Int) (by omega) (by omega)
  have hcreate : UNOGame.create (s.hands.length : Int) = some
      { drawPile := [], discardPile := [], hands := List.replicate s.hands.length [],
        currentPlayer := 0, clockwise := true, winnerIndex := -1 } := by
    simp [UNOGame.create]
  rw [hcreate, Option.map_some'] at ht
  have hcongr := UNOGame.initGame_congr shuffle
    { drawPile := [], discardPile := [], hands := List.replicate s.hands.length [],
      currentPlayer := 0, clockwise := true, winnerIndex := -1 } s (by simp)
  rw [hcongr] at ht
  have ht2 := Option.some.inj ht
  subst ht2
  refine ⟨by rw [hcreate, Option.map_some', hcongr], hc, hcw, hwin, h7, hdis, ?_,
    UNOGame.initGame_congr shuffle _ _ (UNOGame.initGame_hands_length shuffle s)⟩
  have hsum := UNOGameImpl.sum_length_of_all h7
  simp only [UNOGame.total, hsum, hdis]
  omega

/-- In the second engine `initialize()` with 15 or more players completes: no hand holds more
than 7 cards, the hands hold 100 cards together, the draw pile and the discard pile are
empty. -/
theorem UNOGame.initGame_exhaust (shuffle : List Card → List Card)
    (hperm : ∀ d, List.Perm (shuffle d) d) (n : Int) (h15 : 15 ≤ n) :
    ∃ s, (UNOGame.create n).map (UNOGame.initGame shuffle) = some s ∧
      (s.hands.length : Int) = n ∧ (∀ h ∈ s.hands, h.length ≤ 7) ∧
      (s.hands.map List.length).sum = 100 ∧ s.drawPile = [] ∧ s.discardPile = [] := by
  have hlen : (shuffle createFullDeck).length = 100 := by
    rw [(hperm createFullDeck).length_eq, createFullDeck_length]
  have hcreate : UNOGame.create n = some
      { drawPile := [], discardPile := [], hands := List.replicate n.toNat [],
        currentPlayer := 0, clockwise := true, winnerIndex := -1 } := by
    simp [UNOGame.create]
    omega
  have hex := UNOGame.dealHands_exhaust (List.replicate n.toNat []) (shuffle createFullDeck)
    (by simp only [List.length_replicate, hlen]; omega)
  have hsum := UNOGame.dealHands_sum (List.replicate n.toNat []) (shuffle createFullDeck)
  have hle := UNOGame.dealHands_le (List.replicate n.toNat []) (shuffle createFullDeck)
  have hl := UNOGame.dealHands_length (List.replicate n.toNat []) (shuffle createFullDeck)
  rw [hex, hlen] at hsum
  simp only [List.length_replicate] at hl
  refine ⟨_, by rw [hcreate, Option.map_some'], ?_, ?_, ?_, ?_, ?_⟩
  · simp only [UNOGame.initGame, hex, List.getLast?_nil]
    rw [hl]
    omega
  · simp only [UNOGame.initGame, hex, List.getLast?_nil]
    exact hle
  · simp only [UNOGame.initGame, hex, List.getLast?_nil]
    simpa using hsum
  · simp only [UNOGame.initGame, hex, List.getLast?_nil]
  · simp only [UNOGame.initGame, hex, List.getLast?_nil]

theorem UNOGameImpl.dealRange_fail (g : UNOGameImpl) (k : Nat) (hk : k ≤ g.hands.length)
    (hd : g.deck.length < k) : (List.range k).foldlM UNOGameImpl.dealOne g = none := by
  induction k with
  | zero => omega
  | succ k ih =>
    rw [List.range_succ, List.foldlM_append]
    by_cases hlt : g.deck.length < k
    · rw [ih (by omega) hlt]
      rfl
    · obtain ⟨hands1, hfold, -, -, -⟩ := UNOGameImpl.dealRange g k (by omega) (by omega)
      have hnil : (g.deck.reverse.drop k).reverse = [] := by
        simp only [List.reverse_eq_nil_iff, List.drop_eq_nil_iff, List.length_reverse]
        omega
      rw [hfold, hnil]
      simp [UNOGameImpl.dealOne]

theorem UNOGameImpl.dealRounds_fail (i : Nat) (g : UNOGameImpl)
    (hn : g.numPlayers.toNat = g.hands.length)
    (hd : g.deck.length < i * g.hands.length) : UNOGameImpl.dealRounds i g = none := by
  induction i generalizing g with
  | zero => omega
  | succ i ih =>
    have hmul : (i + 1) * g.hands.length = g.hands.length + i * g.hands.length := by ring
    by_cases hlt : g.deck.length < g.hands.length
    · have := UNOGameImpl.dealRange_fail g g.hands.length (le_refl _) hlt
      simp [UNOGameImpl.dealRounds, UNOGameImpl.dealRound, hn, this]
    · obtain ⟨hands1, hfold, hlen1, -, -⟩ :=
        UNOGameImpl.dealRange g g.hands.length (le_refl _) (by omega)
      have hround : UNOGameImpl.dealRound g = some { g with
          hands := hands1, deck := (g.deck.reverse.drop g.hands.length).reverse } := by
        rw [UNOGameImpl.dealRound, hn, hfold]
      have := ih { g with
          hands := hands1, deck := (g.deck.reverse.drop g.hands.length).reverse }
        (by simpa [hlen1] using hn)
        (by simp only [hlen1, List.length_reverse, List.length_drop]; omega)
      simp only [UNOGameImpl.dealRounds, hround, Option.some_bind, this]

/-- In `UNO.cpp` the constructor followed by `initialize()` with 15 or more players reads
`deck.back()` on the empty deck: the deal is undefined. -/
theorem UNOGameImpl.initGame_undefined (shuffle : List Card → List Card)
    (hperm : ∀ d, List.Perm (shuffle d) d) (n : Int) (h15 : 15 ≤ n) :
    (UNOGameImpl.create n).bind (UNOGameImpl.initGame shuffle) = none := by
  have hlen : (shuffle UNOGameImpl.buildDeck).length = 100 := by
    rw [(hperm UNOGameImpl.buildDeck).length_eq, UNOGameImpl.buildDeck_length]
  have hcreate : UNOGameImpl.create n = some
      { numPlayers := n, currentPlayer := 0, direction := 1, winner := -1,
        deck := [], hands := List.replicate n.toNat [], discard := [] } := by
    simp [UNOGameImpl.create]
    omega
  have := UNOGameImpl.dealRounds_fail 7
    { numPlayers := n, currentPlayer := 0, direction := 1, winner := -1,
      deck := shuffle UNOGameImpl.buildDeck, hands := List.replicate n.toNat [],
      discard := [] }
    (by simp) (by simp only [List.length_replicate, hlen]; omega)
  simp only [hcreate, Option.some_bind, UNOGameImpl.initGame, this, Option.none_bind]

/-- In `UNO.cpp` `initialize()` on an engine with at most 14 players keeps `currentPlayer`,
`direction` and `winner`, appends 7 cards to every hand and one card to the discard pile. -/
theorem UNOGameImpl.initGame_keeps (shuffle : List Card → List Card)
    (hperm : ∀ d, List.Perm (shuffle d) d) (g : UNOGameImpl)
    (hn : g.numPlayers.toNat = g.hands.length) (h14 : g.hands.length ≤ 14) :
    ∃ g2 c, UNOGameImpl.initGame shuffle g = some g2 ∧
      g2.currentPlayer = g.currentPlayer ∧ g2.direction = g.direction ∧
      g2.winner = g.winner ∧ g2.discard = g.discard ++ [c] ∧
      g2.hands.length = g.hands.length ∧
      (∀ j, j < g.hands.length → ∃ h h2, g.hands[j]? = some h ∧ g2.hands[j]? = some h2 ∧
        h2.length = h.length + 7) ∧
      g2.deck.length + 7 * g.hands.length + 1 = 100 := by
  have hlen : (shuffle UNOGameImpl.buildDeck).length = 100 := by
    rw [(hperm UNOGameImpl.buildDeck).length_eq, UNOGameImpl.buildDeck_length]
  obtain ⟨g2, hdeal, hN, hc, hd, hw, hdis, hdk, hlen2, hhands⟩ :=
    UNOGameImpl.dealRounds_spec 7 { g with deck := shuffle UNOGameImpl.buildDeck } hn
      (by simp only [hlen]; omega)
  simp only at hN hc hd hw hdis hdk hlen2 hhands
  have hdklen : g2.deck.length = 100 - 7 * g.hands.length := by
    rw [hdk]
    simp [hlen]
  rcases getLast?_cases g2.deck with ⟨hnil, -⟩ | ⟨D, top, hdeck, hlast, hdrop⟩
  · rw [hnil] at hdklen
    simp at hdklen
    omega
  refine ⟨{ g2 with discard := g2.discard ++ [top], deck := g2.deck.dropLast }, top,
    by simp only [UNOGameImpl.initGame, hdeal, Option.some_bind, hlast], hc, hd, hw,
    by simp only [hdis], hlen2, hhands, ?_⟩
  show g2.deck.dropLast.length + 7 * g.hands.length + 1 = 100
  rw [List.length_dropLast, hdklen]
  omega

/-! ## The order of the deal -/

/-- The hands after `i` rounds of the deal of `UNO.cpp`: hand `j` keeps its old cards and
receives, in round `r`, the card number `j + r * n` counted from the top of the deck. -/
theorem UNOGameImpl.dealRounds_content (i : Nat) (g : UNOGameImpl)
    (hn : g.numPlayers.toNat = g.hands.length)
    (hdeck : i * g.hands.length ≤ g.deck.length) :
    ∃ g2, UNOGameImpl.dealRounds i g = some g2 ∧
      ∀ j, j < g.hands.length → ∃ h h2, g.hands[j]? = some h ∧ g2.hands[j]? = some h2 ∧
        h2.take h.length = h ∧ h2.length = h.length + i ∧
        ∀ r, r < i → h2[h.length + r]? = g.deck.reverse[j + r * g.hands.length]? := by
  induction i generalizing g with
  | zero =>
    refine ⟨g, rfl, ?_⟩
    intro j hj
    exact ⟨g.hands[j], g.hands[j], List.getElem?_eq_getElem hj, List.getElem?_eq_getElem hj,
      by simp, rfl, fun r hr => absurd hr (Nat.not_lt_zero r)⟩
  | succ i ih =>
    have hmul : (i + 1) * g.hands.length = g.hands.length + i * g.hands.length := by ring
    obtain ⟨hands1, hfold, hlen1, hlt1, -⟩ :=
      UNOGameImpl.dealRange g g.hands.length (le_refl _) (by omega)
    have hround : UNOGameImpl.dealRound g = some { g with
        hands := hands1, deck := (g.deck.reverse.drop g.hands.length).reverse } := by
      rw [UNOGameImpl.dealRound, hn, hfold]
    obtain ⟨g2, hrest, hhands⟩ :=
      ih { g with hands := hands1, deck := (g.deck.reverse.drop g.hands.length).reverse }
        (by simpa [hlen1] using hn)
        (by simp only [hlen1, List.length_reverse, List.length_drop]; omega)
    refine ⟨g2, by simp only [UNOGameImpl.dealRounds, hround, Option.some_bind, hrest], ?_⟩
    intro j hj
    obtain ⟨h, c, h1, hc, h3⟩ := hlt1 j hj
    obtain ⟨h', h2, h4, h5, h6, h7, h8⟩ := hhands j (by simpa [hlen1] using hj)
    simp only [List.reverse_reverse, hlen1] at h4 h8
    rw [h3] at h4
    have hh' := Option.some.inj h4
    subst hh'
    simp only [List.length_append, List.length_singleton] at h6 h7 h8
    refine ⟨h, h2, h1, h5, ?_, by omega, ?_⟩
    · have : List.take h.length h2 = List.take h.length (List.take (h.length + 1) h2) := by
        rw [List.take_take]
        congr 1
        omega
      rw [this, h6]
      simp
    · intro r hr
      cases r with
      | zero =>
        have : h2[h.length]? = (List.take (h.length + 1) h2)[h.length]? := by
          rw [List.getElem?_take_of_lt (by omega)]
        rw [Nat.add_zero, this, h6, List.getElem?_concat_length, Nat.zero_mul, Nat.add_zero, hc]
      | succ r =>
        have := h8 r (by omega)
        rw [List.getElem?_drop] at this
        have e1 : h.length + (r + 1) = h.length + 1 + r := by omega
        have e2 : j + (r + 1) * g.hands.length = g.hands.length + (j + r * g.hands.length) := by
          ring
        rw [e1, e2]
        exact this

theorem UNOGame.dealHands_snd (hs : List (List Card)) (pile : List Card) :
    (UNOGame.dealHands hs pile).2 = (pile.reverse.drop (7 * hs.length)).reverse := by
  induction hs generalizing pile with
  | nil => simp [UNOGame.dealHands]
  | cons a hs ih =>
    simp only [UNOGame.dealHands, UNOGame.dealHand_eq, ih, List.reverse_reverse, List.drop_drop,
      List.length_cons]
    congr 2
    ring

/-- The hands after the deal of the second engine: hand `p` receives the seven cards number
`7p` to `7p + 6` counted from the top of the pile. -/
theorem UNOGame.dealHands_content (hs : List (List Card)) (pile : List Card) (p : Nat)
    (hp : p < hs.length) :
    (UNOGame.dealHands hs pile).1[p]? = some ((pile.reverse.drop (7 * p)).take 7) := by
  induction hs generalizing pile p with
  | nil => simp at hp
  | cons a hs ih =>
    cases p with
    | zero => simp [UNOGame.dealHands, UNOGame.dealHand_eq]
    | succ p =>
      simp only [List.length_cons, Nat.add_lt_add_iff_right] at hp
      simp only [UNOGame.dealHands, UNOGame.dealHand_eq, List.getElem?_cons_succ, ih _ p hp,
        List.reverse_reverse, List.drop_drop]
      congr 3
      ring

/-- The deal of `UNO.cpp` on a fresh engine with 1 to 14 players, card by card: numbering the
shuffled deck from the top, hand `p` is the cards `p`, `p + n`, ..., `p + 6n` and the discard
pile is the card `7n`. -/
theorem UNOGameImpl.initGame_order (shuffle : List Card → List Card)
    (hperm : ∀ d, List.Perm (shuffle d) d) (n : Int) (h1 : 1 ≤ n) (h14 : n ≤ 14) :
    ∃ g c, (UNOGameImpl.create n).bind (UNOGameImpl.initGame shuffle) = some g ∧
      (shuffle UNOGameImpl.buildDeck).reverse[7 * n.toNat]? = some c ∧ g.discard = [c] ∧
      ∀ p, p < n.toNat → ∃ h, g.hands[p]? = some h ∧ h.length = 7 ∧
        ∀ r, r < 7 → h[r]? = (shuffle UNOGameImpl.buildDeck).reverse[p + r * n.toNat]? := by
  have hlen : (shuffle UNOGameImpl.buildDeck).length = 100 := by
    rw [(hperm UNOGameImpl.buildDeck).length_eq, UNOGameImpl.buildDeck_length]
  have hcreate : UNOGameImpl.create n = some
      { numPlayers := n, currentPlayer := 0, direction := 1, winner := -1,
        deck := [], hands := List.replicate n.toNat [], discard := [] } := by
    simp [UNOGameImpl.create]
    omega
  obtain ⟨g2, hdeal, -, -, -, -, hdis, hdk, -, -⟩ :=
    UNOGameImpl.dealRounds_spec 7
      { numPlayers := n, currentPlayer := 0, direction := 1, winner := -1,
        deck := shuffle UNOGameImpl.buildDeck, hands := List.replicate n.toNat [],
        discard := [] }
      (by simp) (by simp only [List.length_replicate, hlen]; omega)
  obtain ⟨g3, hdeal3, hcontent⟩ :=
    UNOGameImpl.dealRounds_content 7
      { numPlayers := n, currentPlayer := 0, direction := 1, winner := -1,
        deck := shuffle UNOGameImpl.buildDeck, hands := List.replicate n.toNat [],
        discard := [] }
      (by simp) (by simp only [List.length_replicate, hlen]; omega)
  rw [hdeal] at hdeal3
  have hg := Option.some.inj hdeal3
  subst hg
  simp only [List.length_replicate] at hdk hcontent
  simp only at hdis
  have hlt : 7 * n.toNat < (shuffle UNOGameImpl.buildDeck).reverse.length := by
    rw [List.length_reverse, hlen]
    omega
  have hlast : g2.deck.getLast? = some ((shuffle UNOGameImpl.buildDeck).reverse[7 * n.toNat]) := by
    rw [hdk, List.getLast?_reverse, List.head?_drop, List.getElem?_eq_getElem hlt]
  refine ⟨{ g2 with discard := g2.discard ++ [(shuffle UNOGameImpl.buildDeck).reverse[7 * n.toNat]],
                    deck := g2.deck.dropLast },
    (shuffle UNOGameImpl.buildDeck).reverse[7 * n.toNat], ?_, List.getElem?_eq_getElem hlt,
    by simp [hdis], ?_⟩
  · simp only [hcreate, Option.some_bind, UNOGameImpl.initGame, hdeal, hlast]
  · intro p hp
    obtain ⟨h, h2, h3, h4, -, h6, h7⟩ := hcontent p hp
    rw [List.getElem?_replicate] at h3
    simp only [hp, if_true, Option.some.injEq] at h3
    subst h3
    refine ⟨h2, h4, by simpa using h6, ?_⟩
    intro r hr
    simpa using h7 r hr

/-- The deal of `ayeshamobeen_513958_UNO.cpp` on a fresh engine with 1 to 14 players, card by
card: numbering the shuffled deck from the top, hand `p` is the cards `7p`, `7p + 1`, ...,
`7p + 6` and the discard pile is the card `7n`. -/
theorem UNOGame.initGameB_order (shuffle : List Card → List Card)
    (hperm : ∀ d, List.Perm (shuffle d) d) (n : Int) (h1 : 1 ≤ n) (h14 : n ≤ 14) :
    ∃ s c, (UNOGame.create n).map (UNOGame.initGame shuffle) = some s ∧
      (shuffle createFullDeck).reverse[7 * n.toNat]? = some c ∧ s.discardPile = [c] ∧
      ∀ p, p < n.toNat → ∃ h, s.hands[p]? = some h ∧ h.length = 7 ∧
        ∀ r, r < 7 → h[r]? = (shuffle createFullDeck).reverse[7 * p + r]? := by
  have hlen : (shuffle createFullDeck).length = 100 := by
    rw [(hperm createFullDeck).length_eq, UNOGame.createFullDeck_length]
  have hcreate : UNOGame.create n = some
      { drawPile := [], discardPile := [], hands := List.replicate n.toNat [],
        currentPlayer := 0, clockwise := true, winnerIndex := -1 } := by
    simp [UNOGame.create]
    omega
  have hdp := UNOGame.dealHands_snd (List.replicate n.toNat []) (shuffle createFullDeck)
  simp only [List.length_replicate] at hdp
  have hlt : 7 * n.toNat < (shuffle createFullDeck).reverse.length := by
    rw [List.length_reverse, hlen]
    omega
  have hlast : (UNOGame.dealHands (List.replicate n.toNat []) (shuffle createFullDeck)).2.getLast?
      = some ((shuffle createFullDeck).reverse[7 * n.toNat]) := by
    rw [hdp, List.getLast?_reverse, List.head?_drop, List.getElem?_eq_getElem hlt]
  refine ⟨
    { drawPile := List.dropLast
        (Prod.snd (UNOGame.dealHands (List.replicate n.toNat []) (shuffle createFullDeck))),
      discardPile := [(shuffle createFullDeck).reverse[7 * n.toNat]],
      hands := (UNOGame.dealHands (List.replicate n.toNat []) (shuffle createFullDeck)).1,
      currentPlayer := 0, clockwise := true, winnerIndex := -1 },
    (shuffle createFullDeck).reverse[7 * n.toNat],
    by simp only [hcreate, Option.map_some', UNOGame.initGame, hlast],
    List.getElem?_eq_getElem hlt, rfl, ?_⟩
  intro p hp
  refine ⟨((shuffle createFullDeck).reverse.drop (7 * p)).take 7,
    UNOGame.dealHands_content _ _ p (by simpa using hp), ?_, ?_⟩
  · rw [List.length_take, List.length_drop, List.length_reverse, hlen]
    omega
  · intro r hr
    rw [List.getElem?_take_of_lt hr, List.getElem?_drop]

/-! ## The two engines side by side -/

theorem toB_WF {g : UNOGameImpl} (hw : g.WF) : (toB g).WF :=
  ⟨hw.cur_nonneg, by
    show g.currentPlayer < (g.hands.length : Int)
    rw [← hw.players]
    exact hw.cur_lt⟩

theorem toB_direction {g : UNOGameImpl} (hw : g.WF) : (toB g).direction = g.direction := by
  rcases hw.dir with h | h <;> simp [toB, HiddenState.direction, h]

/-- The play step of both engines on the same state: the same card is played, or none, and the
same hands and piles are left. -/
theorem play_both (g : UNOGameImpl) (top : Card) (hand : List Card)
    (hh : handAt g.hands g.currentPlayer = some hand) (hne : hand ≠ []) :
    ∃ gA played, g.playPhase top = some (gA, played) ∧
      UNOGame.playStep (toB g) g.currentPlayer hand top =
        (match played with
          | some c => executeAction (toB gA) c
          | none => some (toB gA)) ∧
      gA.numPlayers = g.numPlayers ∧ gA.currentPlayer = g.currentPlayer ∧
      gA.direction = g.direction ∧ gA.winner = g.winner ∧
      gA.hands.length = g.hands.length ∧
      gA.discard = g.discard ++ played.toList ∧
      (∀ j : Nat, (j : Int) ≠ g.currentPlayer → gA.hands[j]? = g.hands[j]?) ∧
      (played = none → ∃ h, handAt gA.hands g.currentPlayer = some h ∧ h ≠ []) ∧
      gA.deck.length ≤ g.deck.length ∧
      (played = none → gA.deck.length < g.deck.length ∨
        (g.deck = [] ∧ ∀ c ∈ hand, ¬ Matches top c)) := by
  obtain ⟨h0, hlt, hget⟩ := handAt_eq_some hh
  have hset : ∀ (x : List Card) (j : Nat), (j : Int) ≠ g.currentPlayer →
      (g.hands.set g.currentPlayer.toNat x)[j]? = g.hands[j]? := by
    intro x j hj
    apply List.getElem?_set_ne
    omega
  cases hsel : selectCard top hand with
  | some r =>
    refine ⟨{ g with discard := g.discard ++ [r.2],
                     hands := g.hands.set g.currentPlayer.toNat (hand.eraseIdx r.1) },
      some r.2, ?_, ?_, rfl, rfl, rfl, rfl, by simp, rfl, hset _, by simp, le_refl _,
      by simp⟩
    · simp only [UNOGameImpl.playPhase, tryPlayFromHand_eq g g.currentPlayer top hand hh, hsel,
        UNOGameImpl.playCard, Option.some_bind]
    · simp only [UNOGame.playStep, hsel, toB]
  | none =>
    have hno := selectCard_eq_none.1 hsel
    rcases getLast?_cases g.deck with ⟨hnil, hlast⟩ | ⟨D, drawn, hdeck, hlast, hdrop⟩
    · refine ⟨g, none, ?_, ?_, rfl, rfl, rfl, rfl, rfl, by simp, fun j _ => rfl,
        fun _ => ⟨hand, hh, hne⟩, le_refl _, fun _ => Or.inr ⟨hnil, hno⟩⟩
      · simp only [UNOGameImpl.playPhase, tryPlayFromHand_eq g g.currentPlayer top hand hh, hsel,
          Option.some_bind, hlast]
      · simp only [UNOGame.playStep, hsel, toB, hlast]
    · by_cases hm : cardMatches top drawn = true
      · refine ⟨{ g with deck := D, discard := g.discard ++ [drawn] }, some drawn, ?_, ?_,
          rfl, rfl, rfl, rfl, rfl, rfl, fun j _ => rfl, by simp, by simp [hdeck], by simp⟩
        · simp only [UNOGameImpl.playPhase, tryPlayFromHand_eq g g.currentPlayer top hand hh,
            hsel, Option.some_bind, hlast, hh, hdrop,
            tryPlayFromHand_drawn g top hand D drawn hh hno, hm, if_true]
        · simp only [UNOGame.playStep, hsel, toB, hlast, hm, if_true, hdrop]
      · refine ⟨{ g with deck := D,
                         hands := g.hands.set g.currentPlayer.toNat (hand ++ [drawn]) }, none,
          ?_, ?_, rfl, rfl, rfl, rfl, by simp, by simp, hset _,
          fun _ => ⟨hand ++ [drawn], handAt_set_self _ hh, by simp⟩, by simp [hdeck],
          fun _ => Or.inl (by simp [hdeck])⟩
        · simp only [UNOGameImpl.playPhase, tryPlayFromHand_eq g g.currentPlayer top hand hh,
            hsel, Option.some_bind, hlast, hh, hdrop,
            tryPlayFromHand_drawn g top hand D drawn hh hno, hm]
          simp
        · simp only [UNOGame.playStep, hsel, toB, hlast, hm, hdrop]
          simp

/-- The effect of the played card in both engines: the same hands, piles and direction; the
current player of the second engine is left at `cB`, one turn step short of the player that
`UNO.cpp` reaches with `k` advances, except for a Reverse with two players. -/
theorem effect_both {g : UNOGameImpl} (hw : g.WF) (played : Option Card)
    (hothers : ∀ (j : Nat) h, (j : Int) ≠ g.currentPlayer → g.hands[j]? = some h → h ≠ []) :
    ∃ gE k cB, g.applyEffect played = some (gE, k) ∧
      (match played with
        | some c => executeAction (toB g) c
        | none => some (toB g)) = some { toB gE with currentPlayer := cB } ∧
      gE.WF ∧ gE.currentPlayer = g.currentPlayer ∧ gE.winner = g.winner ∧
      gE.numPlayers = g.numPlayers ∧ gE.discard = g.discard ∧
      0 ≤ cB ∧ cB < g.numPlayers ∧
      ((cB + gE.direction) % g.numPlayers =
          (g.currentPlayer + k * gE.direction) % g.numPlayers ∨
        (g.numPlayers = 2 ∧ ∃ c, played = some c ∧ c.value = "Reverse")) ∧
      (∀ (j : Nat) h, (j : Int) ≠ g.currentPlayer → gE.hands[j]? = some h → h ≠ []) ∧
      (played = none → gE = g) ∧ gE.deck.length ≤ g.deck.length := by
  have hn : 0 < g.numPlayers := lt_of_le_of_lt hw.cur_nonneg hw.cur_lt
  have hB := toB_WF hw
  have hdirB := toB_direction hw
  have hlenB : ((toB g).hands.length : Int) = g.numPlayers := hw.players.symm
  have hcpB : (toB g).currentPlayer = g.currentPlayer := rfl
  rcases UNOGameImpl.applyEffect_cases hw played with
    ⟨hA, hcard⟩ | ⟨hA, card, hp, hv⟩ | ⟨hA, card, hp, hv⟩ | ⟨hnx, hhn, hA, card, hp, hv⟩
  · refine ⟨g, 1, g.currentPlayer, hA, ?_, hw, rfl, rfl, rfl, rfl, hw.cur_nonneg, hw.cur_lt,
      Or.inl (by simp), hothers, fun _ => rfl, le_refl _⟩
    rcases hcard with hnone | ⟨card, hp, h1, h2, h3⟩
    · subst hnone
      rfl
    · subst hp
      exact executeAction_number (toB g) h1 h2 h3
  · subst hp
    refine ⟨g, 2, (g.currentPlayer + g.direction) % g.numPlayers, hA, ?_, hw, rfl, rfl, rfl, rfl,
      Int.emod_nonneg _ (ne_of_gt hn), Int.emod_lt_of_pos _ hn, Or.inl ?_, hothers, by simp,
      le_refl _⟩
    · show executeAction (toB g) card = _
      rw [executeAction_skip hB hv, hdirB, hlenB, hcpB]
    · rw [emod_step]
      congr 2
      push_cast
      ring
  · subst hp
    refine ⟨{ g with direction := g.direction * -1 }, if g.numPlayers = 2 then 2 else 1,
      g.currentPlayer, hA, ?_, ⟨hw.players, hw.cur_nonneg, hw.cur_lt, ?_⟩, rfl, rfl, rfl, rfl,
      hw.cur_nonneg, hw.cur_lt, ?_, hothers, by simp, le_refl _⟩
    · show executeAction (toB g) card = _
      rw [executeAction_reverse (toB g) hv]
      rcases hw.dir with h | h <;> simp [toB, h]
    · show g.direction * -1 = 1 ∨ g.direction * -1 = -1
      rcases hw.dir with h | h <;> simp [h]
    · by_cases h2 : g.numPlayers = 2
      · exact Or.inr ⟨h2, card, rfl, hv⟩
      · left
        simp [h2]
  · subst hp
    refine ⟨_, 2, (g.currentPlayer + g.direction) % g.numPlayers, hA, ?_,
      ⟨?_, hw.cur_nonneg, hw.cur_lt, hw.dir⟩, rfl, rfl, rfl, rfl,
      Int.emod_nonneg _ (ne_of_gt hn), Int.emod_lt_of_pos _ hn, Or.inl ?_, ?_, by simp,
      by simp⟩
    · show executeAction (toB g) card = _
      have hh2 : handAt (toB g).hands
          (((toB g).currentPlayer + (toB g).direction) % ((toB g).hands.length : Int)) =
          some hnx := by
        rw [hdirB, hlenB, hcpB]
        exact hhn
      rw [executeAction_drawTwo hB hv hh2, hdirB, hlenB, hcpB]
      rfl
    · show g.numPlayers = ((g.hands.set _ _).length : Int)
      rw [List.length_set]
      exact hw.players
    · show ((g.currentPlayer + g.direction) % g.numPlayers + g.direction) % g.numPlayers = _
      rw [emod_step]
      congr 2
      push_cast
      ring
    · intro j h hj hget
      obtain ⟨-, hlt, hnget⟩ := handAt_eq_some hhn
      simp only [List.getElem?_set] at hget
      by_cases hjn : ((g.currentPlayer + g.direction) % g.numPlayers).toNat = j
      · have hj2 : j < g.hands.length := by omega
        simp only [hjn, hj2, if_true, Option.some.injEq] at hget
        rw [hjn] at hnget
        have := hothers j hnx hj hnget
        subst hget
        simp [this]
      · simp only [hjn, if_false] at hget
        exact hothers j h hj hget

/-- The end of the turn in both engines: the scan for a winner of `UNO.cpp` and the check of
the hand of the player of the turn in the second engine record the same winner. -/
theorem finish_both {gE : UNOGameImpl} (hw : gE.WF) (hwin : gE.winner = -1) (k : Nat)
    (cB : Int) (h0 : 0 ≤ cB) (h1 : cB < gE.numPlayers)
    (hothers : ∀ (j : Nat) h, (j : Int) ≠ gE.currentPlayer → gE.hands[j]? = some h → h ≠ []) :
    ∃ w, (UNOGameImpl.scanWinner gE (List.range gE.numPlayers.toNat)).bind
          (UNOGameImpl.advanceLoop k) =
        some { gE with
          winner := w,
          currentPlayer := (gE.currentPlayer + k * gE.direction) % gE.numPlayers } ∧
      UNOGame.finishTurn { toB gE with currentPlayer := cB } gE.currentPlayer =
        some { toB gE with
          winnerIndex := w,
          currentPlayer := if w = -1 then (cB + gE.direction) % gE.numPlayers else cB } := by
  have hlen : gE.currentPlayer < (gE.hands.length : Int) := by
    rw [← hw.players]
    exact hw.cur_lt
  obtain ⟨h, hh⟩ := handAt_of_lt hw.cur_nonneg hlen
  obtain ⟨-, hlt, hget⟩ := handAt_eq_some hh
  have hcp := hw.cur_nonneg
  have hcast : ((gE.currentPlayer.toNat : Nat) : Int) = gE.currentPlayer := Int.toNat_of_nonneg hcp
  by_cases hem : h = []
  · subst hem
    have hscan := UNOGameImpl.scanWinner_unique gE (List.range gE.numPlayers.toNat)
      gE.currentPlayer.toNat (UNOGameImpl.range_players_lt hw)
      (by
        rw [List.mem_range]
        have := hw.cur_lt
        omega) hget
      (by
        intro j x hj hx
        exact hothers j x (by omega) hx)
    rw [hcast] at hscan
    refine ⟨gE.currentPlayer, ?_, ?_⟩
    · rw [hscan, Option.some_bind,
        UNOGameImpl.advanceLoop_eq k
          (show UNOGameImpl.WF { gE with winner := gE.currentPlayer } from
            ⟨hw.players, hw.cur_nonneg, hw.cur_lt, hw.dir⟩)]
    · have hne : gE.currentPlayer ≠ -1 := by omega
      rw [UNOGame.finishTurn_empty (show handAt
        (HiddenState.hands { toB gE with currentPlayer := cB }) gE.currentPlayer = some [] from hh)
        hne]
      simp [hne]
  · have hall : ∀ x ∈ gE.hands, x ≠ [] := by
      intro x hx
      obtain ⟨j, hj⟩ := List.mem_iff_getElem?.1 hx
      by_cases hjc : (j : Int) = gE.currentPlayer
      · have : j = gE.currentPlayer.toNat := by omega
        rw [this, hget] at hj
        rw [← Option.some.inj hj]
        exact hem
      · exact hothers j x hjc hj
    refine ⟨-1, ?_, ?_⟩
    · rw [UNOGameImpl.scanWinner_none_empty gE _ (UNOGameImpl.range_players_lt hw) hall,
        Option.some_bind, UNOGameImpl.advanceLoop_eq k hw]
      simp [hwin]
    · have hwB : HiddenState.WF { toB gE with currentPlayer := cB } :=
        ⟨h0, by
          show cB < (gE.hands.length : Int)
          rw [← hw.players]
          exact h1⟩
      rw [UNOGame.finishTurn_next hwB (show handAt
        (HiddenState.hands { toB gE with currentPlayer := cB }) gE.currentPlayer = some h from hh)
        hem (show gE.winner = -1 from hwin)]
      have hd : HiddenState.direction { toB gE with currentPlayer := cB } = gE.direction :=
        toB_direction hw
      rw [hd]
      simp [toB, hwin, hw.players]

/-- One turn of both engines from the same state: the same hands, piles, direction and
winner; `played` is the card played in the turn, if any. -/
theorem turn_both (g : UNOGameImpl) (hwf : g.WF) (hwin : g.winner = -1)
    (hdis : g.discard ≠ []) (hne : ∀ h ∈ g.hands, h ≠ []) :
    ∃ g2 s2 played, g.playTurn = some g2 ∧ UNOGame.playTurn (toB g) = some s2 ∧
      s2.hands = g2.hands ∧ s2.drawPile = g2.deck ∧ s2.discardPile = g2.discard ∧
      s2.direction = g2.direction ∧ s2.winnerIndex = g2.winner ∧
      (g2.winner = -1 →
        ¬ (g.numPlayers = 2 ∧ ∃ c, played = some c ∧ c.value = "Reverse") →
        s2.currentPlayer = g2.currentPlayer) ∧
      g2.discard = g.discard ++ played.toList ∧ g2.deck.length ≤ g.deck.length ∧
      (played = none → g2.deck.length < g.deck.length ∨
        (g.deck = [] ∧ ∃ hand top, handAt g.hands g.currentPlayer = some hand ∧
          g.discard.getLast? = some top ∧ ∀ c ∈ hand, ¬ Matches top c)) := by
  have hlen : g.currentPlayer < (g.hands.length : Int) := by
    rw [← hwf.players]
    exact hwf.cur_lt
  obtain ⟨hand, hh⟩ := handAt_of_lt hwf.cur_nonneg hlen
  obtain ⟨-, hlt, hget⟩ := handAt_eq_some hh
  have hhand : hand ≠ [] := hne hand (List.mem_iff_getElem?.2 ⟨_, hget⟩)
  rcases getLast?_cases g.discard with ⟨hnil, -⟩ | ⟨D, top, -, htop, -⟩
  · exact absurd hnil hdis
  obtain ⟨gA, played, hplayA, hplayB, hAn, hAc, hAd, hAw, hAlen, hAdis, hAoth, hAnone, hAdeck,
    hAidle⟩ := play_both g top hand hh hhand
  have hwA : gA.WF := by
    refine ⟨?_, ?_, ?_, ?_⟩
    · rw [hAn, hAlen]
      exact hwf.players
    · rw [hAc]
      exact hwf.cur_nonneg
    · rw [hAc, hAn]
      exact hwf.cur_lt
    · rw [hAd]
      exact hwf.dir
  have hothA : ∀ (j : Nat) h, (j : Int) ≠ gA.currentPlayer → gA.hands[j]? = some h → h ≠ [] := by
    intro j h hj hget2
    rw [hAc] at hj
    rw [hAoth j hj] at hget2
    exact hne h (List.mem_iff_getElem?.2 ⟨_, hget2⟩)
  obtain ⟨gE, k, cB, heffA, heffB, hwE, hEc, hEw, hEn, hEdis, hcB0, hcB1, hstep, hothE, hEnone,
    hEdeck⟩ := effect_both hwA played hothA
  obtain ⟨w, hfinA, hfinB⟩ := finish_both hwE (by rw [hEw, hAw, hwin]) k cB hcB0
    (by rw [hEn]; exact hcB1) (by rw [hEc]; exact hothE)
  have hA : g.playTurn = some { gE with
      winner := w,
      currentPlayer := (gE.currentPlayer + k * gE.direction) % gE.numPlayers } := by
    rw [UNOGameImpl.playTurn_eq hwin htop, hplayA, Option.some_bind, UNOGameImpl.resolve, heffA,
      Option.some_bind]
    exact hfinA
  have hB : UNOGame.playTurn (toB g) = some { toB gE with
      winnerIndex := w,
      currentPlayer := if w = -1 then (cB + gE.direction) % gE.numPlayers else cB } := by
    rw [UNOGame.playTurnB_eq (show (toB g).winnerIndex = -1 from hwin)
      (show handAt (toB g).hands (toB g).currentPlayer = some hand from hh)
      (show (toB g).discardPile.getLast? = some top from htop)]
    show (UNOGame.playStep (toB g) g.currentPlayer hand top).bind
      (fun st => UNOGame.finishTurn st g.currentPlayer) = _
    rw [hplayB, heffB, Option.some_bind, ← hAc, ← hEc]
    exact hfinB
  refine ⟨_, _, played, hA, hB, rfl, rfl, rfl, ?_, rfl, ?_, ?_, ?_, ?_⟩
  · exact @toB_direction { gE with
      winner := w,
      currentPlayer := (gE.currentPlayer + k * gE.direction) % gE.numPlayers }
      ⟨hwE.players, Int.emod_nonneg _ (by have := hwE.cur_nonneg; have := hwE.cur_lt; omega),
        Int.emod_lt_of_pos _ (by have := hwE.cur_nonneg; have := hwE.cur_lt; omega), hwE.dir⟩
  · intro hw1 hrev
    have hw1 : w = -1 := hw1
    show (if w = -1 then (cB + gE.direction) % gE.numPlayers else cB) =
      (gE.currentPlayer + k * gE.direction) % gE.numPlayers
    rw [if_pos hw1, hEn, hEc]
    rcases hstep with hs | ⟨h2, c, hc, hv⟩
    · exact hs
    · exact absurd ⟨by rw [← hAn]; exact h2, c, hc, hv⟩ hrev
  · show gE.discard = g.discard ++ played.toList
    rw [hEdis, hAdis]
  · show gE.deck.length ≤ g.deck.length
    exact le_trans hEdeck hAdeck
  · intro hp
    show gE.deck.length < g.deck.length ∨ _
    rcases hAidle hp with hlt2 | ⟨hd, hno⟩
    · exact Or.inl (lt_of_le_of_lt hEdeck hlt2)
    · exact Or.inr ⟨hd, hand, top, hh, htop, hno⟩

/-! ## Bounded progress of a game of turns -/

/-- Turn steps of one player at a time from player `c`, in direction `d`, reach every
player `p` in fewer than `n` steps. -/
theorem step_covers {n c p d : Int} (hc0 : 0 ≤ c) (hcn : c < n) (hp0 : 0 ≤ p) (hpn : p < n)
    (hd : d = 1 ∨ d = -1) : ∃ j : Nat, (j : Int) < n ∧ (c + j * d) % n = p := by
  rcases hd with hd | hd
  · by_cases hle : c ≤ p
    · refine ⟨(p - c).toNat, by omega, ?_⟩
      rw [hd, Int.toNat_of_nonneg (by omega)]
      have : c + (p - c) * 1 = p := by ring
      rw [this]
      exact Int.emod_eq_of_lt hp0 hpn
    · refine ⟨(p - c + n).toNat, by omega, ?_⟩
      rw [hd, Int.toNat_of_nonneg (by omega)]
      have : c + (p - c + n) * 1 = p + n := by ring
      rw [this, Int.add_emod_self]
      exact Int.emod_eq_of_lt hp0 hpn
  · by_cases hle : p ≤ c
    · refine ⟨(c - p).toNat, by omega, ?_⟩
      rw [hd, Int.toNat_of_nonneg (by omega)]
      have : c + (c - p) * -1 = p := by ring
      rw [this]
      exact Int.emod_eq_of_lt hp0 hpn
    · refine ⟨(c - p + n).toNat, by omega, ?_⟩
      rw [hd, Int.toNat_of_nonneg (by omega)]
      have : c + (c - p + n) * -1 = p + (-1) * n := by ring
      rw [this, Int.add_mul_emod_self]
      exact Int.emod_eq_of_lt hp0 hpn

/-- A run of turns from a good state: within `i` turns the game is over or the measure has
dropped, or the first `i` turns found the players of these turns blocked and changed nothing
but the player of the turn. -/
theorem idle_run {σ : Type} (step : σ → Option σ) (Good Over : σ → Prop)
    (Blocked : σ → Int → Prop) (meas : σ → Nat) (cur dirn : σ → Int) (n : Int)
    (hstep : ∀ s, Good s → ∃ s2, step s = some s2 ∧
      ((Over s2 ∨ (Good s2 ∧ meas s2 < meas s)) ∨
        (Blocked s (cur s) ∧ Good s2 ∧ meas s2 = meas s ∧ cur s2 = (cur s + dirn s) % n ∧
          dirn s2 = dirn s ∧ ∀ p, Blocked s2 p ↔ Blocked s p)))
    (s : σ) (hs : Good s) (hc0 : 0 ≤ cur s) (hcn : cur s < n) (i : Nat) :
    (∃ j s2, j ≤ i ∧ (fun o => Option.bind o step)^[j] (some s) = some s2 ∧
        (Over s2 ∨ (Good s2 ∧ meas s2 < meas s))) ∨
    (∃ s2, (fun o => Option.bind o step)^[i] (some s) = some s2 ∧ Good s2 ∧
        meas s2 = meas s ∧ cur s2 = (cur s + i * dirn s) % n ∧ dirn s2 = dirn s ∧
        (∀ p, Blocked s2 p ↔ Blocked s p) ∧
        ∀ j : Nat, j < i → Blocked s ((cur s + j * dirn s) % n)) := by
  induction i with
  | zero =>
    right
    refine ⟨s, rfl, hs, rfl, ?_, rfl, fun p => Iff.rfl, fun j hj => absurd hj (Nat.not_lt_zero j)⟩
    simp only [Nat.cast_zero, zero_mul, add_zero]
    exact (Int.emod_eq_of_lt hc0 hcn).symm
  | succ i ih =>
    rcases ih with ⟨j, s2, hj, hrun, hres⟩ | ⟨s2, hrun, hgood, hm, hcur, hdir, hbl, hall⟩
    · exact Or.inl ⟨j, s2, Nat.le_succ_of_le hj, hrun, hres⟩
    · obtain ⟨s3, hs3, hcase⟩ := hstep s2 hgood
      have hrun3 : (fun o => Option.bind o step)^[i + 1] (some s) = some s3 := by
        rw [Function.iterate_succ_apply', hrun]
        exact hs3
      rcases hcase with hprog | ⟨hb, hgood3, hm3, hcur3, hdir3, hbl3⟩
      · left
        refine ⟨i + 1, s3, le_refl _, hrun3, ?_⟩
        rcases hprog with hover | ⟨hg3, hlt⟩
        · exact Or.inl hover
        · exact Or.inr ⟨hg3, by omega⟩
      · right
        refine ⟨s3, hrun3, hgood3, by omega, ?_, by rw [hdir3, hdir],
          fun p => (hbl3 p).trans (hbl p), ?_⟩
        · rw [hcur3, hcur, hdir]
          have : ((cur s + (i : Int) * dirn s) % n + dirn s) % n =
              (cur s + ((i : Int) * dirn s + dirn s)) % n := by
            rw [Int.emod_add_emod, add_assoc]
          rw [this]
          congr 2
          push_cast
          ring
        · intro j hj
          by_cases hji : j = i
          · subst hji
            rw [← hcur]
            exact (hbl _).1 hb
          · exact hall j (by omega)

/-- Bounded progress: from a good state of measure `m`, within `(m + 1) * n` turns the game is
over or every player is blocked. -/
theorem bounded_progress {σ : Type} (step : σ → Option σ) (Good Over : σ → Prop)
    (Blocked : σ → Int → Prop) (meas : σ → Nat) (cur dirn : σ → Int) (n : Int)
    (hrange : ∀ s, Good s → 0 ≤ cur s ∧ cur s < n ∧ (dirn s = 1 ∨ dirn s = -1))
    (hstep : ∀ s, Good s → ∃ s2, step s = some s2 ∧
      ((Over s2 ∨ (Good s2 ∧ meas s2 < meas s)) ∨
        (Blocked s (cur s) ∧ Good s2 ∧ meas s2 = meas s ∧ cur s2 = (cur s + dirn s) % n ∧
          dirn s2 = dirn s ∧ ∀ p, Blocked s2 p ↔ Blocked s p))) :
    ∀ m s, Good s → meas s = m →
      ∃ k s2, k ≤ (m + 1) * n.toNat ∧ (fun o => Option.bind o step)^[k] (some s) = some s2 ∧
        (Over s2 ∨ (Good s2 ∧ ∀ p, 0 ≤ p → p < n → Blocked s2 p)) := by
  intro m
  induction m using Nat.strong_induction_on with
  | _ m ih =>
    intro s hs hm
    obtain ⟨hc0, hcn, hd⟩ := hrange s hs
    rcases idle_run step Good Over Blocked meas cur dirn n hstep s hs hc0 hcn n.toNat with
      ⟨j, s2, hj, hrun, hres⟩ | ⟨s2, -, -, -, -, -, -, hall⟩
    · rcases hres with hover | ⟨hg2, hlt⟩
      · refine ⟨j, s2, ?_, hrun, Or.inl hover⟩
        calc j ≤ 1 * n.toNat := by omega
          _ ≤ (m + 1) * n.toNat := Nat.mul_le_mul_right _ (by omega)
      · obtain ⟨k, s3, hk, hrun3, hres3⟩ := ih (meas s2) (by omega) s2 hg2 rfl
        refine ⟨k + j, s3, ?_, ?_, hres3⟩
        · have h1 : (meas s2 + 1) * n.toNat ≤ m * n.toNat :=
            Nat.mul_le_mul_right _ (by omega)
          have h2 : (m + 1) * n.toNat = m * n.toNat + n.toNat := by ring
          omega
        · rw [Function.iterate_add_apply, hrun, hrun3]
    · refine ⟨0, s, Nat.zero_le _, rfl, Or.inr ⟨hs, ?_⟩⟩
      intro p hp0 hpn
      obtain ⟨j, hjn, hjp⟩ := step_covers hc0 hcn hp0 hpn hd
      rw [← hjp]
      exact hall j (by omega)

/-! ## The shuffle `stuckShuffle` -/

theorem filterMap_range_getElem (d : List Card) :
    (List.range d.length).filterMap (fun i => d[i]?) = d := by
  induction d using List.reverseRecOn with
  | nil => rfl
  | append_singleton l a ih =>
    rw [List.length_append, List.length_singleton, List.range_succ, List.filterMap_append]
    have h1 : List.filterMap (fun i => (l ++ [a])[i]?) (List.range l.length) =
        List.filterMap (fun i => l[i]?) (List.range l.length) := by
      apply List.filterMap_congr
      intro i hi
      rw [List.mem_range] at hi
      exact List.getElem?_append_left hi
    rw [h1, ih]
    simp

theorem stuckShuffle_perm (d : List Card) : List.Perm (stuckShuffle d) d := by
  unfold stuckShuffle
  split
  · rename_i h
    have hp : List.Perm stuckOrder (List.range 100) := by decide
    have := hp.filterMap (fun i => d[i]?)
    rw [← h, filterMap_range_getElem] at this
    exact this
  · exact List.Perm.refl d

/-! ## Turns without progress -/

theorem direction_cases (s : HiddenState) : s.direction = 1 ∨ s.direction = -1 := by
  cases h : s.clockwise <;> simp [HiddenState.direction, h]

theorem toA_WF {s : HiddenState} (hw : s.WF) : (toA s).WF :=
  ⟨rfl, hw.cur_nonneg, hw.cur_lt, direction_cases s⟩

theorem toB_toA (s : HiddenState) : toB (toA s) = s := by
  cases h : s.clockwise <;> simp [toB, toA, HiddenState.direction, h] <;>
    (cases s; simp_all)

/-- A blocked player of `UNO.cpp`: the turn changes nothing but the player of the turn. -/
theorem UNOGameImpl.idle_turn {g : UNOGameImpl} (hw : g.WF) (hwin : g.winner = -1)
    (hne : ∀ h ∈ g.hands, h ≠ []) (hb : g.Blocked g.currentPlayer) :
    g.playTurn =
      some { g with currentPlayer := (g.currentPlayer + g.direction) % g.numPlayers } := by
  obtain ⟨hdeck, hand, top, hh, htop, hno⟩ := hb
  have hp : g.playPhase top = some (g, none) := by
    rcases playPhase_cases g top hand hh with ⟨pre, c, post, hsel, -⟩ | ⟨-, -, hp⟩ |
      ⟨-, D, d, hd, -, -⟩ | ⟨-, D, d, hd, -, -⟩
    · exact absurd hsel.matches (hno c (by rw [hsel.hand_eq]; simp))
    · exact hp
    · rw [hdeck] at hd
      simp at hd
    · rw [hdeck] at hd
      simp at hd
  rw [UNOGameImpl.playTurn_eq hwin htop, hp, Option.some_bind]
  have hscan := UNOGameImpl.scanWinner_none_empty g _ (UNOGameImpl.range_players_lt hw) hne
  simp only [UNOGameImpl.resolve, UNOGameImpl.applyEffect, Option.some_bind, hscan,
    UNOGameImpl.advanceLoop_eq 1 hw]
  simp

/-- A blocked player of `ayeshamobeen_513958_UNO.cpp`: the turn changes nothing but the
player of the turn. -/
theorem UNOGame.idleB_turn {s : HiddenState} (hw : s.WF) (hwin : s.winnerIndex = -1)
    (hne : ∀ h ∈ s.hands, h ≠ []) (hb : s.Blocked s.currentPlayer) :
    UNOGame.playTurn s =
      some { s with currentPlayer :=
        (s.currentPlayer + s.direction) % (s.hands.length : Int) } := by
  obtain ⟨hdeck, hand, top, hh, htop, hno⟩ := hb
  obtain ⟨-, -, hget⟩ := handAt_eq_some hh
  have hhand : hand ≠ [] := hne hand (List.mem_iff_getElem?.2 ⟨_, hget⟩)
  have hp : UNOGame.playStep s s.currentPlayer hand top = some s := by
    rcases playStep_cases s s.currentPlayer hand top with ⟨pre, c, post, hsel, -⟩ |
      ⟨-, -, hp⟩ | ⟨-, D, d, hd, -, -⟩ | ⟨-, D, d, hd, -, -⟩
    · exact absurd hsel.matches (hno c (by rw [hsel.hand_eq]; simp))
    · exact hp
    · rw [hdeck] at hd
      simp at hd
    · rw [hdeck] at hd
      simp at hd
  rw [UNOGame.playTurnB_eq hwin hh htop, hp, Option.some_bind,
    UNOGame.finishTurn_next hw hh hhand hwin]

/-! ## Every turn moves a card or finds the player blocked -/

/-- One turn of `UNO.cpp` from a state with no winner and no empty hand: either a card moves,
which lowers `movesLeft`, or the player of the turn is blocked and only the player of the turn
changes. -/
theorem UNOGameImpl.turn_progress {g : UNOGameImpl} (hw : g.WF) (h2 : 2 ≤ g.numPlayers)
    (hwin : g.winner = -1) (hd : g.discard ≠ []) (hne : ∀ h ∈ g.hands, h ≠ []) :
    ∃ g2, g.playTurn = some g2 ∧ g2.WF ∧ g2.numPlayers = g.numPlayers ∧ g2.discard ≠ [] ∧
      (g2.winner = -1 → ∀ h ∈ g2.hands, h ≠ []) ∧
      (g2.movesLeft < g.movesLeft ∨
        (g.Blocked g.currentPlayer ∧
          g2 = { g with
            currentPlayer := (g.currentPlayer + g.direction) % g.numPlayers })) := by
  obtain ⟨g2, hturn, hw2, hn2, htot, hd2, hwinner⟩ := UNOGameImpl.playTurn_step hw hwin hd
  obtain ⟨g3, s3, played, hA, -, -, -, -, -, -, -, hdisc, hdeck, hidle⟩ :=
    turn_both g hw hwin hd hne
  rw [hturn] at hA
  have hg := Option.some.inj hA
  subst hg
  refine ⟨g2, hturn, hw2, hn2, hd2, ?_, ?_⟩
  · intro hwin2
    rcases hwinner h2 hne with ⟨-, hall⟩ | ⟨hcp, -⟩
    · exact hall
    · have := hw.cur_nonneg
      omega
  · have hdl : g2.discard.length = g.discard.length + played.toList.length := by
      rw [hdisc, List.length_append]
    simp only [UNOGameImpl.total] at htot
    cases played with
    | some c =>
      left
      simp only [Option.toList, List.length_singleton] at hdl
      simp only [UNOGameImpl.movesLeft]
      omega
    | none =>
      simp only [Option.toList, List.length_nil] at hdl
      rcases hidle rfl with hlt | ⟨hdk, hand, top, hh, htop, hno⟩
      · left
        simp only [UNOGameImpl.movesLeft]
        omega
      · right
        have hb : g.Blocked g.currentPlayer := ⟨hdk, hand, top, hh, htop, hno⟩
        refine ⟨hb, ?_⟩
        have := UNOGameImpl.idle_turn hw hwin hne hb
        rw [hturn] at this
        exact Option.some.inj this

/-- One turn of `ayeshamobeen_513958_UNO.cpp` from a state with no winner and no empty hand:
either a card moves, which lowers `movesLeft`, or the player of the turn is blocked and only
the player of the turn changes. -/
theorem UNOGame.turnB_progress {s : HiddenState} (hw : s.WF) (hwin : s.winnerIndex = -1)
    (hd : s.discardPile ≠ []) (hne : ∀ h ∈ s.hands, h ≠ []) :
    ∃ s2, UNOGame.playTurn s = some s2 ∧ s2.WF ∧ s2.hands.length = s.hands.length ∧
      s2.discardPile ≠ [] ∧ (s2.winnerIndex = -1 → ∀ h ∈ s2.hands, h ≠ []) ∧
      (s2.movesLeft < s.movesLeft ∨
        (s.Blocked s.currentPlayer ∧
          s2 = { s with
            currentPlayer := (s.currentPlayer + s.direction) % (s.hands.length : Int) })) := by
  obtain ⟨s2, hturn, hw2, hn2, htot, hd2, hwinner⟩ := UNOGame.playTurnB_step hw hwin hd
  obtain ⟨g3, s3, played, -, hB, hh3, hdp3, hdc3, -, -, -, hdisc, hdeck, hidle⟩ :=
    turn_both (toA s) (toA_WF hw) hwin hd hne
  rw [toB_toA, hturn] at hB
  have hs := Option.some.inj hB
  subst hs
  refine ⟨s2, hturn, hw2, hn2, hd2, ?_, ?_⟩
  · intro hwin2
    rcases hwinner hne with ⟨-, hall⟩ | ⟨hcp, -⟩
    · exact hall
    · have := hw.cur_nonneg
      omega
  · have hdl : s2.discardPile.length = s.discardPile.length + played.toList.length := by
      rw [hdc3, hdisc, List.length_append]
      rfl
    have hdeck2 : s2.drawPile.length ≤ s.drawPile.length := by
      rw [hdp3]
      exact hdeck
    simp only [UNOGame.total] at htot
    cases played with
    | some c =>
      left
      simp only [Option.toList, List.length_singleton] at hdl
      simp only [HiddenState.movesLeft]
      omega
    | none =>
      simp only [Option.toList, List.length_nil] at hdl
      rcases hidle rfl with hlt | ⟨hdk, hand, top, hh, htop, hno⟩
      · left
        have hlt2 : s2.drawPile.length < s.drawPile.length := by
          rw [hdp3]
          exact hlt
        simp only [HiddenState.movesLeft]
        omega
      · right
        have hb : s.Blocked s.currentPlayer := ⟨hdk, hand, top, hh, htop, hno⟩
        refine ⟨hb, ?_⟩
        have := UNOGame.idleB_turn hw hwin hne hb
        rw [hturn] at this
        exact Option.some.inj this

/-! ## Stuck states -/

theorem UNOGameImpl.stuck_blocked {g : UNOGameImpl} (hs : g.Stuck) (p : Int) (hp0 : 0 ≤ p)
    (hpn : p < g.numPlayers) : g.Blocked p := by
  obtain ⟨hw, -, hdeck, hd, -, hall⟩ := hs
  rcases getLast?_cases g.discard with ⟨hnil, -⟩ | ⟨D, top, -, htop, -⟩
  · exact absurd hnil hd
  obtain ⟨hand, hh⟩ := handAt_of_lt hp0 (by rw [← hw.players]; exact hpn)
  obtain ⟨-, -, hget⟩ := handAt_eq_some hh
  exact ⟨hdeck, hand, top, hh, htop,
    hall top (Option.mem_def.2 htop) hand (List.mem_iff_getElem?.2 ⟨_, hget⟩)⟩

theorem UNOGameImpl.stuck_of_blocked {g : UNOGameImpl} (hw : g.WF) (hwin : g.winner = -1)
    (hd : g.discard ≠ []) (hne : ∀ h ∈ g.hands, h ≠ [])
    (hall : ∀ p, 0 ≤ p → p < g.numPlayers → g.Blocked p) : g.Stuck := by
  refine ⟨hw, hwin, (hall g.currentPlayer hw.cur_nonneg hw.cur_lt).1, hd, hne, ?_⟩
  intro top htop h hh c hc
  obtain ⟨j, hj⟩ := List.mem_iff_getElem?.1 hh
  have hjlt : j < g.hands.length := (List.getElem?_eq_some_iff.1 hj).1
  obtain ⟨-, hand, top2, hh2, htop2, hno⟩ :=
    hall (j : Int) (by omega) (by rw [hw.players]; omega)
  obtain ⟨-, -, hget⟩ := handAt_eq_some hh2
  rw [Int.toNat_ofNat, hj] at hget
  rw [Option.mem_def.1 htop] at htop2
  rw [← Option.some.inj hget, ← Option.some.inj htop2] at hno
  exact hno c hc

/-- A turn of `UNO.cpp` in a stuck state moves to the next player and leaves the state
stuck. -/
theorem UNOGameImpl.stuck_turn {g : UNOGameImpl} (hs : g.Stuck) :
    g.playTurn =
        some { g with currentPlayer := (g.currentPlayer + g.direction) % g.numPlayers } ∧
      UNOGameImpl.Stuck
        { g with currentPlayer := (g.currentPlayer + g.direction) % g.numPlayers } := by
  have hb := UNOGameImpl.stuck_blocked hs g.currentPlayer hs.1.cur_nonneg hs.1.cur_lt
  obtain ⟨hw, hwin, hdeck, hd, hne, hall⟩ := hs
  have hn : 0 < g.numPlayers := lt_of_le_of_lt hw.cur_nonneg hw.cur_lt
  exact ⟨UNOGameImpl.idle_turn hw hwin hne hb,
    ⟨hw.players, Int.emod_nonneg _ (ne_of_gt hn), Int.emod_lt_of_pos _ hn, hw.dir⟩,
    hwin, hdeck, hd, hne, hall⟩

theorem HiddenState.stuckB_blocked {s : HiddenState} (hs : s.Stuck) (p : Int) (hp0 : 0 ≤ p)
    (hpn : p < (s.hands.length : Int)) : s.Blocked p := by
  obtain ⟨hw, -, hdeck, hd, -, hall⟩ := hs
  rcases getLast?_cases s.discardPile with ⟨hnil, -⟩ | ⟨D, top, -, htop, -⟩
  · exact absurd hnil hd
  obtain ⟨hand, hh⟩ := handAt_of_lt hp0 hpn
  obtain ⟨-, -, hget⟩ := handAt_eq_some hh
  exact ⟨hdeck, hand, top, hh, htop,
    hall top (Option.mem_def.2 htop) hand (List.mem_iff_getElem?.2 ⟨_, hget⟩)⟩

theorem HiddenState.stuckB_of_blocked {s : HiddenState} (hw : s.WF)
    (hwin : s.winnerIndex = -1) (hd : s.discardPile ≠ []) (hne : ∀ h ∈ s.hands, h ≠ [])
    (hall : ∀ p, 0 ≤ p → p < (s.hands.length : Int) → s.Blocked p) : s.Stuck := by
  refine ⟨hw, hwin, (hall s.currentPlayer hw.cur_nonneg hw.cur_lt).1, hd, hne, ?_⟩
  intro top htop h hh c hc
  obtain ⟨j, hj⟩ := List.mem_iff_getElem?.1 hh
  have hjlt : j < s.hands.length := (List.getElem?_eq_some_iff.1 hj).1
  obtain ⟨-, hand, top2, hh2, htop2, hno⟩ := hall (j : Int) (by omega) (by omega)
  obtain ⟨-, -, hget⟩ := handAt_eq_some hh2
  rw [Int.toNat_ofNat, hj] at hget
  rw [Option.mem_def.1 htop] at htop2
  rw [← Option.some.inj hget, ← Option.some.inj htop2] at hno
  exact hno c hc

/-- A turn of `ayeshamobeen_513958_UNO.cpp` in a stuck state moves to the next player and
leaves the state stuck. -/
theorem UNOGame.stuckB_turn {s : HiddenState} (hs : s.Stuck) :
    UNOGame.playTurn s =
        some { s with currentPlayer :=
          (s.currentPlayer + s.direction) % (s.hands.length : Int) } ∧
      HiddenState.Stuck
        { s with currentPlayer :=
          (s.currentPlayer + s.direction) % (s.hands.length : Int) } := by
  have hb := HiddenState.stuckB_blocked hs s.currentPlayer hs.1.cur_nonneg hs.1.cur_lt
  obtain ⟨hw, hwin, hdeck, hd, hne, hall⟩ := hs
  have hn : (0 : Int) < (s.hands.length : Int) := lt_of_le_of_lt hw.cur_nonneg hw.cur_lt
  exact ⟨UNOGame.idleB_turn hw hwin hne hb,
    ⟨Int.emod_nonneg _ (ne_of_gt hn), Int.emod_lt_of_pos _ hn⟩, hwin, hdeck, hd, hne, hall⟩

/-! ## Runs of turns -/

theorem UNOGameImpl.run_iterate (shuffle : List Card → List Card) (n : Int) (k j : Nat) :
    UNOGameImpl.run shuffle n (k + j) =
      (fun o => Option.bind o UNOGameImpl.playTurn)^[j] (UNOGameImpl.run shuffle n k) := by
  induction j with
  | zero => rfl
  | succ j ih =>
    rw [Function.iterate_succ_apply', ← ih]
    rfl

theorem UNOGame.runB_iterate (shuffle : List Card → List Card) (n : Int) (k j : Nat) :
    UNOGame.run shuffle n (k + j) =
      (fun o => Option.bind o UNOGame.playTurn)^[j] (UNOGame.run shuffle n k) := by
  induction j with
  | zero => rfl
  | succ j ih =>
    rw [Function.iterate_succ_apply', ← ih]
    rfl

/-- A finished game of `UNO.cpp` stays as it is. -/
theorem UNOGameImpl.run_over (shuffle : List Card → List Card) (n : Int) (k : Nat)
    {g : UNOGameImpl} (hrun : UNOGameImpl.run shuffle n k = some g) (hover : g.winner ≠ -1)
    (j : Nat) : UNOGameImpl.run shuffle n (k + j) = some g := by
  induction j with
  | zero => exact hrun
  | succ j ih =>
    show (UNOGameImpl.run shuffle n (k + j)).bind UNOGameImpl.playTurn = some g
    rw [ih, Option.some_bind, UNOGameImpl.playTurn_over hover]

/-- A stuck game of `UNO.cpp` stays stuck. -/
theorem UNOGameImpl.run_stuck (shuffle : List Card → List Card) (n : Int) (k : Nat)
    {g : UNOGameImpl} (hrun : UNOGameImpl.run shuffle n k = some g) (hs : g.Stuck)
    (j : Nat) : ∃ g2, UNOGameImpl.run shuffle n (k + j) = some g2 ∧ g2.Stuck := by
  induction j with
  | zero => exact ⟨g, hrun, hs⟩
  | succ j ih =>
    obtain ⟨g2, hrun2, hs2⟩ := ih
    obtain ⟨hturn, hs3⟩ := UNOGameImpl.stuck_turn hs2
    refine ⟨_, ?_, hs3⟩
    show (UNOGameImpl.run shuffle n (k + j)).bind UNOGameImpl.playTurn = _
    rw [hrun2, Option.some_bind, hturn]

/-- A finished game of `ayeshamobeen_513958_UNO.cpp` stays as it is. -/
theorem UNOGame.runB_over (shuffle : List Card → List Card) (n : Int) (k : Nat)
    {s : HiddenState} (hrun : UNOGame.run shuffle n k = some s) (hover : s.winnerIndex ≠ -1)
    (j : Nat) : UNOGame.run shuffle n (k + j) = some s := by
  induction j with
  | zero => exact hrun
  | succ j ih =>
    show (UNOGame.run shuffle n (k + j)).bind UNOGame.playTurn = some s
    rw [ih, Option.some_bind, UNOGame.playTurnB_over hover]

/-- A stuck game of `ayeshamobeen_513958_UNO.cpp` stays stuck. -/
theorem UNOGame.runB_stuck (shuffle : List Card → List Card) (n : Int) (k : Nat)
    {s : HiddenState} (hrun : UNOGame.run shuffle n k = some s) (hs : s.Stuck)
    (j : Nat) : ∃ s2, UNOGame.run shuffle n (k + j) = some s2 ∧ s2.Stuck := by
  induction j with
  | zero => exact ⟨s, hrun, hs⟩
  | succ j ih =>
    obtain ⟨s2, hrun2, hs2⟩ := ih
    obtain ⟨hturn, hs3⟩ := UNOGame.stuckB_turn hs2
    refine ⟨_, ?_, hs3⟩
    show (UNOGame.run shuffle n (k + j)).bind UNOGame.playTurn = _
    rw [hrun2, Option.some_bind, hturn]

/-- A stuck game of `UNO.cpp` changes in nothing but the player to move: `j` further turns
move `currentPlayer` by `j` steps in the direction of play. -/
theorem UNOGameImpl.run_stuck_frame (shuffle : List Card → List Card) (n : Int) (k : Nat)
    {g : UNOGameImpl} (hrun : UNOGameImpl.run shuffle n k = some g) (hs : g.Stuck)
    (j : Nat) :
    UNOGameImpl.run shuffle n (k + j) =
        some { g with currentPlayer :=
          (g.currentPlayer + (j : Int) * g.direction) % g.numPlayers } ∧
      UNOGameImpl.Stuck
        { g with currentPlayer :=
          (g.currentPlayer + (j : Int) * g.direction) % g.numPlayers } := by
  induction j with
  | zero =>
    have h0 : (g.currentPlayer + ((0 : Nat) : Int) * g.direction) % g.numPlayers =
        g.currentPlayer := by
      rw [Int.ofNat_zero, Int.zero_mul, Int.add_zero]
      exact Int.emod_eq_of_lt hs.1.cur_nonneg hs.1.cur_lt
    rw [h0]
    exact ⟨hrun, hs⟩
  | succ j ih =>
    obtain ⟨hrun2, hs2⟩ := ih
    obtain ⟨hturn, hs3⟩ := UNOGameImpl.stuck_turn hs2
    have he : (g.currentPlayer + ((j + 1 : Nat) : Int) * g.direction) % g.numPlayers =
        ((g.currentPlayer + (j : Int) * g.direction) % g.numPlayers + g.direction) %
          g.numPlayers := by
      rw [emod_step]
      congr 1
      push_cast
      ring
    rw [he]
    refine ⟨?_, hs3⟩
    show (UNOGameImpl.run shuffle n (k + j)).bind UNOGameImpl.playTurn = _
    rw [hrun2, Option.some_bind]
    exact hturn

/-- A stuck game of `ayeshamobeen_513958_UNO.cpp` changes in nothing but the player to
move: `j` further turns move `currentPlayer` by `j` steps in the direction of play. -/
theorem UNOGame.runB_stuck_frame (shuffle : List Card → List Card) (n : Int) (k : Nat)
    {s : HiddenState} (hrun : UNOGame.run shuffle n k = some s) (hs : s.Stuck)
    (j : Nat) :
    UNOGame.run shuffle n (k + j) =
        some { s with currentPlayer :=
          (s.currentPlayer + (j : Int) * s.direction) % (s.hands.length : Int) } ∧
      HiddenState.Stuck
        { s with currentPlayer :=
          (s.currentPlayer + (j : Int) * s.direction) % (s.hands.length : Int) } := by
  induction j with
  | zero =>
    have h0 : (s.currentPlayer + ((0 : Nat) : Int) * s.direction) % (s.hands.length : Int) =
        s.currentPlayer := by
      rw [Int.ofNat_zero, Int.zero_mul, Int.add_zero]
      exact Int.emod_eq_of_lt hs.1.cur_nonneg hs.1.cur_lt
    rw [h0]
    exact ⟨hrun, hs⟩
  | succ j ih =>
    obtain ⟨hrun2, hs2⟩ := ih
    obtain ⟨hturn, hs3⟩ := UNOGame.stuckB_turn hs2
    have he : (s.currentPlayer + ((j + 1 : Nat) : Int) * s.direction) %
          (s.hands.length : Int) =
        ((s.currentPlayer + (j : Int) * s.direction) % (s.hands.length : Int) +
          s.direction) % (s.hands.length : Int) := by
      rw [emod_step]
      congr 1
      push_cast
      ring
    rw [he]
    refine ⟨?_, hs3⟩
    show (UNOGame.run shuffle n (k + j)).bind UNOGame.playTurn = _
    rw [hrun2, Option.some_bind]
    exact hturn

/-! ## Every game ends or gets stuck within a bound -/

/-- A game of `UNO.cpp` with 2 to 14 players is over or stuck after at most
`(199 - 7n) * n` turns. -/
theorem UNOGameImpl.bounded_run (shuffle : List Card → List Card)
    (hperm : ∀ d, List.Perm (shuffle d) d) (n : Int) (h2 : 2 ≤ n) (h14 : n ≤ 14) :
    ∃ k g, k ≤ (199 - 7 * n.toNat) * n.toNat ∧ UNOGameImpl.run shuffle n k = some g ∧
      (g.isGameOver = true ∨ g.Stuck) := by
  obtain ⟨g0, hg0, hw0, hn0, -, -, hwin0, h7, hdis0, hdeck0⟩ :=
    UNOGameImpl.initGame_spec shuffle hperm n (by omega) h14
  have hd0 : g0.discard ≠ [] := by
    intro h
    rw [h] at hdis0
    simp at hdis0
  have hne0 : ∀ h ∈ g0.hands, h ≠ [] := by
    intro h hh he
    have := h7 h hh
    rw [he] at this
    simp at this
  have hlen0 : (g0.hands.length : Int) = n := by rw [← hw0.players, hn0]
  have hm0 : g0.movesLeft + 1 = 199 - 7 * n.toNat := by
    simp only [UNOGameImpl.movesLeft, sum_length_of_all h7]
    omega
  obtain ⟨k, g, hk, hrun, hres⟩ := bounded_progress UNOGameImpl.playTurn
    (fun g => g.WF ∧ g.numPlayers = n ∧ g.winner = -1 ∧ g.discard ≠ [] ∧
      ∀ h ∈ g.hands, h ≠ [])
    (fun g => g.winner ≠ -1) UNOGameImpl.Blocked UNOGameImpl.movesLeft
    UNOGameImpl.currentPlayer UNOGameImpl.direction n
    (by
      rintro g ⟨hw, hn, -⟩
      exact ⟨hw.cur_nonneg, by rw [← hn]; exact hw.cur_lt, hw.dir⟩)
    (by
      rintro g ⟨hw, hn, hwin, hd, hne⟩
      obtain ⟨g2, hturn, hw2, hn2, hd2, hne2, hcase⟩ :=
        UNOGameImpl.turn_progress hw (by rw [hn]; exact h2) hwin hd hne
      refine ⟨g2, hturn, ?_⟩
      rcases hcase with hlt | ⟨hb, heq⟩
      · left
        by_cases hwin2 : g2.winner = -1
        · exact Or.inr ⟨⟨hw2, by rw [hn2, hn], hwin2, hd2, hne2 hwin2⟩, hlt⟩
        · exact Or.inl hwin2
      · right
        subst heq
        exact ⟨hb, ⟨hw2, hn, hwin, hd, hne⟩, rfl, by rw [hn], rfl, fun p => Iff.rfl⟩)
    g0.movesLeft g0 ⟨hw0, hn0, hwin0, hd0, hne0⟩ rfl
  refine ⟨k, g, by rw [← hm0]; exact hk, ?_, ?_⟩
  · have := UNOGameImpl.run_iterate shuffle n 0 k
    rw [Nat.zero_add] at this
    rw [this]
    show (fun o => Option.bind o UNOGameImpl.playTurn)^[k]
      ((UNOGameImpl.create n).bind (UNOGameImpl.initGame shuffle)) = some g
    rw [hg0]
    exact hrun
  · rcases hres with hover | ⟨⟨hw, hn, hwin, hd, hne⟩, hall⟩
    · left
      simpa [UNOGameImpl.isGameOver] using hover
    · right
      exact UNOGameImpl.stuck_of_blocked hw hwin hd hne
        (fun p hp0 hpn => hall p hp0 (by rw [← hn]; exact hpn))

/-- A game of `ayeshamobeen_513958_UNO.cpp` with 1 to 14 players is over or stuck after at
most `(199 - 7n) * n` turns. -/
theorem UNOGame.boundedB_run (shuffle : List Card → List Card)
    (hperm : ∀ d, List.Perm (shuffle d) d) (n : Int) (h1 : 1 ≤ n) (h14 : n ≤ 14) :
    ∃ k s, k ≤ (199 - 7 * n.toNat) * n.toNat ∧ UNOGame.run shuffle n k = some s ∧
      (UNOGame.isGameOver s = true ∨ s.Stuck) := by
  obtain ⟨s0, hs0, hw0, hn0, -, -, hwin0, h7, hdis0, hdeck0⟩ :=
    UNOGame.initGameB_spec shuffle hperm n h1 h14
  have hd0 : s0.discardPile ≠ [] := by
    intro h
    rw [h] at hdis0
    simp at hdis0
  have hne0 : ∀ h ∈ s0.hands, h ≠ [] := by
    intro h hh he
    have := h7 h hh
    rw [he] at this
    simp at this
  have hm0 : s0.movesLeft + 1 = 199 - 7 * n.toNat := by
    simp only [HiddenState.movesLeft, UNOGameImpl.sum_length_of_all h7]
    omega
  obtain ⟨k, s, hk, hrun, hres⟩ := bounded_progress UNOGame.playTurn
    (fun s => s.WF ∧ (s.hands.length : Int) = n ∧ s.winnerIndex = -1 ∧ s.discardPile ≠ [] ∧
      ∀ h ∈ s.hands, h ≠ [])
    (fun s => s.winnerIndex ≠ -1) HiddenState.Blocked HiddenState.movesLeft
    HiddenState.currentPlayer HiddenState.direction n
    (by
      rintro s ⟨hw, hn, -⟩
      exact ⟨hw.cur_nonneg, by rw [← hn]; exact hw.cur_lt, direction_cases s⟩)
    (by
      rintro s ⟨hw, hn, hwin, hd, hne⟩
      obtain ⟨s2, hturn, hw2, hn2, hd2, hne2, hcase⟩ :=
        UNOGame.turnB_progress hw hwin hd hne
      refine ⟨s2, hturn, ?_⟩
      rcases hcase with hlt | ⟨hb, heq⟩
      · left
        by_cases hwin2 : s2.winnerIndex = -1
        · exact Or.inr ⟨⟨hw2, by rw [hn2, hn], hwin2, hd2, hne2 hwin2⟩, hlt⟩
        · exact Or.inl hwin2
      · right
        subst heq
        exact ⟨hb, ⟨hw2, hn, hwin, hd, hne⟩, rfl, by rw [hn], rfl, fun p => Iff.rfl⟩)
    s0.movesLeft s0 ⟨hw0, hn0, hwin0, hd0, hne0⟩ rfl
  refine ⟨k, s, by rw [← hm0]; exact hk, ?_, ?_⟩
  · have := UNOGame.runB_iterate shuffle n 0 k
    rw [Nat.zero_add] at this
    rw [this]
    show (fun o => Option.bind o UNOGame.playTurn)^[k]
      ((UNOGame.create n).map (UNOGame.initGame shuffle)) = some s
    rw [hs0]
    exact hrun
  · rcases hres with hover | ⟨⟨hw, hn, hwin, hd, hne⟩, hall⟩
    · left
      simpa [UNOGame.isGameOver] using hover
    · right
      exact HiddenState.stuckB_of_blocked hw hwin hd hne
        (fun p hp0 hpn => hall p hp0 (by rw [← hn]; exact hpn))

/-! ## A game that never ends -/

set_option maxRecDepth 100000 in
/-- Ten players of `UNO.cpp`, the deck shuffled by `stuckShuffle`: the game is stuck after 45
turns. -/
theorem UNOGameImpl.stuck_game :
    (UNOGameImpl.run stuckShuffle 10 45).any (fun g => decide g.Stuck) = true := by
  decide

set_option maxRecDepth 100000 in
/-- Ten players of `ayeshamobeen_513958_UNO.cpp`, the deck shuffled by `stuckShuffle`: the
game is stuck after 47 turns. -/
theorem UNOGame.stuckB_game :
    (UNOGame.run stuckShuffle 10 47).any (fun s => decide s.Stuck) = true := by
  decide

/-- A game of `UNO.cpp` that is stuck after `k0` turns is never over. -/
theorem UNOGameImpl.never_over (shuffle : List Card → List Card)
    (hperm : ∀ d, List.Perm (shuffle d) d) (n : Int) (h1 : 1 ≤ n) (h14 : n ≤ 14) (k0 : Nat)
    {g0 : UNOGameImpl} (hrun : UNOGameImpl.run shuffle n k0 = some g0) (hs : g0.Stuck)
    (k : Nat) : ∃ g, UNOGameImpl.run shuffle n k = some g ∧ g.isGameOver = false := by
  by_cases hk : k0 ≤ k
  · obtain ⟨g, hg, hsg⟩ := UNOGameImpl.run_stuck shuffle n k0 hrun hs (k - k0)
    rw [Nat.add_sub_cancel' hk] at hg
    exact ⟨g, hg, by simp [UNOGameImpl.isGameOver, hsg.2.1]⟩
  · obtain ⟨g, hg, -⟩ := UNOGameImpl.run_invariant shuffle hperm n h1 h14 k
    refine ⟨g, hg, ?_⟩
    by_cases hw : g.winner = -1
    · simp [UNOGameImpl.isGameOver, hw]
    · have := UNOGameImpl.run_over shuffle n k hg hw (k0 - k)
      rw [Nat.add_sub_cancel' (by omega), hrun] at this
      rw [← Option.some.inj this] at hw
      exact absurd hs.2.1 hw

/-- A game of `ayeshamobeen_513958_UNO.cpp` that is stuck after `k0` turns is never over. -/
theorem UNOGame.neverB_over (shuffle : List Card → List Card)
    (hperm : ∀ d, List.Perm (shuffle d) d) (n : Int) (h1 : 1 ≤ n) (h14 : n ≤ 14) (k0 : Nat)
    {s0 : HiddenState} (hrun : UNOGame.run shuffle n k0 = some s0) (hs : s0.Stuck)
    (k : Nat) : ∃ s, UNOGame.run shuffle n k = some s ∧ UNOGame.isGameOver s = false := by
  by_cases hk : k0 ≤ k
  · obtain ⟨s, hg, hsg⟩ := UNOGame.runB_stuck shuffle n k0 hrun hs (k - k0)
    rw [Nat.add_sub_cancel' hk] at hg
    exact ⟨s, hg, by simp [UNOGame.isGameOver, hsg.2.1]⟩
  · obtain ⟨s, hg, -⟩ := UNOGame.runB_invariant shuffle hperm n h1 h14 k
    refine ⟨s, hg, ?_⟩
    by_cases hw : s.winnerIndex = -1
    · simp [UNOGame.isGameOver, hw]
    · have := UNOGame.runB_over shuffle n k hg hw (k0 - k)
      rw [Nat.add_sub_cancel' (by omega), hrun] at this
      rw [← Option.some.inj this] at hw
      exact absurd hs.2.1 hw

/-! ## The discard pile over a turn -/

theorem UNOGameImpl.drawLoop_discard (nxt : Int) (k : Nat) {g g2 : UNOGameImpl}
    (h : UNOGameImpl.drawLoop nxt k g = some g2) : g2.discard = g.discard := by
  induction k generalizing g with
  | zero =>
    simp only [UNOGameImpl.drawLoop, Option.some.injEq] at h
    rw [← h]
  | succ k ih =>
    simp only [UNOGameImpl.drawLoop] at h
    cases hl : g.deck.getLast? with
    | none =>
      simp only [hl, Option.some.injEq] at h
      rw [← h]
    | some c =>
      cases hh : handAt g.hands nxt with
      | none => simp [hl, hh] at h
      | some hd =>
        simp only [hl, hh] at h
        have h2 := ih h
        exact h2

theorem UNOGameImpl.scanWinner_discard {g g2 : UNOGameImpl} (ps : List Nat)
    (h : UNOGameImpl.scanWinner g ps = some g2) : g2.discard = g.discard := by
  induction ps with
  | nil =>
    simp only [UNOGameImpl.scanWinner, Option.some.injEq] at h
    rw [← h]
  | cons p ps ih =>
    simp only [UNOGameImpl.scanWinner] at h
    cases hp : g.hands[p]? with
    | none => simp [hp] at h
    | some hd =>
      simp only [hp] at h
      by_cases he : hd = []
      · simp only [he, if_true, Option.some.injEq] at h
        rw [← h]
      · simp only [he, if_false] at h
        have h2 := ih h
        exact h2

theorem UNOGameImpl.advanceLoop_discard (k : Nat) {g g2 : UNOGameImpl}
    (h : UNOGameImpl.advanceLoop k g = some g2) : g2.discard = g.discard := by
  induction k generalizing g with
  | zero =>
    simp only [UNOGameImpl.advanceLoop, Option.some.injEq] at h
    rw [← h]
  | succ k ih =>
    simp only [UNOGameImpl.advanceLoop, UNOGameImpl.advancePlayer] at h
    cases hn : g.nextPlayer with
    | none => simp [hn] at h
    | some c =>
      simp only [hn, Option.map_some', Option.some_bind] at h
      have h2 := ih h
      exact h2

theorem UNOGameImpl.applyEffect_discard {g : UNOGameImpl} {played : Option Card}
    {e : UNOGameImpl × Nat} (h : g.applyEffect played = some e) : e.1.discard = g.discard := by
  unfold UNOGameImpl.applyEffect at h
  cases played with
  | none =>
    simp only [Option.some.injEq] at h
    rw [← h]
  | some card =>
    simp only at h
    by_cases h1 : card.value = "Skip"
    · rw [if_pos h1, Option.some.injEq] at h
      rw [← h]
    · by_cases h2 : card.value = "Reverse"
      · rw [if_neg h1, if_pos h2, Option.some.injEq] at h
        rw [← h]
      · by_cases h3 : card.value = "Draw Two"
        · rw [if_neg h1, if_neg h2, if_pos h3] at h
          cases hn : g.nextPlayer with
          | none => simp [hn] at h
          | some nxt =>
            simp only [hn, Option.some_bind] at h
            cases hd : UNOGameImpl.drawLoop nxt 2 g with
            | none => simp [hd] at h
            | some g1 =>
              simp only [hd, Option.map_some', Option.some.injEq] at h
              rw [← h]
              exact UNOGameImpl.drawLoop_discard nxt 2 hd
        · rw [if_neg h1, if_neg h2, if_neg h3, Option.some.injEq] at h
          rw [← h]

theorem UNOGameImpl.resolve_discard {g g2 : UNOGameImpl} {played : Option Card}
    (h : g.resolve played = some g2) : g2.discard = g.discard := by
  unfold UNOGameImpl.resolve at h
  cases he : g.applyEffect played with
  | none => simp [he] at h
  | some e =>
    simp only [he, Option.some_bind] at h
    cases hs : UNOGameImpl.scanWinner e.1 (List.range e.1.numPlayers.toNat) with
    | none => simp [hs] at h
    | some g4 =>
      simp only [hs, Option.some_bind] at h
      rw [UNOGameImpl.advanceLoop_discard _ h, UNOGameImpl.scanWinner_discard _ hs,
        UNOGameImpl.applyEffect_discard he]

theorem drawLoopB_discard (next : Int) (k : Nat) {s s2 : HiddenState}
    (h : drawLoopB next k s = some s2) : s2.discardPile = s.discardPile := by
  induction k generalizing s with
  | zero =>
    simp only [drawLoopB, Option.some.injEq] at h
    rw [← h]
  | succ k ih =>
    simp only [drawLoopB] at h
    cases hl : s.drawPile.getLast? with
    | none =>
      simp only [hl, Option.some.injEq] at h
      rw [← h]
    | some c =>
      cases hh : handAt s.hands next with
      | none => simp [hl, hh] at h
      | some hd =>
        simp only [hl, hh] at h
        have h2 := ih h
        exact h2

theorem executeAction_discard {s s2 : HiddenState} {card : Card}
    (h : executeAction s card = some s2) : s2.discardPile = s.discardPile := by
  unfold executeAction at h
  by_cases h1 : card.value = "Skip"
  · rw [if_pos h1] at h
    cases hn : stepFrom s with
    | none => simp [hn] at h
    | some c =>
      simp only [hn, Option.map_some', Option.some.injEq] at h
      rw [← h]
  · by_cases h2 : card.value = "Reverse"
    · rw [if_neg h1, if_pos h2, Option.some.injEq] at h
      rw [← h]
    · by_cases h3 : card.value = "Draw Two"
      · rw [if_neg h1, if_neg h2, if_pos h3] at h
        cases hn : stepFrom s with
        | none => simp [hn] at h
        | some next =>
          simp only [hn, Option.some_bind] at h
          cases hd : drawLoopB next 2 s with
          | none => simp [hd] at h
          | some s1 =>
            simp only [hd, Option.map_some', Option.some.injEq] at h
            rw [← h]
            have h4 := drawLoopB_discard next 2 hd
            exact h4
      · rw [if_neg h1, if_neg h2, if_neg h3, Option.some.injEq] at h
        rw [← h]

theorem UNOGame.finishTurn_keeps_discard {s s2 : HiddenState} {pid : Int}
    (h : UNOGame.finishTurn s pid = some s2) : s2.discardPile = s.discardPile := by
  unfold UNOGame.finishTurn at h
  cases hh : handAt s.hands pid with
  | none => simp [hh] at h
  | some hand =>
    simp only [hh] at h
    by_cases he : hand = []
    · simp only [he, if_true] at h
      by_cases hw : pid = -1
      · simp only [hw, if_true] at h
        cases hn : stepFrom { s with winnerIndex := -1 } with
        | none => simp [hn] at h
        | some c =>
          simp only [hn, Option.map_some', Option.some.injEq] at h
          rw [← h]
      · simp only [hw, if_false, Option.some.injEq] at h
        rw [← h]
    · simp only [he, if_false] at h
      by_cases hw : s.winnerIndex = -1
      · simp only [hw, if_true] at h
        cases hn : stepFrom s with
        | none => simp [hn] at h
        | some c =>
          simp only [hn, Option.map_some', Option.some.injEq] at h
          rw [← h]
      · simp only [hw, if_false, Option.some.injEq] at h
        rw [← h]

/-- The play phase of `UNO.cpp` appends at most one card to the discard pile, and that card
matches the top card. -/
theorem UNOGameImpl.playPhase_played {g g2 : UNOGameImpl} {top : Card} {played : Option Card}
    (h : g.playPhase top = some (g2, played)) :
    (played = none ∧ g2.discard = g.discard) ∨
      ∃ c, played = some c ∧ g2.discard = g.discard ++ [c] ∧ Matches top c := by
  cases hh : handAt g.hands g.currentPlayer with
  | none => simp [UNOGameImpl.playPhase, UNOGameImpl.tryPlayFromHand, hh] at h
  | some hand =>
    rcases playPhase_cases g top hand hh with ⟨pre, c, post, hsel, hp⟩ | ⟨-, -, hp⟩ |
      ⟨-, D, d, -, hm, hp⟩ | ⟨-, D, d, -, -, hp⟩
    · rw [hp] at h
      simp only [Option.some.injEq, Prod.mk.injEq] at h
      exact Or.inr ⟨c, h.2.symm, by rw [← h.1], hsel.matches⟩
    · rw [hp] at h
      simp only [Option.some.injEq, Prod.mk.injEq] at h
      exact Or.inl ⟨h.2.symm, by rw [← h.1]⟩
    · rw [hp] at h
      simp only [Option.some.injEq, Prod.mk.injEq] at h
      exact Or.inr ⟨d, h.2.symm, by rw [← h.1], hm⟩
    · rw [hp] at h
      simp only [Option.some.injEq, Prod.mk.injEq] at h
      exact Or.inl ⟨h.2.symm, by rw [← h.1]⟩

/-- The play step of `ayeshamobeen_513958_UNO.cpp` appends at most one card to the discard
pile, and that card matches the top card. -/
theorem UNOGame.playStep_played {s s2 : HiddenState} {pid : Int} {hand : List Card}
    {top : Card} (h : UNOGame.playStep s pid hand top = some s2) :
    s2.discardPile = s.discardPile ∨
      ∃ c, s2.discardPile = s.discardPile ++ [c] ∧ Matches top c := by
  rcases playStep_cases s pid hand top with ⟨pre, c, post, hsel, hp⟩ | ⟨-, -, hp⟩ |
    ⟨-, D, d, -, hm, hp⟩ | ⟨-, D, d, -, -, hp⟩
  · rw [hp] at h
    exact Or.inr ⟨c, executeAction_discard h, hsel.matches⟩
  · rw [hp] at h
    simp only [Option.some.injEq] at h
    exact Or.inl (by rw [← h])
  · rw [hp] at h
    exact Or.inr ⟨d, executeAction_discard h, hm⟩
  · rw [hp] at h
    simp only [Option.some.injEq] at h
    exact Or.inl (by rw [← h])

/-- A turn of `UNO.cpp` appends at most one card to the discard pile, and that card matches
the top card of before. -/
theorem UNOGameImpl.playTurn_played {g g2 : UNOGameImpl} (h : g.playTurn = some g2) :
    g2.discard = g.discard ∨
      ∃ top card, g.discard.getLast? = some top ∧ g2.discard = g.discard ++ [card] ∧
        Matches top card := by
  by_cases hw : g.winner = -1
  · cases htop : g.discard.getLast? with
    | none => simp [UNOGameImpl.playTurn, UNOGameImpl.isGameOver, hw, htop] at h
    | some top =>
      rw [UNOGameImpl.playTurn_eq hw htop] at h
      cases hp : g.playPhase top with
      | none => simp [hp] at h
      | some r =>
        obtain ⟨g1, played⟩ := r
        simp only [hp, Option.some_bind] at h
        have hd := UNOGameImpl.resolve_discard h
        rcases UNOGameImpl.playPhase_played hp with ⟨-, h1⟩ | ⟨c, -, h1, hm⟩
        · exact Or.inl (by rw [hd, h1])
        · exact Or.inr ⟨top, c, rfl, by rw [hd, h1], hm⟩
  · rw [UNOGameImpl.playTurn_over hw] at h
    exact Or.inl (by rw [← Option.some.inj h])

/-- A turn of `ayeshamobeen_513958_UNO.cpp` appends at most one card to the discard pile, and
that card matches the top card of before. -/
theorem UNOGame.playTurnB_played {s s2 : HiddenState} (h : UNOGame.playTurn s = some s2) :
    s2.discardPile = s.discardPile ∨
      ∃ top card, s.discardPile.getLast? = some top ∧
        s2.discardPile = s.discardPile ++ [card] ∧ Matches top card := by
  by_cases hw : s.winnerIndex = -1
  · cases hh : handAt s.hands s.currentPlayer with
    | none => simp [UNOGame.playTurn, hw, hh] at h
    | some hand =>
      cases htop : s.discardPile.getLast? with
      | none => simp [UNOGame.playTurn, hw, hh, htop] at h
      | some top =>
        rw [UNOGame.playTurnB_eq hw hh htop] at h
        cases hp : UNOGame.playStep s s.currentPlayer hand top with
        | none => simp [hp] at h
        | some s1 =>
          simp only [hp, Option.some_bind] at h
          have hd := UNOGame.finishTurn_keeps_discard h
          rcases UNOGame.playStep_played hp with h1 | ⟨c, h1, hm⟩
          · exact Or.inl (by rw [hd, h1])
          · exact Or.inr ⟨top, c, rfl, by rw [hd, h1], hm⟩
  · rw [UNOGame.playTurnB_over hw] at h
    exact Or.inl (by rw [← Option.some.inj h])

/-! ## The empty draw pile -/

/-- In a state that a game of `UNO.cpp` reaches, without a winner and with a non-empty hand of
the current player, no hand is empty. -/
theorem UNOGameImpl.run_nonempty (shuffle : List Card → List Card)
    (hperm : ∀ d, List.Perm (shuffle d) d) (n : Int) (h1 : 1 ≤ n) (h14 : n ≤ 14) (k : Nat) :
    ∃ g, UNOGameImpl.run shuffle n k = some g ∧ g.WF ∧
      (g.winner = -1 → ∀ hand, handAt g.hands g.currentPlayer = some hand → hand ≠ [] →
        ∀ h ∈ g.hands, h ≠ []) := by
  obtain ⟨g, hg, hw, hN, -, -, hok⟩ := UNOGameImpl.run_invariant shuffle hperm n h1 h14 k
  refine ⟨g, hg, hw, ?_⟩
  intro hwin hand hh hhand
  by_cases h2 : 2 ≤ n
  · rcases hok h2 with ⟨-, h⟩ | ⟨h, -, -⟩
    · exact h
    · omega
  · intro h hmem
    obtain ⟨i, hi⟩ := List.mem_iff_getElem?.1 hmem
    have hilt : i < g.hands.length := (List.getElem?_eq_some_iff.1 hi).1
    obtain ⟨-, -, hget⟩ := handAt_eq_some hh
    have hp := hw.players
    have hc0 := hw.cur_nonneg
    have hc1 := hw.cur_lt
    have hi0 : i = 0 := by omega
    have hcur : g.currentPlayer.toNat = 0 := by omega
    rw [hcur] at hget
    rw [hi0, hget] at hi
    rw [← Option.some.inj hi]
    exact hhand

/-- The empty draw pile in `ayeshamobeen_513958_UNO.cpp`: without a matching card in the
non-empty hand of the current player the turn changes nothing but the player of the turn. -/
theorem UNOGame.emptyPileB_turn {s : HiddenState} {top : Card} {hand : List Card}
    (hw : s.WF) (hwin : s.winnerIndex = -1) (htop : s.discardPile.getLast? = some top)
    (hh : handAt s.hands s.currentPlayer = some hand) (hne : hand ≠ [])
    (hno : ∀ x ∈ hand, ¬ Matches top x) (hdeck : s.drawPile = []) :
    UNOGame.playTurn s =
      some { s with currentPlayer :=
        (s.currentPlayer + s.direction) % (s.hands.length : Int) } := by
  have hp : UNOGame.playStep s s.currentPlayer hand top = some s := by
    rcases playStep_cases s s.currentPlayer hand top with ⟨pre, c, post, hsel, -⟩ |
      ⟨-, -, hp⟩ | ⟨-, D, d, hd, -, -⟩ | ⟨-, D, d, hd, -, -⟩
    · exact absurd hsel.matches (hno c (by rw [hsel.hand_eq]; simp))
    · exact hp
    · rw [hdeck] at hd
      simp at hd
    · rw [hdeck] at hd
      simp at hd
  rw [UNOGame.playTurnB_eq hwin hh htop, hp, Option.some_bind,
    UNOGame.finishTurn_next hw hh hne hwin]

/-! ## Draw then retry in `UNO.cpp` -/

/-- C1 (card conservation). For 1 to 14 players and every shuffle that permutes the deck, the
state after the constructor, `initialize()` and any number `k` of `playTurn()` calls exists
and holds exactly 100 cards in draw pile, discard pile and hands together, in `UNO.cpp` and in
`ayeshamobeen_513958_UNO.cpp`. -/
theorem card_conservation (shuffle : List Card → List Card)
    (hperm : ∀ d, List.Perm (shuffle d) d) (n : Int) (h1 : 1 ≤ n) (h14 : n ≤ 14) (k : Nat) :
    (∃ g, UNOGameImpl.run shuffle n k = some g ∧
        g.deck.length + g.discard.length + (g.hands.map List.length).sum = 100) ∧
    (∃ s, UNOGame.run shuffle n k = some s ∧
        s.drawPile.length + s.discardPile.length + (s.hands.map List.length).sum = 100) := by
  obtain ⟨g, hg, -, -, -, htot, -⟩ := UNOGameImpl.run_invariant shuffle hperm n h1 h14 k
  obtain ⟨s, hs, -, -, -, htot2, -⟩ := UNOGame.runB_invariant shuffle hperm n h1 h14 k
  exact ⟨⟨g, hg, htot⟩, ⟨s, hs, htot2⟩⟩

/-- Witness of C1: three players, the identity shuffle, five turns. -/
theorem card_conservation_witness :
    (∀ d : List Card, List.Perm (id d) d) ∧ (1 : Int) ≤ 3 ∧ (3 : Int) ≤ 14 ∧
    (∃ g, UNOGameImpl.run id 3 5 = some g ∧
        g.deck.length + g.discard.length + (g.hands.map List.length).sum = 100) ∧
    (∃ s, UNOGame.run id 3 5 = some s ∧
        s.drawPile.length + s.discardPile.length + (s.hands.map List.length).sum = 100) :=
  ⟨fun d => List.Perm.refl d, by decide, by decide,
    card_conservation id (fun d => List.Perm.refl d) 3 (by decide) (by decide) 5⟩

/-- C2 (deal correctness). For 1 to 14 players and every shuffle that permutes the deck, right
after `initialize()` on a freshly constructed engine there are `n` hands of exactly 7 cards,
the discard pile holds exactly 1 card and the draw pile the remaining `100 - 7n - 1` cards, in
both engines. -/
theorem deal_correct (shuffle : List Card → List Card)
    (hperm : ∀ d, List.Perm (shuffle d) d) (n : Int) (h1 : 1 ≤ n) (h14 : n ≤ 14) :
    (∃ g, (UNOGameImpl.create n).bind (UNOGameImpl.initGame shuffle) = some g ∧
        (g.hands.length : Int) = n ∧ (∀ h ∈ g.hands, h.length = 7) ∧
        g.discard.length = 1 ∧ (g.deck.length : Int) = 100 - 7 * n - 1) ∧
    (∃ s, (UNOGame.create n).map (UNOGame.initGame shuffle) = some s ∧
        (s.hands.length : Int) = n ∧ (∀ h ∈ s.hands, h.length = 7) ∧
        s.discardPile.length = 1 ∧ (s.drawPile.length : Int) = 100 - 7 * n - 1) := by
  obtain ⟨g, hg, hw, hN, -, -, -, h7, hdis, hdeck⟩ :=
    UNOGameImpl.initGame_spec shuffle hperm n h1 h14
  obtain ⟨s, hs, -, hN2, -, -, -, h72, hdis2, hdeck2⟩ :=
    UNOGame.initGameB_spec shuffle hperm n h1 h14
  exact ⟨⟨g, hg, by rw [← hw.players, hN], h7, hdis, hdeck⟩, ⟨s, hs, hN2, h72, hdis2, hdeck2⟩⟩

/-- Witness of C2: four players, the deck shuffled by reversal. -/
theorem deal_correct_witness :
    (∀ d : List Card, List.Perm (List.reverse d) d) ∧ (1 : Int) ≤ 4 ∧ (4 : Int) ≤ 14 ∧
    (∃ g, (UNOGameImpl.create 4).bind (UNOGameImpl.initGame List.reverse) = some g ∧
        (g.hands.length : Int) = 4 ∧ (∀ h ∈ g.hands, h.length = 7) ∧
        g.discard.length = 1 ∧ (g.deck.length : Int) = 100 - 7 * 4 - 1) ∧
    (∃ s, (UNOGame.create 4).map (UNOGame.initGame List.reverse) = some s ∧
        (s.hands.length : Int) = 4 ∧ (∀ h ∈ s.hands, h.length = 7) ∧
        s.discardPile.length = 1 ∧ (s.drawPile.length : Int) = 100 - 7 * 4 - 1) :=
  ⟨fun d => List.reverse_perm d, by decide, by decide,
    deal_correct List.reverse (fun d => List.reverse_perm d) 4 (by decide) (by decide)⟩

/-- C3 (play-selection policy). For every hand and top card, `tryPlayFromHand` of `UNO.cpp`
and the selection loops of `playTurn` of `ayeshamobeen_513958_UNO.cpp` select the card named by
the rule of the specification (front-most card of the top colour, else front-most card of the
top label, else front-most matching action card tried in the order Skip, Reverse, Draw Two),
or no card when no rule applies. The hand is `pre ++ c :: post` for the selected card `c`; the
new hand is `pre ++ post` and `c` is appended to the discard pile. -/
theorem selection_policy :
    (∀ (g : UNOGameImpl) (player : Int) (top : Card) (hand : List Card),
      handAt g.hands player = some hand →
      (∃ pre c post, Selected top hand pre c post ∧ hand = pre ++ c :: post ∧
          g.tryPlayFromHand player top =
            some ({ g with discard := g.discard ++ [c],
                           hands := g.hands.set player.toNat (pre ++ post) }, some c)) ∨
        (NoneSelected top hand ∧ g.tryPlayFromHand player top = some (g, none))) ∧
    (∀ (state : HiddenState) (pid : Int) (top : Card) (hand : List Card),
      (∃ pre c post, Selected top hand pre c post ∧ hand = pre ++ c :: post ∧
          selectCard top hand = some (pre.length, c) ∧
          UNOGame.playStep state pid hand top =
            executeAction
              { state with discardPile := state.discardPile ++ [c],
                           hands := state.hands.set pid.toNat (pre ++ post) } c) ∨
        (NoneSelected top hand ∧ selectCard top hand = none)) := by
  constructor
  · intro g player top hand hA
    rcases tryPlayFromHand_cases g player top hand hA with ⟨pre, c, post, hsel, h⟩ | ⟨hno, h⟩
    · exact Or.inl ⟨pre, c, post, hsel, hsel.hand_eq, h⟩
    · exact Or.inr ⟨noneSelected_iff.2 hno, h⟩
  · intro state pid top hand
    cases hs : selectCard top hand with
    | none => exact Or.inr ⟨noneSelected_iff.2 (selectCard_eq_none.1 hs), rfl⟩
    | some r =>
      obtain ⟨pre, post, hlen, hsel⟩ := selectCard_eq_some hs
      refine Or.inl ⟨pre, r.2, post, hsel, hsel.hand_eq, by rw [hlen], ?_⟩
      simp only [UNOGame.playStep, hs]
      rw [hsel.hand_eq, ← hlen, eraseIdx_append_cons]

/-- Witness of C3: against the top card Red 7, the hand Blue 3, Green 7, Red Skip. The Red
Skip is played although the Green 7 lies in front of it: colour is tried before label. -/
theorem selection_policy_witness :
    handAt selectionGame.hands 0 = some selectionHand ∧
    ((∃ pre c post, Selected ⟨"Red", "7"⟩ selectionHand pre c post ∧
          selectionHand = pre ++ c :: post ∧
          selectionGame.tryPlayFromHand 0 ⟨"Red", "7"⟩ =
            some ({ selectionGame with
                      discard := selectionGame.discard ++ [c],
                      hands := selectionGame.hands.set (0 : Int).toNat (pre ++ post) },
                  some c)) ∨
        (NoneSelected ⟨"Red", "7"⟩ selectionHand ∧
          selectionGame.tryPlayFromHand 0 ⟨"Red", "7"⟩ = some (selectionGame, none))) ∧
    selectionGame.tryPlayFromHand 0 ⟨"Red", "7"⟩ =
      some ({ selectionGame with
                discard := [⟨"Red", "7"⟩, ⟨"Red", "Skip"⟩],
                hands := [[⟨"Blue", "3"⟩, ⟨"Green", "7"⟩]] },
            some ⟨"Red", "Skip"⟩) ∧
    selectCard ⟨"Red", "7"⟩ selectionHand = some (2, ⟨"Red", "Skip"⟩) :=
  ⟨by decide, selection_policy.1 selectionGame 0 ⟨"Red", "7"⟩ selectionHand (by decide),
    by decide, by decide⟩

/-- C4 (winner invariant). For 2 to 14 players, every state reached from `initialize()` by
`playTurn()` calls exists and satisfies: `isGameOver()` holds iff `getWinner()` is an index in
`[0, n)` iff some hand is empty; and whenever a `playTurn()` call from such a state sets the
winner, the winner is the player who acted and that hand is empty. Both engines. -/
theorem winner_invariant (shuffle : List Card → List Card)
    (hperm : ∀ d, List.Perm (shuffle d) d) (n : Int) (h2 : 2 ≤ n) (h14 : n ≤ 14) (k : Nat) :
    (∃ g, UNOGameImpl.run shuffle n k = some g ∧
        (g.isGameOver = true ↔ 0 ≤ g.getWinner ∧ g.getWinner < n) ∧
        (g.isGameOver = true ↔ ∃ h ∈ g.hands, h = []) ∧
        (g.isGameOver = false → ∃ g2, g.playTurn = some g2 ∧
          (g2.isGameOver = true →
            g2.getWinner = g.currentPlayer ∧ handAt g2.hands g.currentPlayer = some []))) ∧
    (∃ s, UNOGame.run shuffle n k = some s ∧
        (UNOGame.isGameOver s = true ↔ 0 ≤ UNOGame.getWinner s ∧ UNOGame.getWinner s < n) ∧
        (UNOGame.isGameOver s = true ↔ ∃ h ∈ s.hands, h = []) ∧
        (UNOGame.isGameOver s = false → ∃ s2, UNOGame.playTurn s = some s2 ∧
          (UNOGame.isGameOver s2 = true →
            UNOGame.getWinner s2 = s.currentPlayer ∧
              handAt s2.hands s.currentPlayer = some []))) := by
  constructor
  · obtain ⟨g, hg, hw, hN, hdis, -, hok⟩ :=
      UNOGameImpl.run_invariant shuffle hperm n (by omega) h14 k
    refine ⟨g, hg, ?_⟩
    rcases hok h2 with ⟨hwin, hne⟩ | ⟨h0, hlt, hh⟩
    · refine ⟨?_, ?_, ?_⟩
      · simp [UNOGameImpl.isGameOver, UNOGameImpl.getWinner, hwin]
      · simp only [UNOGameImpl.isGameOver, hwin, ne_eq, not_true_eq_false, decide_False,
          Bool.false_eq_true, false_iff, not_exists, not_and]
        exact fun h hmem => hne h hmem
      · intro _
        obtain ⟨g2, hturn, -, -, -, -, hwinner⟩ := UNOGameImpl.playTurn_step hw hwin hdis
        refine ⟨g2, hturn, ?_⟩
        intro hover
        rcases hwinner (by rw [hN]; exact h2) hne with ⟨hno, -⟩ | h
        · simp [UNOGameImpl.isGameOver, hno] at hover
        · exact h
    · have hwin : g.winner ≠ -1 := by omega
      refine ⟨?_, ?_, ?_⟩
      · simp only [UNOGameImpl.isGameOver, UNOGameImpl.getWinner, hwin, ne_eq,
          not_false_eq_true, decide_True, true_iff]
        exact ⟨h0, by rw [← hN]; exact hlt⟩
      · simp only [UNOGameImpl.isGameOver, hwin, ne_eq, not_false_eq_true, decide_True, true_iff]
        exact ⟨[], List.getElem?_mem (handAt_eq_some hh).2.2, rfl⟩
      · intro hno
        simp [UNOGameImpl.isGameOver, hwin] at hno
  · obtain ⟨s, hs, hw, hN, hdis, -, hok⟩ :=
      UNOGame.runB_invariant shuffle hperm n (by omega) h14 k
    refine ⟨s, hs, ?_⟩
    rcases hok with ⟨hwin, hne⟩ | ⟨h0, hlt, hh⟩
    · refine ⟨?_, ?_, ?_⟩
      · simp [UNOGame.isGameOver, UNOGame.getWinner, hwin]
      · simp only [UNOGame.isGameOver, hwin, ne_eq, not_true_eq_false, decide_False,
          Bool.false_eq_true, false_iff, not_exists, not_and]
        exact fun h hmem => hne h hmem
      · intro _
        obtain ⟨s2, hturn, -, -, -, -, hwinner⟩ := UNOGame.playTurnB_step hw hwin hdis
        refine ⟨s2, hturn, ?_⟩
        intro hover
        rcases hwinner hne with ⟨hno, -⟩ | h
        · simp [UNOGame.isGameOver, hno] at hover
        · exact h
    · have hwin : s.winnerIndex ≠ -1 := by omega
      refine ⟨?_, ?_, ?_⟩
      · simp only [UNOGame.isGameOver, UNOGame.getWinner, hwin, ne_eq,
          not_false_eq_true, decide_True, true_iff]
        exact ⟨h0, by rw [← hN]; exact hlt⟩
      · simp only [UNOGame.isGameOver, hwin, ne_eq, not_false_eq_true, decide_True, true_iff]
        exact ⟨[], List.getElem?_mem (handAt_eq_some hh).2.2, rfl⟩
      · intro hno
        simp [UNOGame.isGameOver, hwin] at hno

/-- Witness of C4: two players, the identity shuffle, forty turns. -/
theorem winner_invariant_witness :
    (∀ d : List Card, List.Perm (id d) d) ∧ (2 : Int) ≤ 2 ∧ (2 : Int) ≤ 14 ∧
    ((∃ g, UNOGameImpl.run id 2 40 = some g ∧
        (g.isGameOver = true ↔ 0 ≤ g.getWinner ∧ g.getWinner < 2) ∧
        (g.isGameOver = true ↔ ∃ h ∈ g.hands, h = []) ∧
        (g.isGameOver = false → ∃ g2, g.playTurn = some g2 ∧
          (g2.isGameOver = true →
            g2.getWinner = g.currentPlayer ∧ handAt g2.hands g.currentPlayer = some []))) ∧
    (∃ s, UNOGame.run id 2 40 = some s ∧
        (UNOGame.isGameOver s = true ↔ 0 ≤ UNOGame.getWinner s ∧ UNOGame.getWinner s < 2) ∧
        (UNOGame.isGameOver s = true ↔ ∃ h ∈ s.hands, h = []) ∧
        (UNOGame.isGameOver s = false → ∃ s2, UNOGame.playTurn s = some s2 ∧
          (UNOGame.isGameOver s2 = true →
            UNOGame.getWinner s2 = s.currentPlayer ∧
              handAt s2.hands s.currentPlayer = some [])))) :=
  ⟨fun d => List.Perm.refl d, by decide, by decide,
    winner_invariant id (fun d => List.Perm.refl d) 2 (by decide) (by decide) 40⟩

/-- C5 (idempotent terminal state). In every state in which the winner is set, `playTurn()`
returns the state unchanged: hands, draw pile, discard pile, current player, direction and
winner are all as before. Both engines. -/
theorem terminal_noop :
    (∀ g : UNOGameImpl, g.isGameOver = true → g.playTurn = some g) ∧
    (∀ s : HiddenState, UNOGame.isGameOver s = true → UNOGame.playTurn s = some s) := by
  constructor
  · intro g h
    simp [UNOGameImpl.playTurn, h]
  · intro s h
    simp only [UNOGame.isGameOver, decide_eq_true_eq] at h
    exact UNOGame.playTurnB_over h

/-- Witness of C5: finished two-player games won by player 1. -/
theorem terminal_noop_witness :
    (finishedGame.isGameOver = true ∧ finishedGame.playTurn = some finishedGame) ∧
    (UNOGame.isGameOver finishedState = true ∧
      UNOGame.playTurn finishedState = some finishedState) :=
  ⟨⟨by decide, terminal_noop.1 finishedGame (by decide)⟩,
    ⟨by decide, terminal_noop.2 finishedState (by decide)⟩⟩

/-- C6 (Skip). In a well-formed state (`N >= 1` players, current player `c` in `[0, N)`,
direction `d` in `{+1, -1}`), a `playTurn()` that plays a Skip card (the card appended to the
discard pile) and leaves the hand of the acting player non-empty keeps the direction and sets
the current player to `(c + 2d) mod N`. Both engines. -/
theorem skip_effect :
    (∀ (g g2 : UNOGameImpl) (card : Card), g.WF → g.playTurn = some g2 →
      g2.discard = g.discard ++ [card] → card.value = "Skip" →
      handAt g2.hands g.currentPlayer ≠ some [] →
      g2.direction = g.direction ∧
        g2.currentPlayer = (g.currentPlayer + 2 * g.direction) % g.numPlayers) ∧
    (∀ (s s2 : HiddenState) (card : Card), s.WF → UNOGame.playTurn s = some s2 →
      s2.discardPile = s.discardPile ++ [card] → card.value = "Skip" →
      handAt s2.hands s.currentPlayer ≠ some [] →
      s2.direction = s.direction ∧
        s2.currentPlayer = (s.currentPlayer + 2 * s.direction) % (s.hands.length : Int)) := by
  constructor
  · intro g g2 card hw hturn hplayed hskip _
    obtain ⟨-, g1, hw1, hN1, hc1, hd1, -, hres, -, -⟩ :=
      UNOGameImpl.played_turn hw hturn hplayed
    have he : g1.applyEffect (some card) = some (g1, 2) := by
      simp [UNOGameImpl.applyEffect, hskip]
    obtain ⟨w, hres2⟩ := UNOGameImpl.resolve_eq he hw1
    rw [hres2] at hres
    have := Option.some.inj hres
    subst this
    simp [hd1, hc1, hN1]
  · intro s s2 card hw hturn hplayed hskip hne
    obtain ⟨-, st1, hw1, hlen1, hc1, hcw1, hwin1, hrun, -, -⟩ :=
      UNOGame.playedB_turn hw hturn hplayed
    rw [executeAction_skip hw1 hskip, Option.some_bind] at hrun
    have hr := stepFrom_range hw1
    have := UNOGame.finish_not_emptied
      (show HiddenState.WF { st1 with currentPlayer :=
        (st1.currentPlayer + st1.direction) % (st1.hands.length : Int) } from ⟨hr.1, hr.2⟩)
      hw.cur_nonneg
      (show s.currentPlayer < (st1.hands.length : Int) by rw [hlen1]; exact hw.cur_lt)
      hwin1 hrun hne
    subst this
    have hdir : st1.direction = s.direction := by simp [HiddenState.direction, hcw1]
    refine ⟨by simp [HiddenState.direction, hcw1], ?_⟩
    show ((st1.currentPlayer + st1.direction) % (st1.hands.length : Int) + st1.direction) %
      (st1.hands.length : Int) = _
    rw [emod_step, hdir, hc1, hlen1, two_mul]

/-- Witness of C6: three players, player 0 plays Red Skip on Red 5 in direction `+1`; the
turn passes to player 2. -/
theorem skip_effect_witness :
    (skipAfter.direction = skipBefore.direction ∧
      skipAfter.currentPlayer = (0 + 2 * 1) % 3 ∧ skipAfter.currentPlayer = 2) ∧
    (skipAfterB.direction = skipBeforeB.direction ∧
      skipAfterB.currentPlayer = (0 + 2 * 1) % 3 ∧ skipAfterB.currentPlayer = 2) :=
  ⟨⟨(skip_effect.1 skipBefore skipAfter ⟨"Red", "Skip"⟩
        ⟨by decide, by decide, by decide, by decide⟩ (by decide) (by decide) (by decide)
        (by decide)).1,
      (skip_effect.1 skipBefore skipAfter ⟨"Red", "Skip"⟩
        ⟨by decide, by decide, by decide, by decide⟩ (by decide) (by decide) (by decide)
        (by decide)).2, by decide⟩,
    ⟨(skip_effect.2 skipBeforeB skipAfterB ⟨"Red", "Skip"⟩
        ⟨by decide, by decide⟩ (by decide) (by decide) (by decide) (by decide)).1,
      (skip_effect.2 skipBeforeB skipAfterB ⟨"Red", "Skip"⟩
        ⟨by decide, by decide⟩ (by decide) (by decide) (by decide) (by decide)).2,
      by decide⟩⟩

/-- C8 (Reverse). In a well-formed state with `N >= 2` players, a `playTurn()` that plays a
Reverse card and leaves the hand of the acting player non-empty flips the direction to `-d`.
In `UNO.cpp` the current player becomes `(c - d) mod N` when `N` is not 2 and stays `c` when
`N = 2` (Reverse acts as Skip). In `ayeshamobeen_513958_UNO.cpp` the current player becomes
`(c - d) mod N` for every `N >= 2`; with 2 players this is the other player. -/
theorem reverse_effect :
    (∀ (g g2 : UNOGameImpl) (card : Card), g.WF → 2 ≤ g.numPlayers → g.playTurn = some g2 →
      g2.discard = g.discard ++ [card] → card.value = "Reverse" →
      handAt g2.hands g.currentPlayer ≠ some [] →
      g2.direction = -g.direction ∧
        (g.numPlayers ≠ 2 →
          g2.currentPlayer = (g.currentPlayer - g.direction) % g.numPlayers) ∧
        (g.numPlayers = 2 → g2.currentPlayer = g.currentPlayer)) ∧
    (∀ (s s2 : HiddenState) (card : Card), s.WF → 2 ≤ (s.hands.length : Int) →
      UNOGame.playTurn s = some s2 →
      s2.discardPile = s.discardPile ++ [card] → card.value = "Reverse" →
      handAt s2.hands s.currentPlayer ≠ some [] →
      s2.direction = -s.direction ∧
        s2.currentPlayer = (s.currentPlayer - s.direction) % (s.hands.length : Int) ∧
        ((s.hands.length : Int) = 2 → s2.currentPlayer ≠ s.currentPlayer)) := by
  constructor
  · intro g g2 card hw _ hturn hplayed hrev _
    obtain ⟨-, g1, hw1, hN1, hc1, hd1, -, hres, -, -⟩ :=
      UNOGameImpl.played_turn hw hturn hplayed
    have hwe : UNOGameImpl.WF { g1 with direction := g1.direction * -1 } :=
      ⟨hw1.players, hw1.cur_nonneg, hw1.cur_lt, by rcases hw1.dir with h | h <;> simp [h]⟩
    by_cases hN : g.numPlayers = 2
    · have he : g1.applyEffect (some card) =
          some ({ g1 with direction := g1.direction * -1 }, 2) := by
        simp [UNOGameImpl.applyEffect, hrev, hN1, hN]
      obtain ⟨w, hres2⟩ := UNOGameImpl.resolve_eq he hwe
      rw [hres2] at hres
      have := Option.some.inj hres
      subst this
      refine ⟨by simp [hd1], fun h => absurd hN h, fun _ => ?_⟩
      have h0 := hw.cur_nonneg
      have h1 := hw.cur_lt
      show (g1.currentPlayer + ((2 : Nat) : Int) * (g1.direction * -1)) % g1.numPlayers =
        g.currentPlayer
      rw [hc1, hd1, hN1, hN]
      rcases hw.dir with hd | hd <;> rw [hd] <;> push_cast <;> omega
    · have he : g1.applyEffect (some card) =
          some ({ g1 with direction := g1.direction * -1 }, 1) := by
        simp [UNOGameImpl.applyEffect, hrev, hN1, hN]
      obtain ⟨w, hres2⟩ := UNOGameImpl.resolve_eq he hwe
      rw [hres2] at hres
      have := Option.some.inj hres
      subst this
      refine ⟨by simp [hd1], fun _ => ?_, fun h => absurd h hN⟩
      show (g1.currentPlayer + ((1 : Nat) : Int) * (g1.direction * -1)) % g1.numPlayers =
        (g.currentPlayer - g.direction) % g.numPlayers
      rw [hc1, hd1, hN1]
      congr 1
      push_cast
      ring
  · intro s s2 card hw hN hturn hplayed hrev hne
    obtain ⟨-, st1, hw1, hlen1, hc1, hcw1, hwin1, hrun, -, -⟩ :=
      UNOGame.playedB_turn hw hturn hplayed
    rw [executeAction_reverse st1 hrev, Option.some_bind] at hrun
    have := UNOGame.finish_not_emptied
      (show HiddenState.WF { st1 with clockwise := !st1.clockwise } from
        ⟨hw1.cur_nonneg, hw1.cur_lt⟩)
      hw.cur_nonneg
      (show s.currentPlayer < (st1.hands.length : Int) by rw [hlen1]; exact hw.cur_lt)
      hwin1 hrun hne
    subst this
    have hflip : HiddenState.direction { st1 with clockwise := !st1.clockwise } =
        -s.direction := by
      simp only [HiddenState.direction, hcw1]
      cases s.clockwise <;> simp
    have hcur : (st1.currentPlayer +
        HiddenState.direction { st1 with clockwise := !st1.clockwise }) %
          (st1.hands.length : Int) =
        (s.currentPlayer - s.direction) % (s.hands.length : Int) := by
      rw [hflip, hc1, hlen1, sub_eq_add_neg]
    refine ⟨hflip, hcur, ?_⟩
    intro _
    show (st1.currentPlayer +
        HiddenState.direction { st1 with clockwise := !st1.clockwise }) %
          (st1.hands.length : Int) ≠ s.currentPlayer
    rw [hcur, sub_eq_add_neg]
    apply step_ne_self hw.cur_nonneg hw.cur_lt hN
    unfold HiddenState.direction
    cases s.clockwise <;> simp

/-- Witness of C8: two players, player 0 plays Red Reverse on Red 5 in direction `+1`. In
`UNO.cpp` the direction flips and player 0 stays the current player; in the second engine the
direction flips and the turn passes to player 1. -/
theorem reverse_effect_witness :
    (reverseAfter.direction = -reverseBefore.direction ∧ reverseAfter.currentPlayer = 0) ∧
    (reverseAfterB.direction = -reverseBeforeB.direction ∧
      reverseAfterB.currentPlayer = (0 - 1) % 2 ∧ reverseAfterB.currentPlayer = 1) :=
  ⟨⟨(reverse_effect.1 reverseBefore reverseAfter ⟨"Red", "Reverse"⟩
        ⟨by decide, by decide, by decide, by decide⟩ (by decide) (by decide) (by decide)
        (by decide) (by decide)).1,
      (reverse_effect.1 reverseBefore reverseAfter ⟨"Red", "Reverse"⟩
        ⟨by decide, by decide, by decide, by decide⟩ (by decide) (by decide) (by decide)
        (by decide) (by decide)).2.2 (by decide)⟩,
    ⟨(reverse_effect.2 reverseBeforeB reverseAfterB ⟨"Red", "Reverse"⟩
        ⟨by decide, by decide⟩ (by decide) (by decide) (by decide) (by decide)
        (by decide)).1,
      (reverse_effect.2 reverseBeforeB reverseAfterB ⟨"Red", "Reverse"⟩
        ⟨by decide, by decide⟩ (by decide) (by decide) (by decide) (by decide)
        (by decide)).2.1, by decide⟩⟩

/-- C7 (Draw Two). In a well-formed state with `N >= 2` players, a `playTurn()` that plays a
Draw Two card and leaves the hand of the acting player non-empty appends to the end of the
hand of player `(c + d) mod N` the top `min(2, k)` cards of the draw pile `D` left by the play
(`k` its size), in the order they are drawn; the draw pile loses exactly these cards, the
current player becomes `(c + 2d) mod N` and the direction is unchanged. `D` is the old draw
pile when the card came from the hand, and the old draw pile without its top card when the
played card was the one just drawn. Both engines. -/
theorem drawTwo_effect :
    (∀ (g g2 : UNOGameImpl) (card : Card), g.WF → 2 ≤ g.numPlayers → g.playTurn = some g2 →
      g2.discard = g.discard ++ [card] → card.value = "Draw Two" →
      handAt g2.hands g.currentPlayer ≠ some [] →
      ∃ D hn,
        ((D = g.deck ∧ ∃ pre post,
            handAt g.hands g.currentPlayer = some (pre ++ card :: post) ∧
            handAt g2.hands g.currentPlayer = some (pre ++ post)) ∨
          (g.deck = D ++ [card] ∧
            handAt g2.hands g.currentPlayer = handAt g.hands g.currentPlayer)) ∧
        handAt g.hands ((g.currentPlayer + g.direction) % g.numPlayers) = some hn ∧
        handAt g2.hands ((g.currentPlayer + g.direction) % g.numPlayers) =
          some (hn ++ D.reverse.take 2) ∧
        (D.reverse.take 2).length = min 2 D.length ∧
        g2.deck = (D.reverse.drop 2).reverse ∧
        g2.currentPlayer = (g.currentPlayer + 2 * g.direction) % g.numPlayers ∧
        g2.direction = g.direction) ∧
    (∀ (s s2 : HiddenState) (card : Card), s.WF → 2 ≤ (s.hands.length : Int) →
      UNOGame.playTurn s = some s2 →
      s2.discardPile = s.discardPile ++ [card] → card.value = "Draw Two" →
      handAt s2.hands s.currentPlayer ≠ some [] →
      ∃ D hn,
        ((D = s.drawPile ∧ ∃ pre post,
            handAt s.hands s.currentPlayer = some (pre ++ card :: post) ∧
            handAt s2.hands s.currentPlayer = some (pre ++ post)) ∨
          (s.drawPile = D ++ [card] ∧
            handAt s2.hands s.currentPlayer = handAt s.hands s.currentPlayer)) ∧
        handAt s.hands ((s.currentPlayer + s.direction) % (s.hands.length : Int)) = some hn ∧
        handAt s2.hands ((s.currentPlayer + s.direction) % (s.hands.length : Int)) =
          some (hn ++ D.reverse.take 2) ∧
        (D.reverse.take 2).length = min 2 D.length ∧
        s2.drawPile = (D.reverse.drop 2).reverse ∧
        s2.currentPlayer = (s.currentPlayer + 2 * s.direction) % (s.hands.length : Int) ∧
        s2.direction = s.direction) := by
  constructor
  · intro g g2 card hw hN hturn hplayed hdraw _
    obtain ⟨-, g1, hw1, hN1, hc1, hd1, hlen1, hres, -, hfrom⟩ :=
      UNOGameImpl.played_turn hw hturn hplayed
    have hr := UNOGameImpl.nextPlayer_range hw
    have hnec : (g.currentPlayer + g.direction) % g.numPlayers ≠ g.currentPlayer :=
      step_ne_self hw.cur_nonneg hw.cur_lt hN hw.dir
    obtain ⟨hn, hhn⟩ := handAt_of_lt hr.1 (by rw [← hw.players]; exact hr.2)
    obtain ⟨hc, hhc⟩ := handAt_of_lt hw.cur_nonneg (by rw [← hw.players]; exact hw.cur_lt)
    have hnext1 : handAt g1.hands ((g1.currentPlayer + g1.direction) % g1.numPlayers) =
        some hn := by
      rw [hc1, hd1, hN1]
      rcases hfrom with ⟨-, pre, post, -, hh⟩ | ⟨-, hh⟩
      · rw [hh, handAt_set_ne _ _ hw.cur_nonneg hr.1 (Ne.symm hnec), hhn]
      · rw [hh, hhn]
    have he := UNOGameImpl.applyEffect_drawTwo hw1 hdraw hnext1
    have hwe : UNOGameImpl.WF { g1 with
        hands := g1.hands.set ((g1.currentPlayer + g1.direction) % g1.numPlayers).toNat
          (hn ++ g1.deck.reverse.take 2),
        deck := (g1.deck.reverse.drop 2).reverse } :=
      ⟨by simpa using hw1.players, hw1.cur_nonneg, hw1.cur_lt, hw1.dir⟩
    obtain ⟨w, hres2⟩ := UNOGameImpl.resolve_eq he hwe
    rw [hres2] at hres
    have := Option.some.inj hres
    subst this
    have hcur : handAt (g1.hands.set
        ((g1.currentPlayer + g1.direction) % g1.numPlayers).toNat
          (hn ++ g1.deck.reverse.take 2)) g.currentPlayer = handAt g1.hands g.currentPlayer := by
      rw [hc1, hd1, hN1]
      exact handAt_set_ne _ _ hr.1 hw.cur_nonneg hnec
    refine ⟨g1.deck, hn, ?_, hhn, ?_, by simp, rfl, ?_, hd1⟩
    · rcases hfrom with ⟨hdk, pre, post, hh0, hh⟩ | ⟨hdk, hh⟩
      · refine Or.inl ⟨hdk, pre, post, hh0, ?_⟩
        show handAt (g1.hands.set _ _) g.currentPlayer = _
        rw [hcur, hh]
        exact handAt_set_self _ hh0
      · refine Or.inr ⟨hdk, ?_⟩
        show handAt (g1.hands.set _ _) g.currentPlayer = _
        rw [hcur, hh]
    · show handAt (g1.hands.set _ _) ((g.currentPlayer + g.direction) % g.numPlayers) = _
      rw [← hc1, ← hd1, ← hN1]
      exact handAt_set_self _ hnext1
    · show (g1.currentPlayer + ((2 : Nat) : Int) * g1.direction) % g1.numPlayers = _
      rw [hc1, hd1, hN1]
      rfl
  · intro s s2 card hw hN hturn hplayed hdraw hne
    obtain ⟨-, st1, hw1, hlen1, hc1, hcw1, hwin1, hrun, -, hfrom⟩ :=
      UNOGame.playedB_turn hw hturn hplayed
    have hdir : st1.direction = s.direction := by simp [HiddenState.direction, hcw1]
    have hdir2 : s.direction = 1 ∨ s.direction = -1 := by
      unfold HiddenState.direction
      cases s.clockwise <;> simp
    have hr := stepFrom_range hw
    have hnec : (s.currentPlayer + s.direction) % (s.hands.length : Int) ≠ s.currentPlayer :=
      step_ne_self hw.cur_nonneg hw.cur_lt hN hdir2
    obtain ⟨hn, hhn⟩ := handAt_of_lt hr.1 hr.2
    have hnext1 : handAt st1.hands
        ((st1.currentPlayer + st1.direction) % (st1.hands.length : Int)) = some hn := by
      rw [hc1, hdir, hlen1]
      rcases hfrom with ⟨-, pre, post, -, hh⟩ | ⟨-, hh⟩
      · rw [hh, handAt_set_ne _ _ hw.cur_nonneg hr.1 (Ne.symm hnec), hhn]
      · rw [hh, hhn]
    rw [executeAction_drawTwo hw1 hdraw hnext1, Option.some_bind] at hrun
    have hr1 := stepFrom_range hw1
    have := UNOGame.finish_not_emptied
      (show HiddenState.WF { st1 with
        hands := st1.hands.set
          ((st1.currentPlayer + st1.direction) % (st1.hands.length : Int)).toNat
          (hn ++ st1.drawPile.reverse.take 2),
        drawPile := (st1.drawPile.reverse.drop 2).reverse,
        currentPlayer := (st1.currentPlayer + st1.direction) % (st1.hands.length : Int) } from
        ⟨hr1.1, by simpa using hr1.2⟩)
      hw.cur_nonneg
      (show s.currentPlayer < ((st1.hands.set _ _).length : Int) by
        rw [List.length_set, hlen1]; exact hw.cur_lt)
      hwin1 hrun hne
    subst this
    have hcur : handAt (st1.hands.set
        ((st1.currentPlayer + st1.direction) % (st1.hands.length : Int)).toNat
          (hn ++ st1.drawPile.reverse.take 2)) s.currentPlayer =
        handAt st1.hands s.currentPlayer := by
      rw [hc1, hdir, hlen1]
      exact handAt_set_ne _ _ hr.1 hw.cur_nonneg hnec
    refine ⟨st1.drawPile, hn, ?_, hhn, ?_, by simp, rfl, ?_, ?_⟩
    · rcases hfrom with ⟨hdk, pre, post, hh0, hh⟩ | ⟨hdk, hh⟩
      · refine Or.inl ⟨hdk, pre, post, hh0, ?_⟩
        show handAt (st1.hands.set _ _) s.currentPlayer = _
        rw [hcur, hh]
        exact handAt_set_self _ hh0
      · refine Or.inr ⟨hdk, ?_⟩
        show handAt (st1.hands.set _ _) s.currentPlayer = _
        rw [hcur, hh]
    · show handAt (st1.hands.set _ _)
        ((s.currentPlayer + s.direction) % (s.hands.length : Int)) = _
      rw [← hc1, ← hdir, ← hlen1]
      exact handAt_set_self _ hnext1
    · show ((st1.currentPlayer + st1.direction) % (st1.hands.length : Int) +
        HiddenState.direction _) % ((st1.hands.set _ _).length : Int) = _
      have hd3 : HiddenState.direction { st1 with
          hands := st1.hands.set
            ((st1.currentPlayer + st1.direction) % (st1.hands.length : Int)).toNat
            (hn ++ st1.drawPile.reverse.take 2),
          drawPile := (st1.drawPile.reverse.drop 2).reverse,
          currentPlayer := (st1.currentPlayer + st1.direction) % (st1.hands.length : Int) } =
          st1.direction := rfl
      rw [hd3, List.length_set, emod_step, hdir, hc1, hlen1, two_mul]
    · show HiddenState.direction _ = s.direction
      rw [← hdir]
      rfl

/-- Witness of C7: three players, player 0 plays Red Draw Two on Red 5 in direction `+1` with
three cards in the draw pile; player 1 receives the two top cards and the turn passes to
player 2. -/
theorem drawTwo_effect_witness :
    (∃ D hn,
        ((D = drawBefore.deck ∧ ∃ pre post,
            handAt drawBefore.hands drawBefore.currentPlayer =
              some (pre ++ (⟨"Red", "Draw Two"⟩ : Card) :: post) ∧
            handAt drawAfter.hands drawBefore.currentPlayer = some (pre ++ post)) ∨
          (drawBefore.deck = D ++ [⟨"Red", "Draw Two"⟩] ∧
            handAt drawAfter.hands drawBefore.currentPlayer =
              handAt drawBefore.hands drawBefore.currentPlayer)) ∧
        handAt drawBefore.hands
          ((drawBefore.currentPlayer + drawBefore.direction) % drawBefore.numPlayers) =
            some hn ∧
        handAt drawAfter.hands
          ((drawBefore.currentPlayer + drawBefore.direction) % drawBefore.numPlayers) =
            some (hn ++ D.reverse.take 2) ∧
        (D.reverse.take 2).length = min 2 D.length ∧
        drawAfter.deck = (D.reverse.drop 2).reverse ∧
        drawAfter.currentPlayer =
          (drawBefore.currentPlayer + 2 * drawBefore.direction) % drawBefore.numPlayers ∧
        drawAfter.direction = drawBefore.direction) ∧
    handAt drawAfter.hands 1 = some [⟨"Green", "2"⟩, ⟨"Yellow", "3"⟩, ⟨"Yellow", "2"⟩] ∧
    drawAfter.currentPlayer = 2 ∧
    UNOGame.playTurn drawBeforeB = some drawAfterB ∧
    handAt drawAfterB.hands 1 = some [⟨"Green", "2"⟩, ⟨"Yellow", "3"⟩, ⟨"Yellow", "2"⟩] ∧
    drawAfterB.currentPlayer = 2 :=
  ⟨drawTwo_effect.1 drawBefore drawAfter ⟨"Red", "Draw Two"⟩
      ⟨by decide, by decide, by decide, by decide⟩ (by decide) (by decide) (by decide)
      (by decide) (by decide),
    by decide, by decide, by decide, by decide, by decide⟩

/-- C10 (empty draw pile is a defined no-draw branch). For 1 to 14 players and every shuffle
that permutes the deck, in every state that `initialize()` and any number `k` of calls of
`playTurn()` lead to, in both engines: if there is no winner, the draw pile is empty, the hand
of the current player is non-empty and none of its cards matches the top card, then
`playTurn()` is defined and returns the same state with only `currentPlayer` advanced one
step in the current direction; hands, draw pile, discard pile, direction and winner are as
before. The last two parts state the same for states of any origin: in `UNO.cpp` for every
well-formed state in which no hand is empty, in `ayeshamobeen_513958_UNO.cpp` for every
well-formed state in which the hand of the current player is non-empty. -/
theorem empty_draw_pile_turn (shuffle : List Card → List Card)
    (hperm : ∀ d, List.Perm (shuffle d) d) (n : Int) (h1 : 1 ≤ n) (h14 : n ≤ 14) (k : Nat) :
    (∃ g, UNOGameImpl.run shuffle n k = some g ∧
      ∀ (top : Card) (hand : List Card), g.winner = -1 →
        g.discard.getLast? = some top → handAt g.hands g.currentPlayer = some hand →
        hand ≠ [] → (∀ x ∈ hand, ¬ Matches top x) → g.deck = [] →
        g.playTurn =
          some { g with currentPlayer := (g.currentPlayer + g.direction) % g.numPlayers }) ∧
    (∃ s, UNOGame.run shuffle n k = some s ∧
      ∀ (top : Card) (hand : List Card), s.winnerIndex = -1 →
        s.discardPile.getLast? = some top → handAt s.hands s.currentPlayer = some hand →
        hand ≠ [] → (∀ x ∈ hand, ¬ Matches top x) → s.drawPile = [] →
        UNOGame.playTurn s =
          some { s with currentPlayer :=
            (s.currentPlayer + s.direction) % (s.hands.length : Int) }) ∧
    (∀ (g : UNOGameImpl) (top : Card) (hand : List Card), g.WF → g.winner = -1 →
      g.discard.getLast? = some top → handAt g.hands g.currentPlayer = some hand →
      (∀ h ∈ g.hands, h ≠ []) → (∀ x ∈ hand, ¬ Matches top x) → g.deck = [] →
      g.playTurn =
        some { g with currentPlayer := (g.currentPlayer + g.direction) % g.numPlayers }) ∧
    (∀ (s : HiddenState) (top : Card) (hand : List Card), s.WF → s.winnerIndex = -1 →
      s.discardPile.getLast? = some top → handAt s.hands s.currentPlayer = some hand →
      hand ≠ [] → (∀ x ∈ hand, ¬ Matches top x) → s.drawPile = [] →
      UNOGame.playTurn s =
        some { s with currentPlayer :=
          (s.currentPlayer + s.direction) % (s.hands.length : Int) }) := by
  refine ⟨?_, ?_, ?_, ?_⟩
  · obtain ⟨g, hg, hw, hne⟩ := UNOGameImpl.run_nonempty shuffle hperm n h1 h14 k
    refine ⟨g, hg, ?_⟩
    intro top hand hwin htop hh hhand hno hdeck
    exact UNOGameImpl.idle_turn hw hwin (hne hwin hand hh hhand)
      ⟨hdeck, hand, top, hh, htop, hno⟩
  · obtain ⟨s, hs, hw, -⟩ := UNOGame.runB_invariant shuffle hperm n h1 h14 k
    refine ⟨s, hs, ?_⟩
    intro top hand hwin htop hh hhand hno hdeck
    exact UNOGame.emptyPileB_turn hw hwin htop hh hhand hno hdeck
  · intro g top hand hw hwin htop hh hne hno hdeck
    exact UNOGameImpl.idle_turn hw hwin hne ⟨hdeck, hand, top, hh, htop, hno⟩
  · intro s top hand hw hwin htop hh hhand hno hdeck
    exact UNOGame.emptyPileB_turn hw hwin htop hh hhand hno hdeck

/-- Witness of C10: ten players and the deck order `stuckShuffle`. After 45 turns of `UNO.cpp`
and after 47 turns of `ayeshamobeen_513958_UNO.cpp` there is no winner, the draw pile is
empty and the non-empty hand of the current player holds no card that matches the top card;
the next turn changes nothing but `currentPlayer`. Also two players each holding one card
with an empty draw pile and the top card Red 5. -/
theorem empty_draw_pile_turn_witness :
    (∀ d : List Card, List.Perm (stuckShuffle d) d) ∧ (1 : Int) ≤ 10 ∧ (10 : Int) ≤ 14 ∧
    (∃ g top hand, UNOGameImpl.run stuckShuffle 10 45 = some g ∧ g.winner = -1 ∧
      g.discard.getLast? = some top ∧ handAt g.hands g.currentPlayer = some hand ∧
      hand ≠ [] ∧ (∀ x ∈ hand, ¬ Matches top x) ∧ g.deck = [] ∧
      g.playTurn =
        some { g with currentPlayer := (g.currentPlayer + g.direction) % g.numPlayers }) ∧
    (∃ s top hand, UNOGame.run stuckShuffle 10 47 = some s ∧ s.winnerIndex = -1 ∧
      s.discardPile.getLast? = some top ∧ handAt s.hands s.currentPlayer = some hand ∧
      hand ≠ [] ∧ (∀ x ∈ hand, ¬ Matches top x) ∧ s.drawPile = [] ∧
      UNOGame.playTurn s =
        some { s with currentPlayer :=
          (s.currentPlayer + s.direction) % (s.hands.length : Int) }) ∧
    emptyPileGame.playTurn =
        some { emptyPileGame with
          currentPlayer :=
            (emptyPileGame.currentPlayer + emptyPileGame.direction) %
              emptyPileGame.numPlayers } ∧
    UNOGame.playTurn emptyPileState =
        some { emptyPileState with
          currentPlayer :=
            (emptyPileState.currentPlayer + emptyPileState.direction) %
              (emptyPileState.hands.length : Int) } := by
  refine ⟨stuckShuffle_perm, by decide, by decide, ?_, ?_, ?_, ?_⟩
  · obtain ⟨g, hg, hturn⟩ :=
      (empty_draw_pile_turn stuckShuffle stuckShuffle_perm 10 (by decide) (by decide) 45).1
    have hs : g.Stuck := by
      have h := UNOGameImpl.stuck_game
      rw [hg] at h
      simpa using h
    obtain ⟨hdeck, hand, top, hh, htop, hno⟩ :=
      UNOGameImpl.stuck_blocked hs g.currentPlayer hs.1.cur_nonneg hs.1.cur_lt
    obtain ⟨-, -, hget⟩ := handAt_eq_some hh
    have hhand : hand ≠ [] := hs.2.2.2.2.1 hand (List.mem_iff_getElem?.2 ⟨_, hget⟩)
    exact ⟨g, top, hand, hg, hs.2.1, htop, hh, hhand, hno, hdeck,
      hturn top hand hs.2.1 htop hh hhand hno hdeck⟩
  · obtain ⟨s, hg, hturn⟩ :=
      (empty_draw_pile_turn stuckShuffle stuckShuffle_perm 10 (by decide) (by decide) 47).2.1
    have hs : s.Stuck := by
      have h := UNOGame.stuckB_game
      rw [hg] at h
      simpa using h
    obtain ⟨hdeck, hand, top, hh, htop, hno⟩ :=
      HiddenState.stuckB_blocked hs s.currentPlayer hs.1.cur_nonneg hs.1.cur_lt
    obtain ⟨-, -, hget⟩ := handAt_eq_some hh
    have hhand : hand ≠ [] := hs.2.2.2.2.1 hand (List.mem_iff_getElem?.2 ⟨_, hget⟩)
    exact ⟨s, top, hand, hg, hs.2.1, htop, hh, hhand, hno, hdeck,
      hturn top hand hs.2.1 htop hh hhand hno hdeck⟩
  · exact (empty_draw_pile_turn List.reverse (fun d => List.reverse_perm d) 1 (by decide)
      (by decide) 0).2.2.1 emptyPileGame ⟨"Red", "5"⟩ [⟨"Blue", "3"⟩]
      ⟨by decide, by decide, by decide, by decide⟩ (by decide) (by decide) (by decide)
      (by decide) (by decide) (by decide)
  · exact (empty_draw_pile_turn List.reverse (fun d => List.reverse_perm d) 1 (by decide)
      (by decide) 0).2.2.2 emptyPileState ⟨"Red", "5"⟩ [⟨"Blue", "3"⟩]
      ⟨by decide, by decide⟩ (by decide) (by decide) (by decide)
      (by decide) (by decide) (by decide)

/-- A state that no game reaches, in `UNO.cpp`: two players, no winner recorded, empty draw
pile, top card Red 5; the current player 0 holds the single card Blue 3 and the hand of
player 1 is empty. `playTurn()` scans every hand for an empty one and sets the winner to 1.
This is why the part of `empty_draw_pile_turn` on states of any origin asks for every hand of
`UNO.cpp` to be non-empty. -/
theorem unreached_empty_hand_turn :
    emptyHandGame.WF ∧ emptyHandGame.winner = -1 ∧
    emptyHandGame.discard.getLast? = some ⟨"Red", "5"⟩ ∧
    handAt emptyHandGame.hands emptyHandGame.currentPlayer = some [⟨"Blue", "3"⟩] ∧
    (∀ x ∈ [(⟨"Blue", "3"⟩ : Card)], ¬ Matches ⟨"Red", "5"⟩ x) ∧
    emptyHandGame.deck = [] ∧
    emptyHandGame.playTurn = some { emptyHandGame with winner := 1, currentPlayer := 1 } :=
  ⟨⟨by decide, by decide, by decide, by decide⟩, by decide, by decide, by decide,
    by decide, by decide, by decide⟩

/-- C17 (deck construction). `buildDeck()` and `createFullDeck()` each produce exactly 100
cards; for each of the colours Red, Green, Blue, Yellow the deck holds one "0", two of each of
"1".."9" and two of each of Skip, Reverse, Draw Two, 25 cards in all (the counts are listed
per colour, and per label within a colour); both functions return the same sequence, which
lists the 25 Red cards first, then the Green, the Blue and the Yellow ones. -/
theorem deck_construction :
    UNOGameImpl.buildDeck.length = 100 ∧ createFullDeck.length = 100 ∧
    UNOGameImpl.buildDeck = createFullDeck ∧
    ["Red", "Green", "Blue", "Yellow"].map
        (fun c => UNOGameImpl.buildDeck.count ⟨c, "0"⟩) = [1, 1, 1, 1] ∧
    ["Red", "Green", "Blue", "Yellow"].map
        (fun c => ["1", "2", "3", "4", "5", "6", "7", "8", "9"].map
          (fun v => UNOGameImpl.buildDeck.count ⟨c, v⟩)) =
      List.replicate 4 (List.replicate 9 2) ∧
    ["Red", "Green", "Blue", "Yellow"].map
        (fun c => ["Skip", "Reverse", "Draw Two"].map
          (fun a => UNOGameImpl.buildDeck.count ⟨c, a⟩)) =
      List.replicate 4 (List.replicate 3 2) ∧
    ["Red", "Green", "Blue", "Yellow"].map
        (fun c => (UNOGameImpl.buildDeck.filter (fun x => decide (x.color = c))).length) =
      [25, 25, 25, 25] ∧
    UNOGameImpl.buildDeck.map Card.color =
      List.replicate 25 "Red" ++ List.replicate 25 "Green" ++ List.replicate 25 "Blue" ++
        List.replicate 25 "Yellow" := by
  decide

/-- C19 (turn-state well-formedness and access safety). For 1 to 14 players, every state
reached from `initialize()` by `playTurn()` calls exists and has `currentPlayer` in `[0, n)`,
direction `+1` or `-1` and a non-empty discard pile; the reads made by `playTurn()` are
defined: the discard top, `hands[currentPlayer]`, the modular step to the next player (which
stays in `[0, n)`) and `hands[next]`; and `playTurn()` itself is defined. Both engines. -/
theorem turn_state_safe (shuffle : List Card → List Card)
    (hperm : ∀ d, List.Perm (shuffle d) d) (n : Int) (h1 : 1 ≤ n) (h14 : n ≤ 14) (k : Nat) :
    (∃ g, UNOGameImpl.run shuffle n k = some g ∧
        g.numPlayers = n ∧ (g.hands.length : Int) = n ∧
        0 ≤ g.currentPlayer ∧ g.currentPlayer < n ∧
        (g.direction = 1 ∨ g.direction = -1) ∧ g.discard ≠ [] ∧
        (∃ top, g.discard.getLast? = some top) ∧
        (∃ hand, handAt g.hands g.currentPlayer = some hand) ∧
        (∃ nxt hn, g.nextPlayer = some nxt ∧ 0 ≤ nxt ∧ nxt < n ∧
          handAt g.hands nxt = some hn) ∧
        (∃ g2, g.playTurn = some g2)) ∧
    (∃ s, UNOGame.run shuffle n k = some s ∧
        (s.hands.length : Int) = n ∧
        0 ≤ s.currentPlayer ∧ s.currentPlayer < n ∧
        (s.direction = 1 ∨ s.direction = -1) ∧ s.discardPile ≠ [] ∧
        (∃ top, s.discardPile.getLast? = some top) ∧
        (∃ hand, handAt s.hands s.currentPlayer = some hand) ∧
        (∃ nxt hn, stepFrom s = some nxt ∧ 0 ≤ nxt ∧ nxt < n ∧
          handAt s.hands nxt = some hn) ∧
        (∃ s2, UNOGame.playTurn s = some s2)) := by
  constructor
  · obtain ⟨g, hg, hw, hN, hdis, -, -⟩ := UNOGameImpl.run_invariant shuffle hperm n h1 h14 k
    have hlen : (g.hands.length : Int) = n := by rw [← hw.players, hN]
    have hr := UNOGameImpl.nextPlayer_range hw
    refine ⟨g, hg, hN, hlen, hw.cur_nonneg, by rw [← hN]; exact hw.cur_lt, hw.dir, hdis,
      ?_, handAt_of_lt hw.cur_nonneg (by rw [hlen, ← hN]; exact hw.cur_lt), ?_, ?_⟩
    · rcases getLast?_cases g.discard with ⟨h, -⟩ | ⟨D, d, -, h, -⟩
      · exact absurd h hdis
      · exact ⟨d, h⟩
    · obtain ⟨hn, hhn⟩ := handAt_of_lt hr.1 (by rw [← hw.players]; exact hr.2)
      exact ⟨_, hn, UNOGameImpl.nextPlayer_eq hw, hr.1, by rw [← hN]; exact hr.2, hhn⟩
    · by_cases hwin : g.winner = -1
      · obtain ⟨g2, hturn, -⟩ := UNOGameImpl.playTurn_step hw hwin hdis
        exact ⟨g2, hturn⟩
      · exact ⟨g, UNOGameImpl.playTurn_over hwin⟩
  · obtain ⟨s, hs, hw, hN, hdis, -, -⟩ := UNOGame.runB_invariant shuffle hperm n h1 h14 k
    have hr := stepFrom_range hw
    refine ⟨s, hs, hN, hw.cur_nonneg, by rw [← hN]; exact hw.cur_lt, ?_, hdis,
      ?_, handAt_of_lt hw.cur_nonneg hw.cur_lt, ?_, ?_⟩
    · unfold HiddenState.direction
      cases s.clockwise <;> simp
    · rcases getLast?_cases s.discardPile with ⟨h, -⟩ | ⟨D, d, -, h, -⟩
      · exact absurd h hdis
      · exact ⟨d, h⟩
    · obtain ⟨hn, hhn⟩ := handAt_of_lt hr.1 hr.2
      exact ⟨_, hn, stepFrom_eq hw, hr.1, by rw [← hN]; exact hr.2, hhn⟩
    · by_cases hwin : s.winnerIndex = -1
      · obtain ⟨s2, hturn, -⟩ := UNOGame.playTurnB_step hw hwin hdis
        exact ⟨s2, hturn⟩
      · exact ⟨s, UNOGame.playTurnB_over hwin⟩

/-- Witness of C19: fourteen players, the deck shuffled by reversal, sixty turns. -/
theorem turn_state_safe_witness :
    (∀ d : List Card, List.Perm (List.reverse d) d) ∧ (1 : Int) ≤ 14 ∧ (14 : Int) ≤ 14 ∧
    ((∃ g, UNOGameImpl.run List.reverse 14 60 = some g ∧
        g.numPlayers = 14 ∧ (g.hands.length : Int) = 14 ∧
        0 ≤ g.currentPlayer ∧ g.currentPlayer < 14 ∧
        (g.direction = 1 ∨ g.direction = -1) ∧ g.discard ≠ [] ∧
        (∃ top, g.discard.getLast? = some top) ∧
        (∃ hand, handAt g.hands g.currentPlayer = some hand) ∧
        (∃ nxt hn, g.nextPlayer = some nxt ∧ 0 ≤ nxt ∧ nxt < 14 ∧
          handAt g.hands nxt = some hn) ∧
        (∃ g2, g.playTurn = some g2)) ∧
    (∃ s, UNOGame.run List.reverse 14 60 = some s ∧
        (s.hands.length : Int) = 14 ∧
        0 ≤ s.currentPlayer ∧ s.currentPlayer < 14 ∧
        (s.direction = 1 ∨ s.direction = -1) ∧ s.discardPile ≠ [] ∧
        (∃ top, s.discardPile.getLast? = some top) ∧
        (∃ hand, handAt s.hands s.currentPlayer = some hand) ∧
        (∃ nxt hn, stepFrom s = some nxt ∧ 0 ≤ nxt ∧ nxt < 14 ∧
          handAt s.hands nxt = some hn) ∧
        (∃ s2, UNOGame.playTurn s = some s2))) :=
  ⟨fun d => List.reverse_perm d, by decide, by decide,
    turn_state_safe List.reverse (fun d => List.reverse_perm d) 14 (by decide) (by decide) 60⟩

/-- C11, as amended (the turn order after a win). For a `playTurn()` that plays `card`, empties
the hand of the acting player `c` and records `c` as the winner: in `UNO.cpp` the turn is
advanced after the winner is recorded exactly as after any other turn, so the current player
becomes `(c + d) mod N` for a number card, `(c + 2d) mod N` for Skip and Draw Two, and for
Reverse `(c - d) mod N`, or `c` when `N = 2`; in `ayeshamobeen_513958_UNO.cpp` the current
player is still `c` when the winning card is a number card or a Reverse. -/
theorem turn_order_after_win :
    (∀ (g g2 : UNOGameImpl) (card : Card), g.WF → g.playTurn = some g2 →
      g2.discard = g.discard ++ [card] → handAt g2.hands g.currentPlayer = some [] →
      g2.winner = g.currentPlayer →
      (card.value ≠ "Skip" → card.value ≠ "Reverse" → card.value ≠ "Draw Two" →
        g2.currentPlayer = (g.currentPlayer + g.direction) % g.numPlayers) ∧
      (card.value = "Skip" ∨ card.value = "Draw Two" →
        g2.currentPlayer = (g.currentPlayer + 2 * g.direction) % g.numPlayers) ∧
      (card.value = "Reverse" →
        (g.numPlayers ≠ 2 →
          g2.currentPlayer = (g.currentPlayer - g.direction) % g.numPlayers) ∧
        (g.numPlayers = 2 → g2.currentPlayer = g.currentPlayer))) ∧
    (∀ (s s2 : HiddenState) (card : Card), s.WF → UNOGame.playTurn s = some s2 →
      s2.discardPile = s.discardPile ++ [card] → handAt s2.hands s.currentPlayer = some [] →
      s2.winnerIndex = s.currentPlayer →
      card.value ≠ "Skip" → card.value ≠ "Draw Two" →
      s2.currentPlayer = s.currentPlayer) := by
  constructor
  · intro g g2 card hw hturn hplayed _ _
    obtain ⟨h1, h2, h3⟩ := UNOGameImpl.turn_order hw hturn hplayed
    exact ⟨fun a b c => (h3 a b c).1, fun a => (h1 a).1, fun a => (h2 a).2⟩
  · intro s s2 card hw hturn hplayed hempty _ hns hnd
    obtain ⟨-, st1, hw1, hlen1, hc1, -, hwin1, hrun, -, -⟩ :=
      UNOGame.playedB_turn hw hturn hplayed
    have hpid : s.currentPlayer ≠ -1 := by
      have := hw.cur_nonneg
      omega
    have hfin : ∀ (st : HiddenState), st.WF → st.hands.length = s.hands.length →
        st.currentPlayer = s.currentPlayer → st.winnerIndex = -1 →
        UNOGame.finishTurn st s.currentPlayer = some s2 → s2.currentPlayer = s.currentPlayer := by
      intro st hwst hlen hc hwin hfin
      obtain ⟨h, hh⟩ := handAt_of_lt hw.cur_nonneg
        (show s.currentPlayer < (st.hands.length : Int) by rw [hlen]; exact hw.cur_lt)
      rcases UNOGame.finishTurn_cases hwst hw.cur_nonneg hh with ⟨-, hf⟩ | ⟨hne, -, hf⟩ |
        ⟨-, hw2, -⟩
      · rw [hf] at hfin
        have := Option.some.inj hfin
        subst this
        exact hc
      · rw [hf] at hfin
        have := Option.some.inj hfin
        subst this
        rw [show handAt st.hands s.currentPlayer = some [] from hempty] at hh
        exact absurd (Option.some.inj hh).symm hne
      · exact absurd hwin hw2
    rcases executeAction_cases hw1 card with ⟨he, -⟩ | ⟨-, hv⟩ | ⟨he, -⟩ | ⟨_, -, -, hv⟩
    · rw [he, Option.some_bind] at hrun
      exact hfin st1 hw1 hlen1 hc1 hwin1 hrun
    · exact absurd hv hns
    · rw [he, Option.some_bind] at hrun
      exact hfin { st1 with clockwise := !st1.clockwise } ⟨hw1.cur_nonneg, hw1.cur_lt⟩
        hlen1 hc1 hwin1 hrun
    · exact absurd hv hnd

/-- Witness of C11 as amended: in `UNO.cpp` player 0 of two wins with Red 3 and the current
player becomes 1; in the second engine player 0 of two wins with Red 3 and stays the current
player. -/
theorem turn_order_after_win_witness :
    lastCardGameAfter.currentPlayer =
        (lastCardGame.currentPlayer + lastCardGame.direction) % lastCardGame.numPlayers ∧
    lastCardGameAfter.currentPlayer = 1 ∧
    lastCardStateAfter.currentPlayer = lastCardState.currentPlayer ∧
    lastCardStateAfter.winnerIndex = 0 :=
  ⟨(turn_order_after_win.1 lastCardGame lastCardGameAfter ⟨"Red", "3"⟩
      ⟨by decide, by decide, by decide, by decide⟩ (by decide) (by decide) (by decide)
      (by decide)).1 (by decide) (by decide) (by decide),
    by decide,
    turn_order_after_win.2 lastCardState lastCardStateAfter ⟨"Red", "3"⟩
      ⟨by decide, by decide⟩ (by decide) (by decide) (by decide) (by decide) (by decide)
      (by decide),
    by decide⟩

/-- Counterexample to C11 as stated. In `UNO.cpp`, player 0 of two plays the last card Red 3:
the hand is empty, the winner is 0, and the current player after the call is 1. In the second
engine, player 0 of three plays the last card Red Skip: the hand is empty, the winner is 0,
and the current player after the call is 1. -/
theorem no_advance_after_win_counterexample :
    (lastCardGame.WF ∧ lastCardGame.winner = -1 ∧ lastCardGame.currentPlayer = 0 ∧
      lastCardGame.playTurn = some lastCardGameAfter ∧
      handAt lastCardGameAfter.hands 0 = some [] ∧ lastCardGameAfter.winner = 0 ∧
      lastCardGameAfter.currentPlayer = 1) ∧
    (lastSkipState.WF ∧ lastSkipState.winnerIndex = -1 ∧ lastSkipState.currentPlayer = 0 ∧
      UNOGame.playTurn lastSkipState = some lastSkipStateAfter ∧
      handAt lastSkipStateAfter.hands 0 = some [] ∧ lastSkipStateAfter.winnerIndex = 0 ∧
      lastSkipStateAfter.currentPlayer = 1) := by
  decide

/-- C13 (`initialize()` as a full reset), evaluated. In `UNO.cpp` a second `initialize()` on a
two-player engine deals on top of the first deal: both hands hold 14 cards, the discard pile
2 cards, 115 cards in all; and `initialize()` on the finished game `finishedGame` leaves the
winner 1 recorded, with hands of 8 and 7 cards and 3 discarded cards. In
`ayeshamobeen_513958_UNO.cpp` the same calls give the freshly dealt state: a second
`initialize()` changes nothing, and on the finished game `finishedState` there is no winner,
both hands hold 7 cards, the discard pile 1 card, 100 cards in all. -/
theorem reinitialize_evaluated :
    (((UNOGameImpl.create 2).bind (UNOGameImpl.initGame id)).bind (UNOGameImpl.initGame id)).map
        (fun g => (g.hands.map List.length, g.discard.length, g.total)) =
      some ([14, 14], 2, 115) ∧
    (UNOGameImpl.initGame id finishedGame).map
        (fun g => (g.winner, g.hands.map List.length, g.discard.length, g.total)) =
      some (1, [8, 7], 3, 103) ∧
    ((UNOGame.create 2).map (UNOGame.initGame id)).map (UNOGame.initGame id) =
      (UNOGame.create 2).map (UNOGame.initGame id) ∧
    (fun s : HiddenState => (s.winnerIndex, s.currentPlayer, s.clockwise,
        s.hands.map List.length, s.discardPile.length, UNOGame.total s))
        (UNOGame.initGame id finishedState) =
      (-1, 0, true, [7, 7], 1, 100) := by
  decide

/-- C14, as amended (player counts below 1). For every negative `numPlayers` the constructor
fails in both engines (the vector of hands cannot be given a negative size). For
`numPlayers = 0` nothing is rejected in either engine: the constructor and `initialize()`
succeed, there is no hand, no card is dealt, the top card of the shuffled deck is placed on
the discard pile and 99 cards remain in the draw pile; `playTurn()` on that engine is
undefined, since it indexes `hands[0]`. -/
theorem invalid_player_count (shuffle : List Card → List Card)
    (hperm : ∀ d, List.Perm (shuffle d) d) :
    (∀ n : Int, n < 0 → UNOGameImpl.create n = none ∧ UNOGame.create n = none) ∧
    (∃ g, (UNOGameImpl.create 0).bind (UNOGameImpl.initGame shuffle) = some g ∧
        g.hands = [] ∧ g.deck.length = 99 ∧ g.discard.length = 1 ∧ g.playTurn = none) ∧
    (∃ s, (UNOGame.create 0).map (UNOGame.initGame shuffle) = some s ∧
        s.hands = [] ∧ s.drawPile.length = 99 ∧ s.discardPile.length = 1 ∧
        UNOGame.playTurn s = none) := by
  have hlenA : (shuffle UNOGameImpl.buildDeck).length = 100 := by
    rw [(hperm UNOGameImpl.buildDeck).length_eq, UNOGameImpl.buildDeck_length]
  have hlenB : (shuffle createFullDeck).length = 100 := by
    rw [(hperm createFullDeck).length_eq, UNOGame.createFullDeck_length]
  refine ⟨fun n hn => ⟨by simp [UNOGameImpl.create, hn], by simp [UNOGame.create, hn]⟩, ?_, ?_⟩
  · rcases getLast?_cases (shuffle UNOGameImpl.buildDeck) with ⟨hnil, -⟩ |
      ⟨D, top, hdeck, hlast, hdrop⟩
    · rw [hnil] at hlenA
      simp at hlenA
    · have hD : D.length = 99 := by
        rw [hdeck] at hlenA
        simpa using hlenA
      refine ⟨{ numPlayers := 0, currentPlayer := 0, direction := 1, winner := -1,
                deck := D, hands := [], discard := [top] }, ?_, rfl, hD, rfl, ?_⟩
      · simp [UNOGameImpl.create, UNOGameImpl.initGame, UNOGameImpl.dealRounds,
          UNOGameImpl.dealRound, hlast, hdrop]
      · simp [UNOGameImpl.playTurn, UNOGameImpl.isGameOver, UNOGameImpl.playPhase,
          UNOGameImpl.tryPlayFromHand, handAt]
  · rcases getLast?_cases (shuffle createFullDeck) with ⟨hnil, -⟩ |
      ⟨D, top, hdeck, hlast, hdrop⟩
    · rw [hnil] at hlenB
      simp at hlenB
    · have hD : D.length = 99 := by
        rw [hdeck] at hlenB
        simpa using hlenB
      refine ⟨{ drawPile := D, discardPile := [top], hands := [],
                currentPlayer := 0, clockwise := true, winnerIndex := -1 }, ?_, rfl, hD, rfl, ?_⟩
      · simp [UNOGame.create, UNOGame.initGame, UNOGame.dealHands, hlast, hdrop]
      · simp [UNOGame.playTurn, handAt]

/-- Witness of C14 as amended: the identity shuffle. -/
theorem invalid_player_count_witness :
    (∀ d : List Card, List.Perm (id d) d) ∧
    (∀ n : Int, n < 0 → UNOGameImpl.create n = none ∧ UNOGame.create n = none) ∧
    (∃ g, (UNOGameImpl.create 0).bind (UNOGameImpl.initGame id) = some g ∧
        g.hands = [] ∧ g.deck.length = 99 ∧ g.discard.length = 1 ∧ g.playTurn = none) ∧
    (∃ s, (UNOGame.create 0).map (UNOGame.initGame id) = some s ∧
        s.hands = [] ∧ s.drawPile.length = 99 ∧ s.discardPile.length = 1 ∧
        UNOGame.playTurn s = none) :=
  ⟨fun d => List.Perm.refl d, invalid_player_count id (fun d => List.Perm.refl d)⟩

/-- Counterexample to C14 as stated, with `numPlayers = 0` and the identity shuffle: in both
engines the constructor and `initialize()` return a state, so no error is reported, and that
state is not the constructed one: the discard pile holds the card Yellow Draw Two and the draw
pile 99 cards. -/
theorem invalid_player_count_counterexample :
    (UNOGameImpl.create 0 =
        some { numPlayers := 0, currentPlayer := 0, direction := 1, winner := -1,
               deck := [], hands := [], discard := [] } ∧
      ((UNOGameImpl.create 0).bind (UNOGameImpl.initGame id)).map
          (fun g => (g.hands, g.deck.length, g.discard)) =
        some ([], 99, [⟨"Yellow", "Draw Two"⟩])) ∧
    (UNOGame.create 0 =
        some { drawPile := [], discardPile := [], hands := [],
               currentPlayer := 0, clockwise := true, winnerIndex := -1 } ∧
      ((UNOGame.create 0).map (UNOGame.initGame id)).map
          (fun s => (s.hands, s.drawPile.length, s.discardPile)) =
        some ([], 99, [⟨"Yellow", "Draw Two"⟩])) := by
  decide

/-- C15 (deck exhaustion during the deal), for 15 or more players and every shuffle that
permutes the deck. In `UNO.cpp` the constructor followed by `initialize()` is undefined: the
deal loop reads `deck.back()` on the empty deck instead of stopping. In
`ayeshamobeen_513958_UNO.cpp` it completes as the claim says: no hand holds more than 7
cards, the hands hold 100 cards together, the draw pile and the discard pile are empty. -/
theorem deal_exhaustion (shuffle : List Card → List Card)
    (hperm : ∀ d, List.Perm (shuffle d) d) (n : Int) (h15 : 15 ≤ n) :
    (UNOGameImpl.create n).bind (UNOGameImpl.initGame shuffle) = none ∧
    ∃ s, (UNOGame.create n).map (UNOGame.initGame shuffle) = some s ∧
      (s.hands.length : Int) = n ∧ (∀ h ∈ s.hands, h.length ≤ 7) ∧
      (s.hands.map List.length).sum = 100 ∧ s.drawPile = [] ∧ s.discardPile = [] :=
  ⟨UNOGameImpl.initGame_undefined shuffle hperm n h15,
    UNOGame.initGame_exhaust shuffle hperm n h15⟩

/-- Witness of C15: fifteen players and the identity shuffle. -/
theorem deal_exhaustion_witness :
    (∀ d : List Card, List.Perm (id d) d) ∧ (15 : Int) ≤ 15 ∧
    (UNOGameImpl.create 15).bind (UNOGameImpl.initGame id) = none ∧
    (∃ s, (UNOGame.create 15).map (UNOGame.initGame id) = some s ∧
      (s.hands.length : Int) = 15 ∧ (∀ h ∈ s.hands, h.length ≤ 7) ∧
      (s.hands.map List.length).sum = 100 ∧ s.drawPile = [] ∧ s.discardPile = []) :=
  ⟨fun d => List.Perm.refl d, by decide,
    deal_exhaustion id (fun d => List.Perm.refl d) 15 (by decide)⟩

/-- C12 (deal order), as amended. For 1 to 14 players and every shuffle that permutes the deck,
number the cards of the shuffled deck 0, 1, 2, ... from the top. After `initialize()` on a
freshly constructed engine, `UNO.cpp` deals round-robin: the hand of player `p` is, in order,
the cards `p`, `p + n`, ..., `p + 6n`. The engine of `ayeshamobeen_513958_UNO.cpp` deals hand
by hand: the hand of player `p` is, in order, the cards `7p`, `7p + 1`, ..., `7p + 6`. In both
engines the starting discard card is the card number `7n`. -/
theorem deal_order (shuffle : List Card → List Card)
    (hperm : ∀ d, List.Perm (shuffle d) d) (n : Int) (h1 : 1 ≤ n) (h14 : n ≤ 14) :
    (∃ g c, (UNOGameImpl.create n).bind (UNOGameImpl.initGame shuffle) = some g ∧
      (shuffle UNOGameImpl.buildDeck).reverse[7 * n.toNat]? = some c ∧ g.discard = [c] ∧
      ∀ p, p < n.toNat → ∃ h, g.hands[p]? = some h ∧ h.length = 7 ∧
        ∀ r, r < 7 → h[r]? = (shuffle UNOGameImpl.buildDeck).reverse[p + r * n.toNat]?) ∧
    (∃ s c, (UNOGame.create n).map (UNOGame.initGame shuffle) = some s ∧
      (shuffle createFullDeck).reverse[7 * n.toNat]? = some c ∧ s.discardPile = [c] ∧
      ∀ p, p < n.toNat → ∃ h, s.hands[p]? = some h ∧ h.length = 7 ∧
        ∀ r, r < 7 → h[r]? = (shuffle createFullDeck).reverse[7 * p + r]?) :=
  ⟨UNOGameImpl.initGame_order shuffle hperm n h1 h14,
    UNOGame.initGameB_order shuffle hperm n h1 h14⟩

/-- Witness of C12 as amended: three players, the deck shuffled by reversal. -/
theorem deal_order_witness :
    (∀ d : List Card, List.Perm (List.reverse d) d) ∧ (1 : Int) ≤ 3 ∧ (3 : Int) ≤ 14 ∧
    (∃ g c, (UNOGameImpl.create 3).bind (UNOGameImpl.initGame List.reverse) = some g ∧
      (List.reverse UNOGameImpl.buildDeck).reverse[7 * (3 : Int).toNat]? = some c ∧
      g.discard = [c] ∧
      ∀ p, p < (3 : Int).toNat → ∃ h, g.hands[p]? = some h ∧ h.length = 7 ∧
        ∀ r, r < 7 →
          h[r]? = (List.reverse UNOGameImpl.buildDeck).reverse[p + r * (3 : Int).toNat]?) ∧
    (∃ s c, (UNOGame.create 3).map (UNOGame.initGame List.reverse) = some s ∧
      (List.reverse createFullDeck).reverse[7 * (3 : Int).toNat]? = some c ∧
      s.discardPile = [c] ∧
      ∀ p, p < (3 : Int).toNat → ∃ h, s.hands[p]? = some h ∧ h.length = 7 ∧
        ∀ r, r < 7 → h[r]? = (List.reverse createFullDeck).reverse[7 * p + r]?) :=
  ⟨fun d => List.reverse_perm d, by decide, by decide,
    deal_order List.reverse (fun d => List.reverse_perm d) 3 (by decide) (by decide)⟩

/-- Counterexample to C12 as stated: two players, the deck left in the order of construction
(top card first: Yellow Draw Two, Yellow Draw Two, Yellow Reverse, Yellow Reverse, ...). Card
number 2 is a Yellow Reverse. `UNO.cpp` deals it to player 0 as second card; the engine of
`ayeshamobeen_513958_UNO.cpp` gives player 0 the cards 0 to 6, so the second card of the hand is
card number 1, a Yellow Draw Two, and card number 2 is the third card of the same hand. -/
theorem deal_order_counterexample :
    createFullDeck.reverse[0 + 1 * 2]? = some ⟨"Yellow", "Reverse"⟩ ∧
    ((UNOGameImpl.create 2).bind (UNOGameImpl.initGame id)).map
        (fun g => g.hands.map (fun h => h[1]?)) =
      some [some ⟨"Yellow", "Reverse"⟩, some ⟨"Yellow", "Reverse"⟩] ∧
    ((UNOGame.create 2).map (UNOGame.initGame id)).map
        (fun s => s.hands.map (fun h => h[1]?)) =
      some [some ⟨"Yellow", "Draw Two"⟩, some ⟨"Yellow", "8"⟩] ∧
    ((UNOGame.create 2).map (UNOGame.initGame id)).map (fun s => s.hands[0]?) =
      some (some ((createFullDeck.reverse).take 7)) := by
  decide

/-- C20 (the two engines agree turn by turn). Take any well-formed state of `UNO.cpp` with no
winner, a non-empty discard pile and all hands non-empty, and the state of
`ayeshamobeen_513958_UNO.cpp` with the same hands, piles, current player and direction. One
`playTurn()` of each engine returns, with the same hands, the same draw pile, the same discard
pile, the same direction and the same winner. The current player is the same too, unless the
turn ends the game or the played card (the card the turn appends to the discard pile) is a
Reverse in a game of two players. -/
theorem engines_agree (g : UNOGameImpl) (hwf : g.WF) (hwin : g.winner = -1)
    (hdis : g.discard ≠ []) (hne : ∀ h ∈ g.hands, h ≠ []) :
    ∃ g2 s2, g.playTurn = some g2 ∧ UNOGame.playTurn (toB g) = some s2 ∧
      s2.hands = g2.hands ∧ s2.drawPile = g2.deck ∧ s2.discardPile = g2.discard ∧
      s2.direction = g2.direction ∧ s2.winnerIndex = g2.winner ∧
      (g2.winner = -1 →
        ¬ (g.numPlayers = 2 ∧ ∃ c, g2.discard = g.discard ++ [c] ∧ c.value = "Reverse") →
        s2.currentPlayer = g2.currentPlayer) := by
  obtain ⟨g2, s2, played, hA, hB, h1, h2, h3, h4, h5, hcur, hdisc, -, -⟩ :=
    turn_both g hwf hwin hdis hne
  refine ⟨g2, s2, hA, hB, h1, h2, h3, h4, h5, ?_⟩
  intro hw hrev
  apply hcur hw
  rintro ⟨hn2, c, hc, hv⟩
  apply hrev
  refine ⟨hn2, c, ?_, hv⟩
  rw [hdisc, hc]
  rfl

/-- Witness of C20: the state `policyBefore`, in which the player of the turn holds no matching
card and draws a matching one. -/
theorem engines_agree_witness :
    policyBefore.WF ∧ policyBefore.winner = -1 ∧ policyBefore.discard ≠ [] ∧
    (∀ h ∈ policyBefore.hands, h ≠ []) ∧
    ∃ g2 s2, policyBefore.playTurn = some g2 ∧ UNOGame.playTurn (toB policyBefore) = some s2 ∧
      s2.hands = g2.hands ∧ s2.drawPile = g2.deck ∧ s2.discardPile = g2.discard ∧
      s2.direction = g2.direction ∧ s2.winnerIndex = g2.winner ∧
      (g2.winner = -1 →
        ¬ (policyBefore.numPlayers = 2 ∧
            ∃ c, g2.discard = policyBefore.discard ++ [c] ∧ c.value = "Reverse") →
        s2.currentPlayer = g2.currentPlayer) :=
  ⟨by decide, by decide, by decide, by decide,
    engines_agree policyBefore (by decide) (by decide) (by decide) (by decide)⟩

/-- C16 (termination), as amended. For 2 to 14 players and every shuffle that permutes the
deck, in both engines: after `initialize()` and at most `(199 - 7n) * n` calls of `playTurn()`
the game is over or stuck, where stuck means no winner, no empty hand, an empty draw pile and
no hand with a card that matches the top of the discard pile. A game that is over stays as it
is. In a game that is stuck every further `playTurn()` changes nothing but `currentPlayer`,
which moves one step in the direction of play: after `j` further calls the state is the stuck
state with `currentPlayer` moved by `j` steps, every hand, both piles, the direction and the
winner as they were; the game stays stuck and is never over. -/
theorem bounded_or_stuck (shuffle : List Card → List Card)
    (hperm : ∀ d, List.Perm (shuffle d) d) (n : Int) (h2 : 2 ≤ n) (h14 : n ≤ 14) :
    (∃ k g, k ≤ (199 - 7 * n.toNat) * n.toNat ∧ UNOGameImpl.run shuffle n k = some g ∧
      (g.isGameOver = true ∨ g.Stuck)) ∧
    (∃ k s, k ≤ (199 - 7 * n.toNat) * n.toNat ∧ UNOGame.run shuffle n k = some s ∧
      (UNOGame.isGameOver s = true ∨ s.Stuck)) ∧
    (∀ k g, UNOGameImpl.run shuffle n k = some g →
      (g.isGameOver = true → ∀ j, UNOGameImpl.run shuffle n (k + j) = some g) ∧
      (g.Stuck → ∀ j, ∃ g2, UNOGameImpl.run shuffle n (k + j) = some g2 ∧ g2.Stuck ∧
        g2.isGameOver = false ∧
        g2 = { g with currentPlayer :=
          (g.currentPlayer + (j : Int) * g.direction) % g.numPlayers } ∧
        g2.playTurn = some { g2 with currentPlayer :=
          (g2.currentPlayer + g2.direction) % g2.numPlayers })) ∧
    (∀ k s, UNOGame.run shuffle n k = some s →
      (UNOGame.isGameOver s = true → ∀ j, UNOGame.run shuffle n (k + j) = some s) ∧
      (s.Stuck → ∀ j, ∃ s2, UNOGame.run shuffle n (k + j) = some s2 ∧ s2.Stuck ∧
        UNOGame.isGameOver s2 = false ∧
        s2 = { s with currentPlayer :=
          (s.currentPlayer + (j : Int) * s.direction) % (s.hands.length : Int) } ∧
        UNOGame.playTurn s2 = some { s2 with currentPlayer :=
          (s2.currentPlayer + s2.direction) % (s2.hands.length : Int) })) := by
  refine ⟨UNOGameImpl.bounded_run shuffle hperm n h2 h14,
    UNOGame.boundedB_run shuffle hperm n (by omega) h14, ?_, ?_⟩
  · intro k g hrun
    constructor
    · intro hover j
      exact UNOGameImpl.run_over shuffle n k hrun
        (by simpa [UNOGameImpl.isGameOver] using hover) j
    · intro hs j
      obtain ⟨hg2, hs2⟩ := UNOGameImpl.run_stuck_frame shuffle n k hrun hs j
      exact ⟨_, hg2, hs2, by simp [UNOGameImpl.isGameOver, hs.2.1], rfl,
        (UNOGameImpl.stuck_turn hs2).1⟩
  · intro k s hrun
    constructor
    · intro hover j
      exact UNOGame.runB_over shuffle n k hrun
        (by simpa [UNOGame.isGameOver] using hover) j
    · intro hs j
      obtain ⟨hg2, hs2⟩ := UNOGame.runB_stuck_frame shuffle n k hrun hs j
      exact ⟨_, hg2, hs2, by simp [UNOGame.isGameOver, hs.2.1], rfl,
        (UNOGame.stuckB_turn hs2).1⟩

/-- Witness of C16 as amended: three players, the deck shuffled by reversal. -/
theorem bounded_or_stuck_witness :
    (∀ d : List Card, List.Perm (List.reverse d) d) ∧ (2 : Int) ≤ 3 ∧ (3 : Int) ≤ 14 ∧
    ((∃ k g, k ≤ (199 - 7 * (3 : Int).toNat) * (3 : Int).toNat ∧
      UNOGameImpl.run List.reverse 3 k = some g ∧ (g.isGameOver = true ∨ g.Stuck)) ∧
    (∃ k s, k ≤ (199 - 7 * (3 : Int).toNat) * (3 : Int).toNat ∧
      UNOGame.run List.reverse 3 k = some s ∧ (UNOGame.isGameOver s = true ∨ s.Stuck)) ∧
    (∀ k g, UNOGameImpl.run List.reverse 3 k = some g →
      (g.isGameOver = true → ∀ j, UNOGameImpl.run List.reverse 3 (k + j) = some g) ∧
      (g.Stuck → ∀ j, ∃ g2, UNOGameImpl.run List.reverse 3 (k + j) = some g2 ∧ g2.Stuck ∧
        g2.isGameOver = false ∧
        g2 = { g with currentPlayer :=
          (g.currentPlayer + (j : Int) * g.direction) % g.numPlayers } ∧
        g2.playTurn = some { g2 with currentPlayer :=
          (g2.currentPlayer + g2.direction) % g2.numPlayers })) ∧
    (∀ k s, UNOGame.run List.reverse 3 k = some s →
      (UNOGame.isGameOver s = true → ∀ j, UNOGame.run List.reverse 3 (k + j) = some s) ∧
      (s.Stuck → ∀ j, ∃ s2, UNOGame.run List.reverse 3 (k + j) = some s2 ∧ s2.Stuck ∧
        UNOGame.isGameOver s2 = false ∧
        s2 = { s with currentPlayer :=
          (s.currentPlayer + (j : Int) * s.direction) % (s.hands.length : Int) } ∧
        UNOGame.playTurn s2 = some { s2 with currentPlayer :=
          (s2.currentPlayer + s2.direction) % (s2.hands.length : Int) }))) :=
  ⟨fun d => List.reverse_perm d, by decide, by decide,
    bounded_or_stuck List.reverse (fun d => List.reverse_perm d) 3 (by decide) (by decide)⟩

/-- Counterexample to C16 as stated: ten players and the deck order `stuckShuffle`, a
permutation of the deck. `UNO.cpp` is stuck after 45 turns and the engine of
`ayeshamobeen_513958_UNO.cpp` after 47 turns; in both engines `isGameOver()` is false after
every number of calls of `playTurn()`. -/
theorem termination_counterexample :
    (∀ d : List Card, List.Perm (stuckShuffle d) d) ∧
    (∃ g, UNOGameImpl.run stuckShuffle 10 45 = some g ∧ g.Stuck) ∧
    (∀ k, ∃ g, UNOGameImpl.run stuckShuffle 10 k = some g ∧ g.isGameOver = false) ∧
    (∃ s, UNOGame.run stuckShuffle 10 47 = some s ∧ s.Stuck) ∧
    (∀ k, ∃ s, UNOGame.run stuckShuffle 10 k = some s ∧ UNOGame.isGameOver s = false) := by
  have hA : ∃ g, UNOGameImpl.run stuckShuffle 10 45 = some g ∧ g.Stuck := by
    have h := UNOGameImpl.stuck_game
    cases hr : UNOGameImpl.run stuckShuffle 10 45 with
    | none =>
      rw [hr] at h
      simp at h
    | some g =>
      rw [hr] at h
      exact ⟨g, rfl, by simpa using h⟩
  have hB : ∃ s, UNOGame.run stuckShuffle 10 47 = some s ∧ s.Stuck := by
    have h := UNOGame.stuckB_game
    cases hr : UNOGame.run stuckShuffle 10 47 with
    | none =>
      rw [hr] at h
      simp at h
    | some s =>
      rw [hr] at h
      exact ⟨s, rfl, by simpa using h⟩
  obtain ⟨g, hg, hsg⟩ := hA
  obtain ⟨s, hs, hss⟩ := hB
  exact ⟨stuckShuffle_perm, ⟨g, hg, hsg⟩,
    UNOGameImpl.never_over stuckShuffle stuckShuffle_perm 10 (by decide) (by decide) 45 hg hsg,
    ⟨s, hs, hss⟩,
    UNOGame.neverB_over stuckShuffle stuckShuffle_perm 10 (by decide) (by decide) 47 hs hss⟩

/-- C21 (the action-priority pass is dead code). In both engines, for every hand and top card:
when the colour pass and the label pass find no card, the third pass (Skip, Reverse, Draw Two
matching the top card by colour or label) finds no card either; a card is selected if and only
if some card of the hand has the colour or the label of the top card; and a `playTurn()` that
returns leaves the discard pile as it was or appends exactly one card, which matches the
previous top card by colour or label. -/
theorem action_pass_dead :
    (∀ (top : Card) (hand : List Card),
      findFirst (fun c => decide (c.color = top.color)) hand = none →
      findFirst (fun c => decide (c.value = top.value)) hand = none →
      UNOGameImpl.findAction top hand actions = none ∧ findActionB top hand actions = none) ∧
    (∀ (g : UNOGameImpl) (player : Int) (top : Card) (hand : List Card),
      handAt g.hands player = some hand →
      ∃ r, g.tryPlayFromHand player top = some r ∧
        (r.2.isSome = true ↔ ∃ c ∈ hand, Matches top c)) ∧
    (∀ (top : Card) (hand : List Card),
      (selectCard top hand).isSome = true ↔ ∃ c ∈ hand, Matches top c) ∧
    (∀ g g2 : UNOGameImpl, g.playTurn = some g2 →
      g2.discard = g.discard ∨
        ∃ top card, g.discard.getLast? = some top ∧ g2.discard = g.discard ++ [card] ∧
          Matches top card) ∧
    (∀ s s2 : HiddenState, UNOGame.playTurn s = some s2 →
      s2.discardPile = s.discardPile ∨
        ∃ top card, s.discardPile.getLast? = some top ∧
          s2.discardPile = s.discardPile ++ [card] ∧ Matches top card) := by
  have hsel : ∀ (top : Card) (hand : List Card),
      (selectCard top hand).isSome = true ↔ ∃ c ∈ hand, Matches top c := by
    intro top hand
    cases h : selectCard top hand with
    | none =>
      have := selectCard_eq_none.1 h
      simp only [Option.isSome_none, Bool.false_eq_true, false_iff, not_exists, not_and]
      exact this
    | some r =>
      simp only [Option.isSome_some, true_iff]
      by_contra hno
      have : selectCard top hand = none :=
        selectCard_eq_none.2 (fun x hx hm => hno ⟨x, hx, hm⟩)
      rw [h] at this
      exact Option.noConfusion this
  refine ⟨?_, ?_, hsel, fun g g2 h => UNOGameImpl.playTurn_played h,
    fun s s2 h => UNOGame.playTurnB_played h⟩
  · intro top hand h1 h2
    have hB : findActionB top hand actions = none := by
      rw [findActionB_eq_none]
      intro a _ x hx hm
      have hc := findFirst_eq_none.1 h1 x hx
      have hv := findFirst_eq_none.1 h2 x hx
      simp only [decide_eq_false_iff_not] at hc hv
      rcases hm.2 with hm1 | hm1
      · exact hc hm1
      · exact hv hm1
    exact ⟨by rw [findAction_eq]; exact hB, hB⟩
  · intro g player top hand hh
    refine ⟨_, tryPlayFromHand_eq g player top hand hh, ?_⟩
    rw [← hsel top hand]
    cases selectCard top hand with
    | none => rfl
    | some r => rfl

/-- Witness of C21: the hand `policyHand` against the top card Red 5 holds a Blue Skip, which
no pass selects; the turn of `policyBefore` appends the drawn Red 3, which matches Red 5. -/
theorem action_pass_dead_witness :
    findFirst (fun c => decide (c.color = "Red")) policyHand = none ∧
    findFirst (fun c => decide (c.value = "5")) policyHand = none ∧
    (UNOGameImpl.findAction ⟨"Red", "5"⟩ policyHand actions = none ∧
      findActionB ⟨"Red", "5"⟩ policyHand actions = none) ∧
    policyBefore.playTurn = some policyAfter ∧
    (policyAfter.discard = policyBefore.discard ∨
      ∃ top card, policyBefore.discard.getLast? = some top ∧
        policyAfter.discard = policyBefore.discard ++ [card] ∧ Matches top card) :=
  ⟨by decide, by decide,
    action_pass_dead.1 ⟨"Red", "5"⟩ policyHand (by decide) (by decide),
    by decide,
    action_pass_dead.2.2.2.1 policyBefore policyAfter (by decide)⟩

end UNO

namespace Editors

/-! ## The claim about the text editors -/

/-- C22 (the two editors return the same text), evaluated. On new editors the calls
`insertChar('a')`, `moveLeft()`, `moveLeft()` return "a|", "|a", "a|" in
`TextEditorFunctions.cpp` and "a|", "|a", "|a" in `ayeshamobeen_513958_TextEditor.cpp`: the
second `moveLeft()`, made with the cursor at the beginning of the text "a", moves the cursor
of the linked-list editor to the end. With a longer text, "ab", the same happens. A
`moveRight()` at the end leaves the cursor at the end in both editors. -/
theorem editors_evaluated :
    TextEditorConcrete.outputs TextEditorConcrete.create
        [Op.insertChar 'a', Op.moveLeft, Op.moveLeft] = some ["a|", "|a", "a|"] ∧
    TextEditor.outputs none
        [Op.insertChar 'a', Op.moveLeft, Op.moveLeft] = some ["a|", "|a", "|a"] ∧
    TextEditorConcrete.outputs TextEditorConcrete.create
        [Op.insertChar 'a', Op.insertChar 'b', Op.moveLeft, Op.moveLeft, Op.moveLeft,
          Op.insertChar 'c'] =
      some ["a|", "ab|", "a|b", "|ab", "ab|", "abc|"] ∧
    TextEditor.outputs none
        [Op.insertChar 'a', Op.insertChar 'b', Op.moveLeft, Op.moveLeft, Op.moveLeft,
          Op.insertChar 'c'] =
      some ["a|", "ab|", "a|b", "|ab", "|ab", "c|ab"] ∧
    TextEditorConcrete.outputs TextEditorConcrete.create
        [Op.insertChar 'a', Op.moveRight] = some ["a|", "a|"] ∧
    TextEditor.outputs none [Op.insertChar 'a', Op.moveRight] = some ["a|", "a|"] := by
  decide

end Editors

namespace Poly

/-! ## Maps of terms in canonical form -/

theorem addTo_mem {t : Terms} {e c : Int} {x : Int × Int} (h : x ∈ addTo t e c) :
    x ∈ t ∨ x.1 = e := by
  induction t with
  | nil =>
    simp only [addTo, List.mem_singleton] at h
    right
    rw [h]
  | cons a t ih =>
    obtain ⟨e1, c1⟩ := a
    simp only [addTo] at h
    by_cases h1 : e1 = e
    · rw [if_pos h1] at h
      rcases List.mem_cons.1 h with hx | hx
      · right
        rw [hx]
        exact h1
      · left
        exact List.mem_cons_of_mem _ hx
    · rw [if_neg h1] at h
      by_cases h2 : e1 < e
      · rw [if_pos h2] at h
        rcases List.mem_cons.1 h with hx | hx
        · right
          rw [hx]
        · left
          exact hx
      · rw [if_neg h2] at h
        rcases List.mem_cons.1 h with hx | hx
        · left
          rw [hx]
          exact List.mem_cons_self _ _
        · rcases ih hx with h3 | h3
          · left
            exact List.mem_cons_of_mem _ h3
          · right
            exact h3

/-- With no entry of key `k` in the map, `terms[k] += v` leaves the old terms and adds the
term of key `k` and value `0 + v`. -/
theorem addTo_mem_new {t : Terms} {k v : Int} {x : Int × Int} (hk : ∀ y ∈ t, y.1 ≠ k)
    (h : x ∈ addTo t k v) : x ∈ t ∨ x = (k, 0 + v) := by
  induction t with
  | nil =>
    simp only [addTo, List.mem_singleton] at h
    exact Or.inr h
  | cons a t ih =>
    obtain ⟨e1, c1⟩ := a
    have h1 : e1 ≠ k := hk (e1, c1) (List.mem_cons_self _ _)
    simp only [addTo] at h
    rw [if_neg h1] at h
    by_cases h2 : e1 < k
    · rw [if_pos h2] at h
      rcases List.mem_cons.1 h with hx | hx
      · exact Or.inr hx
      · exact Or.inl hx
    · rw [if_neg h2] at h
      rcases List.mem_cons.1 h with hx | hx
      · left
        rw [hx]
        exact List.mem_cons_self _ _
      · rcases ih (fun y hy => hk y (List.mem_cons_of_mem _ hy)) hx with h3 | h3
        · exact Or.inl (List.mem_cons_of_mem _ h3)
        · exact Or.inr h3

theorem addTo_pairwise {t : Terms} (e c : Int) (h : t.Pairwise (fun a b => a.1 > b.1)) :
    (addTo t e c).Pairwise (fun a b => a.1 > b.1) := by
  induction t with
  | nil => simp [addTo]
  | cons a t ih =>
    obtain ⟨e1, c1⟩ := a
    rw [List.pairwise_cons] at h
    obtain ⟨hlt, hp⟩ := h
    simp only [addTo]
    by_cases h1 : e1 = e
    · rw [if_pos h1, List.pairwise_cons]
      exact ⟨hlt, hp⟩
    · rw [if_neg h1]
      by_cases h2 : e1 < e
      · rw [if_pos h2, List.pairwise_cons, List.pairwise_cons]
        refine ⟨?_, hlt, hp⟩
        intro b hb
        rcases List.mem_cons.1 hb with hx | hx
        · rw [hx]
          exact h2
        · have := hlt b hx
          show e > b.1
          omega
      · rw [if_neg h2, List.pairwise_cons]
        refine ⟨?_, ih hp⟩
        intro b hb
        rcases addTo_mem hb with hx | hx
        · exact hlt b hx
        · show e1 > b.1
          rw [hx]
          omega

theorem valueAt_of_mem {t : Terms} {e c : Int} (h : t.Pairwise (fun a b => a.1 > b.1))
    (hm : (e, c) ∈ t) : valueAt t e = c := by
  induction t with
  | nil => simp at hm
  | cons a t ih =>
    obtain ⟨e1, c1⟩ := a
    rw [List.pairwise_cons] at h
    obtain ⟨hlt, hp⟩ := h
    simp only [valueAt]
    rcases List.mem_cons.1 hm with hx | hx
    · simp only [Prod.mk.injEq] at hx
      rw [if_pos hx.1.symm, hx.2]
    · have := hlt (e, c) hx
      have hne : e1 ≠ e := by
        intro he
        rw [he] at this
        exact lt_irrefl _ this
      rw [if_neg hne]
      exact ih hp hx

theorem canon_nil : Canon [] :=
  ⟨List.Pairwise.nil, fun p hp => absurd hp (List.not_mem_nil p)⟩

/-- The statements `terms[e] += c; if (terms[e] == 0) terms.erase(e);` keep the canonical
form, for an exponent `e` that is not negative. -/
theorem addErase_canon {t : Terms} (e c : Int) (h : Canon t) (he : 0 ≤ e) :
    Canon (addErase t e c) := by
  obtain ⟨hp, hall⟩ := h
  have hp1 := addTo_pairwise e c hp
  unfold addErase
  by_cases hz : valueAt (addTo t e c) e = 0
  · simp only [hz, if_true, eraseKey]
    refine ⟨hp1.filter _, ?_⟩
    intro p hmem
    rw [List.mem_filter] at hmem
    obtain ⟨hm, hne⟩ := hmem
    simp only [ne_eq, decide_not, Bool.not_eq_true', decide_eq_false_iff_not] at hne
    rcases addTo_mem hm with h1 | h1
    · exact hall p h1
    · exact absurd h1 hne
  · simp only [hz, if_false]
    refine ⟨hp1, ?_⟩
    intro p hm
    rcases addTo_mem hm with h1 | h1
    · exact hall p h1
    · obtain ⟨pe, pc⟩ := p
      simp only at h1
      subst h1
      have hv : valueAt (addTo t pe c) pe = pc := valueAt_of_mem hp1 hm
      exact ⟨by rw [← hv]; exact hz, he⟩

theorem addAll_canon {rt : Terms} (src : Terms) (h : Canon rt) (hs : ∀ p ∈ src, 0 ≤ p.1) :
    Canon (addAll rt src) := by
  induction src generalizing rt with
  | nil => exact h
  | cons a src ih =>
    obtain ⟨e, c⟩ := a
    simp only [addAll]
    exact ih (addErase_canon e c h (hs (e, c) (List.mem_cons_self _ _)))
      (fun p hp => hs p (List.mem_cons_of_mem _ hp))

theorem mulRow_canon {rt : Terms} (ea ca : Int) (tb : Terms) (h : Canon rt) (ha : 0 ≤ ea)
    (hb : ∀ p ∈ tb, 0 ≤ p.1) : Canon (mulRow rt ea ca tb) := by
  induction tb generalizing rt with
  | nil => exact h
  | cons b tb ih =>
    obtain ⟨eb, cb⟩ := b
    simp only [mulRow]
    have := hb (eb, cb) (List.mem_cons_self _ _)
    exact ih (addErase_canon (ea + eb) (ca * cb) h (by simp only at this; omega))
      (fun p hp => hb p (List.mem_cons_of_mem _ hp))

theorem mulAll_canon {rt : Terms} (tb ta : Terms) (h : Canon rt) (ha : ∀ p ∈ ta, 0 ≤ p.1)
    (hb : ∀ p ∈ tb, 0 ≤ p.1) : Canon (mulAll rt tb ta) := by
  induction ta generalizing rt with
  | nil => exact h
  | cons a ta ih =>
    obtain ⟨ea, ca⟩ := a
    simp only [mulAll]
    exact ih (mulRow_canon ea ca tb h (ha (ea, ca) (List.mem_cons_self _ _)) hb)
      (fun p hp => ha p (List.mem_cons_of_mem _ hp))

/-- The loop of `derivative` keeps the canonical form of `rt` when no key of `rt` is an
exponent of `src` less one: every term is then written to a new entry. -/
theorem derivAll_canon {rt : Terms} (src : Terms) (h : Canon rt) (hs : Canon src)
    (hd : ∀ y ∈ rt, ∀ s ∈ src, y.1 ≠ s.1 - 1) : Canon (derivAll rt src) := by
  induction src generalizing rt with
  | nil => exact h
  | cons a src ih =>
    obtain ⟨e, c⟩ := a
    obtain ⟨hsp, hsall⟩ := hs
    rw [List.pairwise_cons] at hsp
    obtain ⟨hlt, hsp2⟩ := hsp
    have hs2 : Canon src := ⟨hsp2, fun p hp => hsall p (List.mem_cons_of_mem _ hp)⟩
    have hc : c ≠ 0 := (hsall (e, c) (List.mem_cons_self _ _)).1
    simp only [derivAll]
    by_cases hpos : e > 0
    · rw [if_pos hpos]
      have hnew : ∀ y ∈ rt, y.1 ≠ e - 1 := fun y hy => hd y hy (e, c) (List.mem_cons_self _ _)
      apply ih _ hs2
      · intro y hy s hsm
        rcases addTo_mem_new hnew hy with h1 | h1
        · exact hd y h1 s (List.mem_cons_of_mem _ hsm)
        · rw [h1]
          have := hlt s hsm
          show e - 1 ≠ s.1 - 1
          simp only at this
          omega
      · refine ⟨addTo_pairwise _ _ h.1, ?_⟩
        intro p hp
        rcases addTo_mem_new hnew hp with h1 | h1
        · exact h.2 p h1
        · rw [h1]
          refine ⟨?_, by show 0 ≤ e - 1; omega⟩
          show 0 + c * e ≠ 0
          rw [zero_add]
          exact mul_ne_zero hc (ne_of_gt hpos)
    · rw [if_neg hpos]
      exact ih h hs2 (fun y hy s hsm => hd y hy s (List.mem_cons_of_mem _ hsm))

/-! ## The storage keeps every map in canonical form -/

theorem entry_canon {st : Storage} (h : ∀ a t, st a = some t → Canon t) (a : Nat) :
    Canon (entry st a) := by
  unfold entry
  cases hs : st a with
  | none => exact canon_nil
  | some t => exact h a t hs

theorem setEntry_canon {st : Storage} (h : ∀ a t, st a = some t → Canon t) (r : Nat)
    {rt : Terms} (hrt : Canon rt) : ∀ a t, setEntry st r rt a = some t → Canon t := by
  intro a t ha
  unfold setEntry at ha
  by_cases har : a = r
  · rw [if_pos har] at ha
    rw [← Option.some.inj ha]
    exact hrt
  · rw [if_neg har] at ha
    exact h a t ha

theorem insertTerm_canon {st : Storage} (h : ∀ a t, st a = some t → Canon t) (self : Nat)
    (c e : Int) : ∀ a t, insertTerm st self c e a = some t → Canon t := by
  unfold insertTerm
  by_cases he : e < 0
  · rw [if_pos he]
    exact h
  · rw [if_neg he]
    exact setEntry_canon h self (addErase_canon e c (entry_canon h self) (by omega))

theorem add_canon {st : Storage} (h : ∀ a t, st a = some t → Canon t)
    (self other result : Nat) : ∀ a t, add st self other result a = some t → Canon t := by
  have h0 := setEntry_canon h result (entry_canon h result)
  have hrt1 : Canon (match setEntry st result (entry st result) self with
      | some t => addAll (entry (setEntry st result (entry st result)) result) t
      | none => entry (setEntry st result (entry st result)) result) := by
    cases hs : setEntry st result (entry st result) self with
    | none => exact entry_canon h0 result
    | some t => exact addAll_canon t (entry_canon h0 result) (fun p hp => ((h0 self t hs).2 p hp).2)
  have h1 := setEntry_canon h0 result hrt1
  unfold add
  apply setEntry_canon h1
  cases hs : setEntry (setEntry st result (entry st result)) result
      (match setEntry st result (entry st result) self with
        | some t => addAll (entry (setEntry st result (entry st result)) result) t
        | none => entry (setEntry st result (entry st result)) result) other with
  | none => exact hrt1
  | some t => exact addAll_canon t hrt1 (fun p hp => ((h1 other t hs).2 p hp).2)

theorem multiply_canon {st : Storage} (h : ∀ a t, st a = some t → Canon t)
    (self other result : Nat) :
    ∀ a t, multiply st self other result a = some t → Canon t := by
  have h0 := setEntry_canon h result (entry_canon h result)
  unfold multiply
  cases hs : setEntry st result (entry st result) self with
  | none => exact h0
  | some ta =>
    cases ho : setEntry st result (entry st result) other with
    | none => exact h0
    | some tb =>
      exact setEntry_canon h0 result
        (mulAll_canon tb ta (entry_canon h0 result) (fun p hp => ((h0 self ta hs).2 p hp).2)
          (fun p hp => ((h0 other tb ho).2 p hp).2))

/-- The result of `derivative` is in canonical form when the result object holds no terms
at the call. -/
theorem derivative_canon {st : Storage} (h : ∀ a t, st a = some t → Canon t)
    (self result : Nat) (hempty : entry st result = []) :
    ∀ a t, derivative st self result a = some t → Canon t := by
  have h0 := setEntry_canon h result (entry_canon h result)
  have he0 : entry (setEntry st result (entry st result)) result = [] := by
    rw [hempty]
    simp [entry, setEntry]
  unfold derivative
  cases hs : setEntry st result (entry st result) self with
  | none => exact h0
  | some t =>
    apply setEntry_canon h0
    rw [he0]
    exact derivAll_canon t canon_nil (h0 self t hs)
      (fun y hy => absurd hy (List.not_mem_nil y))

theorem exec_canon {st : Storage} (h : ∀ a t, st a = some t → Canon t) (c : Call)
    (hnew : newResult st c = true) : ∀ a t, exec st c a = some t → Canon t := by
  cases c with
  | insertTerm self c e => exact insertTerm_canon h self c e
  | add self other result => exact add_canon h self other result
  | multiply self other result => exact multiply_canon h self other result
  | derivative self result =>
    simp only [newResult, Bool.and_eq_true, decide_eq_true_eq] at hnew
    exact derivative_canon h self result hnew.2

theorem run_canon (cs : List Call) {st : Storage} (h : ∀ a t, st a = some t → Canon t)
    (hnew : allNew st cs = true) : ∀ a t, run st cs a = some t → Canon t := by
  induction cs generalizing st with
  | nil => exact h
  | cons c cs ih =>
    simp only [allNew, Bool.and_eq_true] at hnew
    exact ih (exec_canon h c hnew.1) hnew.2

/-! ## The text of a polynomial in canonical form -/

theorem toDigitsCore_length_le (b f n : Nat) (ds : List Char) :
    ds.length ≤ (Nat.toDigitsCore b f n ds).length := by
  induction f generalizing n ds with
  | zero => simp [Nat.toDigitsCore]
  | succ f ih =>
    simp only [Nat.toDigitsCore]
    by_cases h : n / b = 0
    · rw [if_pos h]
      simp
    · rw [if_neg h]
      have := ih (n / b) (Nat.digitChar (n % b) :: ds)
      simp only [List.length_cons] at this
      omega

theorem toDigits_length_pos (n : Nat) : 0 < (Nat.toDigits 10 n).length := by
  simp only [Nat.toDigits, Nat.toDigitsCore]
  by_cases h : n / 10 = 0
  · rw [if_pos h]
    simp
  · rw [if_neg h]
    have := toDigitsCore_length_le 10 n (n / 10) [Nat.digitChar (n % 10)]
    simp only [List.length_singleton] at this
    omega

/-- The decimal digits of a number other than 0 are not the single digit 0. -/
theorem toDigits_ne_zero {n : Nat} (hn : n ≠ 0) : Nat.toDigits 10 n ≠ ['0'] := by
  simp only [Nat.toDigits, Nat.toDigitsCore]
  by_cases h : n / 10 = 0
  · rw [if_pos h]
    have hlt : n < 10 := by omega
    interval_cases n <;> first | exact absurd rfl hn | decide
  · rw [if_neg h]
    obtain ⟨m, rfl⟩ : ∃ m, n = m + 1 := ⟨n - 1, by omega⟩
    simp only [Nat.toDigitsCore]
    intro heq
    have hlen := congrArg List.length heq
    by_cases h2 : (m + 1) / 10 / 10 = 0
    · rw [if_pos h2] at hlen
      simp at hlen
    · rw [if_neg h2] at hlen
      have := toDigitsCore_length_le 10 m ((m + 1) / 10 / 10)
        [Nat.digitChar ((m + 1) / 10 % 10), Nat.digitChar ((m + 1) % 10)]
      simp only [List.length_cons, List.length_nil, List.length_singleton] at this hlen
      omega

theorem ne_of_two_le {l : List Char} (h : 2 ≤ l.length) : l ≠ [] ∧ l ≠ ['0'] := by
  constructor
  · intro he
    rw [he] at h
    simp at h
  · intro he
    rw [he] at h
    simp at h

/-- The text of the first term, with a coefficient other than 0 and whatever follows it, is
neither empty nor the single digit 0. -/
theorem termText_first {e c : Int} (hc : c ≠ 0) (R : List Char) :
    termText true e c ++ R ≠ [] ∧ termText true e c ++ R ≠ ['0'] := by
  unfold termText
  by_cases hneg : c < 0
  · simp only [hneg, decide_True, if_true, List.cons_append, List.nil_append]
    constructor
    · exact List.cons_ne_nil _ _
    · intro h
      have := (List.cons.inj h).1
      exact absurd this (by decide)
  · have hpos : 0 < c := by omega
    have hshow : showInt c = Nat.toDigits 10 c.natAbs := by
      unfold showInt
      rw [if_neg hneg]
    have hnat : c.natAbs ≠ 0 := by omega
    have hd := toDigits_length_pos c.natAbs
    simp only [hneg, decide_False, Bool.false_eq_true, if_false, if_true, List.nil_append]
    by_cases h0 : e = 0
    · rw [if_pos h0, hshow]
      constructor
      · intro h
        have := congrArg List.length h
        simp only [List.length_append, List.length_nil] at this
        omega
      · intro h
        have hl := congrArg List.length h
        simp only [List.length_append, List.length_singleton] at hl
        have hR : R = [] := List.eq_nil_of_length_eq_zero (by omega)
        rw [hR, List.append_nil] at h
        exact toDigits_ne_zero hnat h
    · rw [if_neg h0]
      by_cases h1 : e = 1
      · rw [if_pos h1]
        by_cases hc1 : c = 1
        · simp only [hc1, ne_eq, not_true_eq_false, if_false, List.nil_append,
            List.cons_append]
          constructor
          · exact List.cons_ne_nil _ _
          · intro h
            have := (List.cons.inj h).1
            exact absurd this (by decide)
        · apply ne_of_two_le
          simp only [ne_eq, hc1, not_false_eq_true, if_true, hshow, List.length_append,
            List.length_singleton]
          omega
      · rw [if_neg h1]
        apply ne_of_two_le
        simp only [List.length_append, List.length_cons, List.length_nil]
        omega

/-- The loop of `toString()` over a map in canonical form that is not empty writes a text
that is neither empty nor "0". -/
theorem render_canon {t : Terms} (h : Canon t) (hne : t ≠ []) :
    render t true ≠ [] ∧ render t true ≠ ['0'] := by
  cases t with
  | nil => exact absurd rfl hne
  | cons a rest =>
    obtain ⟨e, c⟩ := a
    have hc : c ≠ 0 := (h.2 (e, c) (List.mem_cons_self _ _)).1
    simp only [render]
    rw [if_neg hc]
    exact termText_first hc _

/-! ## Result objects that hold no terms -/

/-- Canonical form with empty result objects. Start with no polynomial stored and make any
sequence of calls of `insertTerm`, `add`, `multiply` and `derivative` in which every result
object is a polynomial of its own, empty when `derivative` is called. Then the polynomial at
any address `a` stores no term with coefficient 0 and no term with a negative exponent;
`toString()` returns "0" exactly when the polynomial has no terms (no entry in `storage`, or
an empty one); and `toString()` never returns the empty string. -/
theorem canonical_form (cs : List Call) (hnew : allNew noStorage cs = true) (a : Nat) :
    (∀ t, run noStorage cs a = some t → ∀ p ∈ t, p.2 ≠ 0 ∧ 0 ≤ p.1) ∧
    (toString (run noStorage cs) a = "0" ↔
      (run noStorage cs a = none ∨ run noStorage cs a = some [])) ∧
    toString (run noStorage cs) a ≠ "" := by
  have hc := @run_canon cs noStorage
    (fun a t h => by simp [noStorage] at h) hnew
  cases hs : run noStorage cs a with
  | none =>
    refine ⟨fun t ht => Option.noConfusion ht, ?_, ?_⟩
    · simp [toString, hs]
    · simp only [toString, hs]
      decide
  | some t =>
    have hcan := hc a t hs
    refine ⟨fun t2 ht p hp => ?_, ?_, ?_⟩
    · rw [← Option.some.inj ht] at hp
      exact hcan.2 p hp
    · by_cases hnil : t = []
      · simp [toString, hs, hnil]
      · have hr := (render_canon hcan hnil).2
        simp only [toString, hs, if_neg hnil, Option.some.injEq, hnil, or_false, false_or,
          reduceCtorEq, iff_false]
        intro h
        exact hr (congrArg String.data h)
    · by_cases hnil : t = []
      · simp only [toString, hs, hnil, if_true]
        decide
      · have hr := (render_canon hcan hnil).1
        simp only [toString, hs, if_neg hnil]
        intro h
        exact hr (congrArg String.data h)

/-- The calls `exampleCalls`, for the product stored at address 2, which prints as
"3x^3 - 4x^2 + 6x - 5". -/
theorem canonical_form_example :
    allNew noStorage exampleCalls = true ∧
    toString (run noStorage exampleCalls) 2 = "3x^3 - 4x^2 + 6x - 5" ∧
    ((∀ t, run noStorage exampleCalls 2 = some t → ∀ p ∈ t, p.2 ≠ 0 ∧ 0 ≤ p.1) ∧
    (toString (run noStorage exampleCalls) 2 = "0" ↔
      (run noStorage exampleCalls 2 = none ∨ run noStorage exampleCalls 2 = some [])) ∧
    toString (run noStorage exampleCalls) 2 ≠ "") :=
  ⟨by decide, by decide, canonical_form exampleCalls (by decide) 2⟩

/-! ## The claim about the polynomials -/

/-- C23 (canonical form of the polynomials), evaluated where the code breaks it. From an
empty storage: `p` at address 0 becomes `x^2`, `q` at address 1 becomes `-x^2`,
`p.derivative()` stores `2x` under the address 2 of its result object, where it stays, and
`q.derivative()` is called with its result object at the same address. The loop of
`derivative` adds `-2x` with `+=` and, unlike `insertTerm`, `add` and `multiply`, has no
`erase`: the polynomial stores the term `0x`, a term with coefficient 0, and `toString()`
returns the empty string. The claim says that no term with coefficient 0 is stored and that
`toString()` never returns the empty string. -/
theorem derivative_on_stored_terms :
    run noStorage [Call.insertTerm 0 1 2, Call.insertTerm 1 (-1) 2] 0 = some [(2, 1)] ∧
    run noStorage [Call.insertTerm 0 1 2, Call.insertTerm 1 (-1) 2] 1 = some [(2, -1)] ∧
    run noStorage [Call.insertTerm 0 1 2, Call.insertTerm 1 (-1) 2] 2 = none ∧
    run noStorage [Call.insertTerm 0 1 2, Call.insertTerm 1 (-1) 2, Call.derivative 0 2] 2 =
      some [(1, 2)] ∧
    run noStorage [Call.insertTerm 0 1 2, Call.insertTerm 1 (-1) 2, Call.derivative 0 2,
      Call.derivative 1 2] 2 = some [(1, 0)] ∧
    toString (run noStorage [Call.insertTerm 0 1 2, Call.insertTerm 1 (-1) 2,
      Call.derivative 0 2, Call.derivative 1 2]) 2 = "" ∧
    ¬ (∀ t, run noStorage [Call.insertTerm 0 1 2, Call.insertTerm 1 (-1) 2,
        Call.derivative 0 2, Call.derivative 1 2] 2 = some t → ∀ p ∈ t, p.2 ≠ 0) := by
  refine ⟨by decide, by decide, by decide, by decide, by decide, by decide, ?_⟩
  intro h
  exact h [(1, 0)] (by decide) (1, 0) (List.mem_singleton.2 rfl) rfl

end Poly
